import Mathlib

/-!
Edge telemetry agent: embedding of `src/test.go`.

The agent ingests JSON documents, walks every field path, derives dimension
tuples per path and keeps capped counters per path and per tuple; `flush`
builds a ranked snapshot and resets the window.

Modelling decisions:

* A Go `map[string]T` is an association list (`GoMap`). The order of the list
  stands for the order in which a `range` statement visits the map; maps built
  by the code list their entries in the order of the assignments.
* An `interface{}` value is a `Value`. `encoding/json` yields `null`, `bool`,
  `float`, `str`, `arr`, `obj`; the code itself also stores Go `int`s.
  A `float64` is represented by the rational number it denotes.
* Library code (`encoding/json`, `fmt`'s `%v`, `strings.ToLower`,
  `sort.Slice`) is a parameter, `StdLib`; `sort.Slice` comes with its
  contract (a permutation, ordered by `less`; ties in unspecified order).
* `time.Now().Hour()` is an input of each ingestion. The wall-clock fields
  (`LastSeen`, `FirstSeen`, `lastFlush`, the snapshot's timestamps) are not
  part of the embedding.
* The `int64` counters are unbounded integers: they grow by one per
  observation, so wrap-around needs 2^63 observations inside one window.
* The mutex is not modelled: every operation is one atomic state transition.
-/

namespace EdgeTelemetry

/-! ## Values and maps -/

/-- Dynamic value held in a Go `interface{}`. -/
inductive Value where
  | null
  | bool (b : Bool)
  | float (x : ℚ)
  | int (n : Int)
  | str (s : String)
  | arr (items : List Value)
  | obj (fields : List (String × Value))

/-- Go `map[string]β`: association list, enumeration order = list order. -/
abbrev GoMap (β : Type) := List (String × β)

/-- Map read `m[key]` with the comma-ok result. -/
def mapGet {β : Type} : GoMap β → String → Option β
  | [], _ => none
  | (k, v) :: rest, key => if k = key then some v else mapGet rest key

/-- Map write `m[key] = val`: overwrite in place, or add a new entry. -/
def mapSet {β : Type} : GoMap β → String → β → GoMap β
  | [], key, val => [(key, val)]
  | (k, v) :: rest, key, val =>
    if k = key then (k, val) :: rest else (k, v) :: mapSet rest key val

/-- Keys of a map, in enumeration order. -/
def mapKeys {β : Type} (m : GoMap β) : List String := m.map Prod.fst

/-- Type assertion `v.(map[string]interface{})`. -/
def Value.asObject : Value → Option (GoMap Value)
  | .obj fields => some fields
  | _ => none

/-- Type assertion `v.([]interface{})`. -/
def Value.asArray : Value → Option (List Value)
  | .arr items => some items
  | _ => none

/-- Type assertion `v.(string)`. -/
def Value.asString : Value → Option String
  | .str s => some s
  | _ => none

/-- Type assertion `v.(float64)`. -/
def Value.asFloat : Value → Option ℚ
  | .float x => some x
  | _ => none

/-- Comparison `v != nil` on an `interface{}`: JSON null decodes to nil. -/
def Value.isNil : Value → Bool
  | .null => true
  | _ => false

/-- Assertion `m[key].(map[string]interface{})` (fails on a missing key). -/
def getObject (m : GoMap Value) (key : String) : Option (GoMap Value) :=
  (mapGet m key).bind Value.asObject

/-! ## String helpers (`strings` package, on character lists) -/

/-- Whether `pat` is an initial segment of `s`. -/
def startsWith : List Char → List Char → Bool
  | [], _ => true
  | _ :: _, [] => false
  | p :: ps, c :: cs => p == c && startsWith ps cs

/-- Whether `pat` occurs in `s` as a contiguous block. -/
def containsChars : List Char → List Char → Bool
  | [], pat => pat.isEmpty
  | c :: cs, pat => startsWith pat (c :: cs) || containsChars cs pat

/-- Go `strings.Contains`. -/
def strContains (s sub : String) : Bool := containsChars s.data sub.data

/-- Go `strings.HasSuffix`. -/
def hasSuffix (s suffix : String) : Bool :=
  startsWith suffix.data.reverse s.data.reverse

/-- Go `strings.TrimSuffix`. -/
def trimSuffix (s suffix : String) : String :=
  if hasSuffix s suffix then String.mk (s.data.take (s.data.length - suffix.data.length)) else s

/-- Split a character list at every occurrence of `sep`. -/
def splitChars (sep : Char) : List Char → List (List Char)
  | [] => [[]]
  | c :: cs =>
    if c = sep then [] :: splitChars sep cs
    else
      match splitChars sep cs with
      | [] => [[c]]
      | part :: parts => (c :: part) :: parts

/-- Go `strings.Split(s, ".")`. -/
def splitDots (s : String) : List String := (splitChars '.' s.data).map String.mk

/-- Go `strings.Join`. -/
def strJoin (parts : List String) (sep : String) : String := String.intercalate sep parts

/-! ## Library parameters -/

/-- Library code the agent calls, with the contract of `sort.Slice`. -/
structure StdLib where
  /-- Go `json.Unmarshal` into a `map[string]interface{}`. -/
  unmarshal : String → Except String (GoMap Value)
  /-- Verb `%v` of `fmt.Sprintf`. -/
  formatV : Value → String
  /-- Go `strings.ToLower`. -/
  toLower : String → String
  /-- Go `sort.Slice`, the comparison acting on elements. -/
  sortSlice : {α : Type} → (α → α → Bool) → List α → List α
  /-- Sorting rearranges, it neither adds nor loses elements. -/
  sortSlice_perm : ∀ {α : Type} (less : α → α → Bool) (l : List α),
    List.Perm (sortSlice less l) l
  /-- For a strict weak order no later element is less than an earlier one. -/
  sortSlice_sorted : ∀ {α : Type} (less : α → α → Bool) (l : List α),
    (∀ a b, less a b = true → less b a = false) →
    (∀ a b c, less a b = false → less b c = false → less a c = false) →
    List.Pairwise (fun a b => less b a = false) (sortSlice less l)

/-! ## Data structures -/

/-- One named dimension value. -/
structure Dimension where
  Name : String
  Value : Value

/-- Tuple of one to three dimensions. -/
structure DimensionKey where
  Dimensions : List Dimension

/-- Counters of one dimension tuple under one path. -/
structure DimensionStat where
  PresenceCount : Int
  TotalRequests : Int

/-- Counters, samples and tuple counters of one path. -/
structure ParameterMetric where
  ParameterPath : String
  PresenceCount : Int
  TotalRequests : Int
  SampleValues : List Value
  DimensionCounts : GoMap DimensionStat

/-- Configuration of the agent. -/
structure AgentConfig where
  PrimaryDimensions : List String
  ConditionalDimensions : GoMap (List String)
  MaxParameters : Int
  MaxDimensionCombos : Int
  MaxSampleValues : Int
  FlushIntervalSeconds : Int
  SamplingRate : ℚ

/-- State of the agent. -/
structure EdgeAgent where
  config : AgentConfig
  metrics : GoMap ParameterMetric
  totalReqs : Int
  processedReqs : Int
  agentID : String

/-- Dimension record of a snapshot; `PresenceRate` is `none` where the float
division has a zero denominator. -/
structure DimensionCloudData where
  DimensionKey : String
  PresenceCount : Int
  TotalRequests : Int
  PresenceRate : Option ℚ

/-- Parameter record of a snapshot. -/
structure ParameterCloudData where
  Path : String
  PresenceCount : Int
  TotalRequests : Int
  SampleValues : List Value
  Dimensions : List DimensionCloudData

/-- Snapshot handed to the sink by `flush`. -/
structure CloudPayload where
  AgentID : String
  TotalRequests : Int
  ProcessedReqs : Int
  Parameters : List ParameterCloudData
  /-- Entry `"version"` of `Metadata`. -/
  MetadataVersion : String
  /-- Entry `"config"` of `Metadata`. -/
  MetadataConfig : AgentConfig

/-- Constructor `NewEdgeAgent`; the identifier is derived from the clock. -/
def NewEdgeAgent (config : AgentConfig) (agentID : String) : EdgeAgent :=
  { config := config, metrics := [], totalReqs := 0, processedReqs := 0, agentID := agentID }

/-! ## Schema walker -/

/-- Path of a key below `pfx`: the bare key at the top level. -/
def joinPath (pfx key : String) : String :=
  if pfx ≠ "" then pfx ++ "." ++ key else key

mutual
/-- Walker `extractParameterPaths(obj, prefix)`. -/
def extractParameterPaths : Value → String → List String
  | .obj fields, pfx => extractFieldPaths fields pfx
  | .arr (first :: _), pfx => (pfx ++ "[]") :: extractParameterPaths first (pfx ++ "[]")
  | _, _ => []
/-- Loop over the entries of a mapping in `extractParameterPaths`. -/
def extractFieldPaths : List (String × Value) → String → List String
  | [], _ => []
  | (key, value) :: rest, pfx =>
    (joinPath pfx key :: extractParameterPaths value (joinPath pfx key))
      ++ extractFieldPaths rest pfx
end

/-- One iteration of the loop over `parts` in `getParameterValue`:
`none` is the early `return nil`. -/
def getParameterStep (current : Value) (part : String) : Option Value :=
  if part = "" then some current
  else if hasSuffix part "[]" then
    match current with
    | .obj m =>
      match (mapGet m (trimSuffix part "[]")).bind Value.asArray with
      | some (first :: _) => some first
      | _ => none
    | _ => some current
  else
    match current with
    | .obj m => mapGet m part
    | _ => none

/-- Loop over `parts` in `getParameterValue`; nil is `Value.null`. -/
def getParameterLoop : Value → List String → Value
  | current, [] => current
  | current, part :: parts =>
    match getParameterStep current part with
    | some next => getParameterLoop next parts
    | none => .null

/-- Lookup `getParameterValue(request, paramPath)`. -/
def getParameterValue (request : GoMap Value) (paramPath : String) : Value :=
  getParameterLoop (.obj request) (splitDots paramPath)

/-! ## Dimension extractor -/

/-- Rule chain `inferDeviceType`: 3 connected TV, 1 mobile, 2 desktop. -/
def inferDeviceType (L : StdLib) (request : GoMap Value) : Int :=
  match getObject request "device" with
  | none => 2
  | some device =>
    let uaResult : Option Int :=
      match (mapGet device "ua").bind Value.asString with
      | some ua =>
        let uaLower := L.toLower ua
        if strContains uaLower "smart-tv" || strContains uaLower "tizen" ||
            strContains uaLower "roku" || strContains uaLower "androidtv" then some 3
        else if strContains uaLower "mobile" || strContains uaLower "iphone" then some 1
        else none
      | none => none
    match uaResult with
    | some code => code
    | none =>
      match (mapGet device "make").bind Value.asString with
      | some make =>
        let makeLower := L.toLower make
        if makeLower = "roku" ∨ makeLower = "samsung" ∨ makeLower = "sony" then
          match (mapGet device "model").bind Value.asString with
          | some model => if strContains (L.toLower model) "tv" then 3 else 2
          | none => 2
        else 2
      | none => 2

/-- Primary dimensions `extractPrimaryDimensions`; `hour` is `time.Now().Hour()`. -/
def extractPrimaryDimensions (L : StdLib) (hour : Int) (request : GoMap Value) : GoMap Value :=
  let dims : GoMap Value := []
  let dims :=
    match getObject request "device" with
    | some device =>
      let dims :=
        match mapGet device "devicetype" with
        | some deviceType => mapSet dims "device_type" deviceType
        | none => mapSet dims "device_type" (.int (inferDeviceType L request))
      match getObject device "geo" with
      | some geo =>
        match mapGet geo "country" with
        | some country => mapSet dims "country" country
        | none => dims
      | none => dims
    | none => dims
  let dims :=
    if (mapGet request "app").isSome then mapSet dims "request_type" (.str "app")
    else if (mapGet request "site").isSome then mapSet dims "request_type" (.str "site")
    else mapSet dims "request_type" (.str "unknown")
  mapSet dims "hour" (.int hour)

/-- Helper `hasUserID`. -/
def hasUserID (request : GoMap Value) : Bool :=
  match getObject request "user" with
  | some user => (mapGet user "id").isSome
  | none => false

/-- Helper `hasEIDs`. -/
def hasEIDs (request : GoMap Value) : Bool :=
  match getObject request "user" with
  | some user =>
    match getObject user "ext" with
    | some ext =>
      match (mapGet ext "eids").bind Value.asArray with
      | some eids => decide (eids.length > 0)
      | none => false
    | none => false
  | none => false

/-- Helper `extractContentType`. -/
def extractContentType (request : GoMap Value) : String :=
  match (getObject request "app").bind (fun app => getObject app "content") with
  | some content =>
    match (mapGet content "livestream").bind Value.asFloat with
    | some livestream => if livestream = 1 then "live" else "vod"
    | none => "vod"
  | none =>
    match getObject request "site" with
    | some site => if (mapGet site "content").isSome then "article" else "unknown"
    | none => "unknown"

/-- Helper `hasSeriesInfo`. -/
def hasSeriesInfo (request : GoMap Value) : Bool :=
  match (getObject request "app").bind (fun app => getObject app "content") with
  | some content => (mapGet content "series").isSome
  | none => false

/-- The chain `request["imp"][0]["video"]` shared by the video helpers. -/
def firstImpVideo (request : GoMap Value) : Option (GoMap Value) :=
  match (mapGet request "imp").bind Value.asArray with
  | some (first :: _) =>
    match first.asObject with
    | some impObj => getObject impObj "video"
    | none => none
  | _ => none

/-- Conversion `int(x)` of a float64: the fraction is discarded. -/
def truncFloat (x : ℚ) : Int := Int.tdiv x.num x.den

/-- Helper `extractVideoPlacement`. -/
def extractVideoPlacement (request : GoMap Value) : String :=
  match firstImpVideo request with
  | some video =>
    match (mapGet video "placement").bind Value.asFloat with
    | some placement =>
      if truncFloat placement = 1 then "in-stream"
      else if truncFloat placement = 2 then "in-banner"
      else if truncFloat placement = 3 then "in-article"
      else if truncFloat placement = 4 then "in-feed"
      else "other"
    | none => "unknown"
  | none => "unknown"

/-- Helper `isVideoSkippable`. -/
def isVideoSkippable (request : GoMap Value) : Bool :=
  match firstImpVideo request with
  | some video =>
    match (mapGet video "skip").bind Value.asFloat with
    | some skip => decide (skip = 1)
    | none => false
  | none => false

/-- Helper `extractDeviceMake`. -/
def extractDeviceMake (L : StdLib) (request : GoMap Value) : String :=
  match getObject request "device" with
  | some device =>
    match (mapGet device "make").bind Value.asString with
    | some make => L.toLower make
    | none => "unknown"
  | none => "unknown"

/-- Helper `hasIFA`. -/
def hasIFA (request : GoMap Value) : Bool :=
  match getObject request "device" with
  | some device => (mapGet device "ifa").isSome
  | none => false

/-- Conditional dimensions `extractConditionalDimensions`. -/
def extractConditionalDimensions (L : StdLib) (request : GoMap Value) (paramPath : String) :
    GoMap Value :=
  let conditionalDims : GoMap Value := []
  if strContains paramPath "user" || strContains paramPath "eids" then
    mapSet (mapSet conditionalDims "has_user_id" (.bool (hasUserID request)))
      "has_eids" (.bool (hasEIDs request))
  else if strContains paramPath "content" then
    mapSet (mapSet conditionalDims "content_type" (.str (extractContentType request)))
      "has_series_info" (.bool (hasSeriesInfo request))
  else if strContains paramPath "video" then
    mapSet (mapSet conditionalDims "video_placement" (.str (extractVideoPlacement request)))
      "video_skippable" (.bool (isVideoSkippable request))
  else if strContains paramPath "device" then
    mapSet (mapSet conditionalDims "device_make" (.str (extractDeviceMake L request)))
      "has_ifa" (.bool (hasIFA request))
  else conditionalDims

/-! ## Combination generator -/

/-- The three-way tuple anchored on `pKey`, if `primary` has that key. -/
def threeWayFor (primary conditional : GoMap Value) (pKey : String) : List DimensionKey :=
  match mapGet primary pKey with
  | some pValue =>
    match mapKeys conditional with
    | k0 :: k1 :: _ =>
      [{ Dimensions := [⟨pKey, pValue⟩, ⟨k0, (mapGet conditional k0).getD .null⟩,
          ⟨k1, (mapGet conditional k1).getD .null⟩] }]
    | _ => []
  | none => []

/-- Tuples `generateDimensionCombinations(primary, conditional)`. -/
def generateDimensionCombinations (primary conditional : GoMap Value) : List DimensionKey :=
  let level1 : List DimensionKey :=
    primary.map (fun p => { Dimensions := [⟨p.1, p.2⟩] })
  let level2 : List DimensionKey :=
    primary.flatMap (fun p => conditional.map (fun c => { Dimensions := [⟨p.1, p.2⟩, ⟨c.1, c.2⟩] }))
  let level3 : List DimensionKey :=
    if conditional.length ≥ 2 then
      ["device_type", "request_type"].flatMap (threeWayFor primary conditional)
    else []
  level1 ++ level2 ++ level3

/-- Canonical key `dimensionKeyToString`. -/
def dimensionKeyToString (L : StdLib) (dimKey : DimensionKey) : String :=
  strJoin (dimKey.Dimensions.map (fun dim => dim.Name ++ ":" ++ L.formatV dim.Value)) "|"

/-! ## Aggregator -/

/-- Counter update `updateDimensionCount(metric, dimKey)`. -/
def updateDimensionCount (L : StdLib) (config : AgentConfig) (metric : ParameterMetric)
    (dimKey : DimensionKey) : ParameterMetric :=
  let keyStr := dimensionKeyToString L dimKey
  if config.MaxDimensionCombos ≤ (metric.DimensionCounts.length : Int) then metric
  else
    let dimStat : DimensionStat :=
      match mapGet metric.DimensionCounts keyStr with
      | some stat => stat
      | none => { PresenceCount := 0, TotalRequests := 0 }
    { metric with
      DimensionCounts := mapSet metric.DimensionCounts keyStr
        { PresenceCount := dimStat.PresenceCount + 1, TotalRequests := dimStat.TotalRequests + 1 } }

/-- Metric created by `processParameter` for a path seen for the first time. -/
def newMetric (paramPath : String) : ParameterMetric :=
  { ParameterPath := paramPath, PresenceCount := 0, TotalRequests := 0, SampleValues := [],
    DimensionCounts := [] }

/-- Second half of `processParameter`, on the metric found or created:
counts, sample value, dimension tuples. -/
def recordObservation (L : StdLib) (config : AgentConfig) (hour : Int) (request : GoMap Value)
    (paramPath : String) (metric : ParameterMetric) : ParameterMetric :=
  let metric := { metric with
    PresenceCount := metric.PresenceCount + 1, TotalRequests := metric.TotalRequests + 1 }
  let metric :=
    if (metric.SampleValues.length : Int) < config.MaxSampleValues then
      let value := getParameterValue request paramPath
      if value.isNil then metric
      else { metric with SampleValues := metric.SampleValues ++ [value] }
    else metric
  let primaryDims := extractPrimaryDimensions L hour request
  let conditionalDims := extractConditionalDimensions L request paramPath
  let dimensionKeys := generateDimensionCombinations primaryDims conditionalDims
  dimensionKeys.foldl (updateDimensionCount L config) metric

/-- Update `processParameter(request, paramPath)` of the metrics map. -/
def processParameter (L : StdLib) (config : AgentConfig) (hour : Int) (request : GoMap Value)
    (metrics : GoMap ParameterMetric) (paramPath : String) : GoMap ParameterMetric :=
  match mapGet metrics paramPath with
  | some metric =>
    mapSet metrics paramPath (recordObservation L config hour request paramPath metric)
  | none =>
    if config.MaxParameters ≤ (metrics.length : Int) then metrics
    else
      mapSet metrics paramPath
        (recordObservation L config hour request paramPath (newMetric paramPath))

/-! ## Agent operations -/

/-- Ingestion `ProcessRequest(requestJSON)`: the error returned, if any, and
the state after the call. -/
def ProcessRequest (L : StdLib) (ea : EdgeAgent) (requestJSON : String) (hour : Int) :
    Option String × EdgeAgent :=
  let ea := { ea with totalReqs := ea.totalReqs + 1 }
  match L.unmarshal requestJSON with
  | .error err => (some ("failed to parse JSON: " ++ err), ea)
  | .ok request =>
    let ea := { ea with processedReqs := ea.processedReqs + 1 }
    let paramPaths := extractParameterPaths (.obj request) ""
    (none, { ea with
      metrics := paramPaths.foldl (processParameter L ea.config hour request) ea.metrics })

/-- Dimension record built from one entry of `DimensionCounts`. -/
def toDimensionData (entry : String × DimensionStat) : DimensionCloudData :=
  { DimensionKey := entry.1,
    PresenceCount := entry.2.PresenceCount,
    TotalRequests := entry.2.TotalRequests,
    PresenceRate :=
      if entry.2.TotalRequests = 0 then none
      else some ((entry.2.PresenceCount : ℚ) / (entry.2.TotalRequests : ℚ)) }

/-- Parameter record built from one metric, its dimensions sorted. -/
def toParameterData (L : StdLib) (metric : ParameterMetric) : ParameterCloudData :=
  { Path := metric.ParameterPath,
    PresenceCount := metric.PresenceCount,
    TotalRequests := metric.TotalRequests,
    SampleValues := metric.SampleValues,
    Dimensions :=
      L.sortSlice (fun a b => decide (a.PresenceCount > b.PresenceCount))
        (metric.DimensionCounts.map toDimensionData) }

/-- Snapshot `createCloudPayload()`. -/
def createCloudPayload (L : StdLib) (ea : EdgeAgent) : CloudPayload :=
  { AgentID := ea.agentID,
    TotalRequests := ea.totalReqs,
    ProcessedReqs := ea.processedReqs,
    Parameters :=
      L.sortSlice (fun a b => decide (a.PresenceCount > b.PresenceCount))
        (ea.metrics.map (fun entry => toParameterData L entry.2)),
    MetadataVersion := "1.0",
    MetadataConfig := ea.config }

/-- Operation `flush()`: the snapshot handed to the sink and the reset state. -/
def flush (L : StdLib) (ea : EdgeAgent) : CloudPayload × EdgeAgent :=
  (createCloudPayload L ea,
    { ea with metrics := [], totalReqs := 0, processedReqs := 0 })

/-- One call on the agent. -/
inductive Call where
  | process (requestJSON : String) (hour : Int)
  | flush

/-- State after one call. -/
def step (L : StdLib) (ea : EdgeAgent) : Call → EdgeAgent
  | .process requestJSON hour => (ProcessRequest L ea requestJSON hour).2
  | .flush => (flush L ea).2

/-- State after a sequence of calls. -/
def run (L : StdLib) (ea : EdgeAgent) (calls : List Call) : EdgeAgent :=
  calls.foldl (step L) ea

/-! ## Specification vocabulary -/

/-- Effect of one `processParameter` on the list of tracked paths: a tracked
path changes nothing, a new one is added only below the cap. -/
def trackPath (cap : Int) (keys : List String) (path : String) : List String :=
  if path ∈ keys then keys
  else if cap ≤ (keys.length : Int) then keys
  else keys ++ [path]

/-- The distinct paths of `paths` that are not among `keys`. -/
def newPaths (keys paths : List String) : List String :=
  (paths.filter (fun p => decide (p ∉ keys))).dedup

/-- Every metric is stored under its own `ParameterPath`. -/
def Labelled (metrics : GoMap ParameterMetric) : Prop :=
  ∀ e ∈ metrics, e.2.ParameterPath = e.1

/-- Presence and total count recorded for `path`, if it is tracked. -/
def countsOf (metrics : GoMap ParameterMetric) (path : String) : Option (Int × Int) :=
  (mapGet metrics path).map (fun metric => (metric.PresenceCount, metric.TotalRequests))

/-- Presence and total count of the tuple `key` under `path`, if recorded. -/
def tupleCountsOf (metrics : GoMap ParameterMetric) (path key : String) : Option (Int × Int) :=
  ((mapGet metrics path).bind (fun metric => mapGet metric.DimensionCounts key)).map
    (fun stat => (stat.PresenceCount, stat.TotalRequests))

/-- Ingestions as calls. -/
def ingestions (payloads : List (String × Int)) : List Call :=
  payloads.map (fun c => Call.process c.1 c.2)

/-! ## A concrete library and concrete inputs -/

/-- ASCII lower-casing, the behaviour of `strings.ToLower` on ASCII text. -/
def asciiLower (s : String) : String := String.mk (s.data.map Char.toLower)

/-- Rendering by `%v` of nil, booleans, Go ints, strings and integral floats
of moderate size; fractions and composite values, which the examples do not
format, are rendered schematically. -/
def exampleFormat : Value → String
  | .null => "<nil>"
  | .bool b => if b then "true" else "false"
  | .float x => if x.den = 1 then toString x.num else toString x.num ++ "/" ++ toString x.den
  | .int n => toString n
  | .str s => s
  | .arr _ => "[...]"
  | .obj _ => "map[...]"

/-- Payload `{"id":"x"}`. -/
def payloadId : String := "\x7b\"id\":\"x\"\x7d"

/-- Payload `{"a.b":1,"a":{"b":2}}`: two field locations with one path string. -/
def payloadCollide : String := "\x7b\"a.b\":1,\"a\":\x7b\"b\":2\x7d\x7d"

/-- Payload `{"a":1,"b":2}`. -/
def payloadTwo : String := "\x7b\"a\":1,\"b\":2\x7d"

/-- Payload `{"id":"x","device":{"make":"Roku","model":"Roku TV"}}`. -/
def payloadRokuTv : String :=
  "\x7b\"id\":\"x\",\"device\":\x7b\"make\":\"Roku\",\"model\":\"Roku TV\"\x7d\x7d"

/-- Text that is not JSON. -/
def payloadBad : String := "not json"

/-- Decoding of the example payloads as `encoding/json` decodes them; every
other text is rejected. -/
def exampleUnmarshal (text : String) : Except String (GoMap Value) :=
  if text = payloadId then .ok [("id", .str "x")]
  else if text = payloadCollide then .ok [("a.b", .float 1), ("a", .obj [("b", .float 2)])]
  else if text = payloadTwo then .ok [("a", .float 1), ("b", .float 2)]
  else if text = payloadRokuTv then
    .ok [("id", .str "x"), ("device", .obj [("make", .str "Roku"), ("model", .str "Roku TV")])]
  else .error "invalid character 'o' in literal null (expecting 'u')"

/-- Library instance used to evaluate the agent on concrete inputs; its
`sortSlice` is the stable insertion sort. -/
def exampleLib : StdLib where
  unmarshal := exampleUnmarshal
  formatV := exampleFormat
  toLower := asciiLower
  sortSlice := fun less l => List.insertionSort (fun a b => less b a = false) l
  sortSlice_perm := fun _ l => List.perm_insertionSort _ l
  sortSlice_sorted := by
    intro α less l hasym htrans
    haveI : IsTotal α (fun a b => less b a = false) :=
      ⟨fun a b => by
        cases h : less b a
        · exact Or.inl rfl
        · exact Or.inr (hasym b a h)⟩
    haveI : IsTrans α (fun a b => less b a = false) :=
      ⟨fun a b c hab hbc => htrans c b a hbc hab⟩
    exact List.sorted_insertionSort _ l

/-- Configuration of `main`, with the three caps as parameters. -/
def configWith (maxParameters maxDimensionCombos maxSampleValues : Int) : AgentConfig :=
  { PrimaryDimensions := ["device_type", "request_type", "country", "hour"],
    ConditionalDimensions :=
      [("user.*", ["has_user_id", "has_eids"]),
       ("content.*", ["content_type", "has_series_info"]),
       ("video.*", ["video_placement", "video_skippable"]),
       ("device.*", ["device_make", "has_ifa"])],
    MaxParameters := maxParameters,
    MaxDimensionCombos := maxDimensionCombos,
    MaxSampleValues := maxSampleValues,
    FlushIntervalSeconds := 30,
    SamplingRate := 1 }

/-- Metric of path `id` after one ingestion of `{"id":"x"}` at hour 13 with
`MaxDimensionCombos = 2`: both tuples of the document are recorded once. -/
def cappedMetric : ParameterMetric :=
  { ParameterPath := "id", PresenceCount := 1, TotalRequests := 1, SampleValues := [.str "x"],
    DimensionCounts :=
      [("request_type:unknown", { PresenceCount := 1, TotalRequests := 1 }),
       ("hour:13", { PresenceCount := 1, TotalRequests := 1 })] }

/-- The tuple `request_type = "unknown"`, whose key `cappedMetric` already holds. -/
def seenTuple : DimensionKey :=
  { Dimensions := [{ Name := "request_type", Value := .str "unknown" }] }

/-- Counters of a dimension stat, as a pair. -/
def statCounts (stat : DimensionStat) : Int × Int := (stat.PresenceCount, stat.TotalRequests)

/-! ## Reference definitions -/

mutual
/-- Reference walk, in the words of the specification: a mapping yields, for
each key, the key's path followed by the walk of the key's value under that
path; a non-empty sequence yields its own path followed by the walk of
element 0; anything else yields nothing. -/
def referenceWalk : Value → String → List String
  | .obj fields, parent => referenceWalkKeys fields parent
  | .arr items, parent =>
    match items with
    | [] => []
    | element0 :: _ => [parent ++ "[]"] ++ referenceWalk element0 (parent ++ "[]")
  | .null, _ => []
  | .bool _, _ => []
  | .float _, _ => []
  | .int _, _ => []
  | .str _, _ => []
/-- Reference walk over the keys of a mapping. -/
def referenceWalkKeys : List (String × Value) → String → List String
  | [], _ => []
  | (key, value) :: rest, parent =>
    [if parent = "" then key else parent ++ "." ++ key]
      ++ referenceWalk value (if parent = "" then key else parent ++ "." ++ key)
      ++ referenceWalkKeys rest parent
end

mutual
/-- The document with every sequence cut down to its element 0, at every
depth the walk can reach: two documents with the same image differ only in
sequence elements at index 1 or more. -/
def dropTails : Value → Value
  | .obj fields => .obj (dropTailsFields fields)
  | .arr [] => .arr []
  | .arr (first :: _) => .arr [dropTails first]
  | .null => .null
  | .bool b => .bool b
  | .float x => .float x
  | .int n => .int n
  | .str s => .str s
/-- Cutting the sequences below every key of a mapping. -/
def dropTailsFields : List (String × Value) → List (String × Value)
  | [] => []
  | (key, value) :: rest => (key, dropTails value) :: dropTailsFields rest
end

/-- Ordered rule chain of the specification for the device type, on the
lower-cased user agent, make and model (absent when not a string): the first
rule whose condition holds decides, the default is desktop (2). -/
def deviceTypeRules (uaLower makeLower modelLower : Option String) : List (Bool × Int) :=
  [ (match uaLower with
      | some ua => strContains ua "smart-tv" || strContains ua "tizen" ||
          strContains ua "roku" || strContains ua "androidtv"
      | none => false, 3),
    (match uaLower with
      | some ua => strContains ua "mobile" || strContains ua "iphone"
      | none => false, 1),
    (match makeLower, modelLower with
      | some make, some model =>
        (make == "roku" || make == "samsung" || make == "sony") && strContains model "tv"
      | _, _ => false, 3) ]

/-- First match wins. -/
def firstMatch (rules : List (Bool × Int)) (default : Int) : Int :=
  match rules.find? (fun rule => rule.1) with
  | some rule => rule.2
  | none => default

/-- Rule families of the conditional dimensions, in the order of the
specification: the substrings that select a family, and its names. -/
def conditionalFamilies : List (List String × List String) :=
  [ (["user", "eids"], ["has_user_id", "has_eids"]),
    (["content"], ["content_type", "has_series_info"]),
    (["video"], ["video_placement", "video_skippable"]),
    (["device"], ["device_make", "has_ifa"]) ]

/-- Names of the first family one of whose substrings occurs in the path;
none when no family matches. -/
def referenceConditionalNames (paramPath : String) : List String :=
  match conditionalFamilies.find? (fun family => family.1.any (strContains paramPath)) with
  | some family => family.2
  | none => []

/-- Tuples of `keys` with exactly `n` members. -/
def tuplesOfSize (n : Nat) (keys : List DimensionKey) : List DimensionKey :=
  keys.filter (fun key => decide (key.Dimensions.length = n))

/-- Counts of a metric and of its tuples as the code keeps them: presence and
total count equal and at least one. -/
def CountsSound (e : String × ParameterMetric) : Prop :=
  (e.2.PresenceCount = e.2.TotalRequests ∧ 1 ≤ e.2.TotalRequests) ∧
    ∀ st ∈ e.2.DimensionCounts, st.2.PresenceCount = st.2.TotalRequests ∧ 1 ≤ st.2.TotalRequests

/-- Device `{"make":"Roku","model":"Roku TV"}`. -/
def deviceRokuTv : GoMap Value := [("make", .str "Roku"), ("model", .str "Roku TV")]

/-- Document `{"id":"x","device":{"make":"Roku","model":"Roku TV"}}`. -/
def docRokuTv : GoMap Value := [("id", .str "x"), ("device", .obj deviceRokuTv)]

/-- Device with an iPhone user agent, make Roku and model "Roku TV". -/
def deviceIphoneRoku : GoMap Value :=
  [("ua", .str "Mozilla/5.0 (iPhone; CPU iPhone OS 15_0 like Mac OS X)"),
   ("make", .str "Roku"), ("model", .str "Roku TV")]

/-- Document whose only entry is the device `deviceIphoneRoku`. -/
def docIphoneRoku : GoMap Value := [("device", .obj deviceIphoneRoku)]

/-- Device whose user agent contains both "Tizen" and "Mobile". -/
def deviceTizenMobile : GoMap Value :=
  [("ua", .str "Mozilla/5.0 (Linux; Tizen 2.3) AppleWebKit/537.3 Mobile Safari/537.3")]

/-- Document whose only entry is the device `deviceTizenMobile`. -/
def docTizenMobile : GoMap Value := [("device", .obj deviceTizenMobile)]

/-- One 1-member tuple per entry of the primary mapping. -/
def singleTuples (primary : GoMap Value) : List DimensionKey :=
  primary.map (fun p => { Dimensions := [{ Name := p.1, Value := p.2 }] })

/-- One 2-member tuple per pair of a primary and a conditional entry, the
primary entry first. -/
def pairTuples (primary conditional : GoMap Value) : List DimensionKey :=
  primary.flatMap (fun p => conditional.map (fun c =>
    { Dimensions := [{ Name := p.1, Value := p.2 }, { Name := c.1, Value := c.2 }] }))

/-- One 3-member tuple for each of the names `device_type` and
`request_type` that is a key of the primary mapping: that primary dimension
followed by the conditional entries `c0` and `c1`. -/
def anchoredTriples (primary : GoMap Value) (c0 c1 : String × Value) : List DimensionKey :=
  ["device_type", "request_type"].filterMap (fun name =>
    (mapGet primary name).map (fun value =>
      { Dimensions := [{ Name := name, Value := value }, { Name := c0.1, Value := c0.2 },
          { Name := c1.1, Value := c1.2 }] }))

/-- Whether `json.Unmarshal` accepts the payload. -/
def decodes (L : StdLib) (requestJSON : String) : Bool :=
  match L.unmarshal requestJSON with
  | .ok _ => true
  | .error _ => false

/-- Two configurations with the same three caps. -/
def SameCaps (c1 c2 : AgentConfig) : Prop :=
  c1.MaxParameters = c2.MaxParameters ∧ c1.MaxDimensionCombos = c2.MaxDimensionCombos ∧
    c1.MaxSampleValues = c2.MaxSampleValues

/-- The configuration of `main` with the three caps 1000, 50, 5, sampling
rate 0 and a flush interval of one second. -/
def configNoSampling : AgentConfig :=
  { configWith 1000 50 5 with SamplingRate := 0, FlushIntervalSeconds := 1 }

/-- A mapping key that is not empty, contains no "." and does not end in "[]". -/
def CleanKey (key : String) : Prop :=
  key ≠ "" ∧ '.' ∉ key.data ∧ hasSuffix key "[]" = false

mutual
/-- Every mapping the walk visits has pairwise distinct, clean keys. -/
def WalkClean : Value → Prop
  | .obj fields => (mapKeys fields).Nodup ∧ WalkCleanFields fields
  | .arr [] => True
  | .arr (first :: _) => WalkClean first
  | .null => True
  | .bool _ => True
  | .float _ => True
  | .int _ => True
  | .str _ => True
/-- The entries of a mapping have clean keys and walk-clean values. -/
def WalkCleanFields : List (String × Value) → Prop
  | [] => True
  | (key, value) :: rest => CleanKey key ∧ WalkClean value ∧ WalkCleanFields rest
end

/-- What the walk appends to a path: segments ".key" with a clean key, and
segments "[]". -/
inductive SegmentTail : List Char → Prop
  | nil : SegmentTail []
  | key (k : String) (t : List Char) : CleanKey k → SegmentTail t →
      SegmentTail ('.' :: (k.data ++ t))
  | index (t : List Char) : SegmentTail t → SegmentTail ('[' :: ']' :: t)

/-- Characters that `joinPath pfx` puts before the key. -/
def pathBase (pfx : String) : List Char :=
  if pfx = "" then [] else pfx.data ++ ['.']

/-- The app content of a document: `request["app"]["content"]`, both mappings. -/
def appContent (request : GoMap Value) : Option (GoMap Value) :=
  (getObject request "app").bind (fun app => getObject app "content")

/-- Whether the site of a document, a mapping, has a `content` entry. -/
def hasSiteContent (request : GoMap Value) : Bool :=
  match getObject request "site" with
  | some site => (mapGet site "content").isSome
  | none => false

/-- How many of the names `device_type`, `request_type` are keys of `primary`. -/
def anchorCount (primary : GoMap Value) : Nat :=
  (["device_type", "request_type"].filter (fun name => (mapGet primary name).isSome)).length

/-- Names of the members of a tuple, in order. -/
def tupleNames (key : DimensionKey) : List String := key.Dimensions.map (fun d => d.Name)

/-- Names of the tuples that `generateDimensionCombinations` builds from
mappings with the key lists `primaryNames` and `conditionalNames`. -/
def combinationNames (primaryNames conditionalNames : List String) : List (List String) :=
  primaryNames.map (fun n => [n])
    ++ primaryNames.flatMap (fun n => conditionalNames.map (fun m => [n, m]))
    ++ (if conditionalNames.length ≥ 2 then
          ["device_type", "request_type"].flatMap (fun anchor =>
            if anchor ∈ primaryNames then
              match conditionalNames with
              | k0 :: k1 :: _ => [[anchor, k0, k1]]
              | _ => []
            else [])
        else [])

/-- Key lists that `extractPrimaryDimensions` can return. -/
def primaryShapes : List (List String) :=
  [["request_type", "hour"], ["device_type", "request_type", "hour"],
    ["device_type", "country", "request_type", "hour"]]

/-- Key lists that `extractConditionalDimensions` can return. -/
def conditionalShapes : List (List String) :=
  [[], ["has_user_id", "has_eids"], ["content_type", "has_series_info"],
    ["video_placement", "video_skippable"], ["device_make", "has_ifa"]]

/-- Characters of one member of a canonical key: name, ":", rendered value. -/
def memberChars (L : StdLib) (d : Dimension) : List Char :=
  d.Name.data ++ ':' :: (L.formatV d.Value).data

/-- Characters of the canonical key of a tuple with first member `d` and
further members `ds`. -/
def keyChars (L : StdLib) (d : Dimension) (ds : List Dimension) : List Char :=
  memberChars L d ++ ds.flatMap (fun e => '|' :: memberChars L e)

/-- Presence count recorded for the tuple `key` in `counts`, 0 when absent. -/
def presenceOf (counts : GoMap DimensionStat) (key : String) : Int :=
  match mapGet counts key with
  | some stat => stat.PresenceCount
  | none => 0

mutual
/-- The walk of `extractParameterPaths`, each path with the node the walker
is at when it emits the path: the value of the key, or the first element of
the sequence. -/
def walkNodes : Value → String → List (String × Value)
  | .obj fields, pfx => walkFieldNodes fields pfx
  | .arr (first :: _), pfx => (pfx ++ "[]", first) :: walkNodes first (pfx ++ "[]")
  | _, _ => []
/-- Loop over the entries of a mapping in `walkNodes`. -/
def walkFieldNodes : List (String × Value) → String → List (String × Value)
  | [], _ => []
  | (key, value) :: rest, pfx =>
    ((joinPath pfx key, value) :: walkNodes value (joinPath pfx key))
      ++ walkFieldNodes rest pfx
end

mutual
/-- No sequence the walk visits has a sequence as its first element. -/
def FlatSequences : Value → Prop
  | .obj fields => FlatSequencesFields fields
  | .arr [] => True
  | .arr (first :: _) => first.asArray = none ∧ FlatSequences first
  | .null => True
  | .bool _ => True
  | .float _ => True
  | .int _ => True
  | .str _ => True
/-- The values of the entries of a mapping satisfy `FlatSequences`. -/
def FlatSequencesFields : List (String × Value) → Prop
  | [] => True
  | (_, value) :: rest => FlatSequences value ∧ FlatSequencesFields rest
end

/-- Document `{"id":"x","imp":[{"id":"1"}]}`. -/
def docImp : GoMap Value := [("id", .str "x"), ("imp", .arr [.obj [("id", .str "1")]])]

/-- Path `parent` is the parent path of `child`: the child without its
trailing "[]", or without its last ".key" segment, `key` a clean key. -/
def ParentPath (parent child : String) : Prop :=
  child = parent ++ "[]" ∨ ∃ key, CleanKey key ∧ child = parent ++ "." ++ key

/-- Every path of the list comes after its parent path, if it has one: the
parent is in `seen` or earlier in the list. -/
def OrderedFrom : List String → List String → Prop
  | _, [] => True
  | seen, path :: rest =>
    (∀ parent, ParentPath parent path → parent ∈ seen) ∧ OrderedFrom (path :: seen) rest

/-- Presence count of `path` in `metrics`, 0 when the path is not tracked. -/
def presenceAt (metrics : GoMap ParameterMetric) (path : String) : Int :=
  match mapGet metrics path with
  | some metric => metric.PresenceCount
  | none => 0

/-- Every payload of `calls` that decodes gives a document in which every
mapping the walk visits has clean, pairwise distinct keys. -/
def CleanCalls (L : StdLib) (calls : List Call) : Prop :=
  ∀ requestJSON hour request, Call.process requestJSON hour ∈ calls →
    L.unmarshal requestJSON = .ok request → WalkClean (.obj request)

/-! ## Map lemmas -/

theorem mapGet_eq_none_iff {β : Type} (m : GoMap β) (key : String) :
    mapGet m key = none ↔ key ∉ mapKeys m := by
  induction m with
  | nil => simp [mapGet, mapKeys]
  | cons e rest ih =>
    obtain ⟨k, v⟩ := e
    by_cases h : k = key
    · simp [mapGet, mapKeys, h]
    · have h2 : ¬ key = k := fun h3 => h h3.symm
      simpa [mapGet, mapKeys, h, h2] using ih

theorem mapGet_isSome_iff {β : Type} (m : GoMap β) (key : String) :
    (∃ v, mapGet m key = some v) ↔ key ∈ mapKeys m := by
  rw [← not_iff_not, ← mapGet_eq_none_iff]
  cases mapGet m key <;> simp

theorem mapKeys_mapSet {β : Type} (m : GoMap β) (key : String) (val : β) :
    mapKeys (mapSet m key val) = if key ∈ mapKeys m then mapKeys m else mapKeys m ++ [key] := by
  induction m with
  | nil => simp [mapSet, mapKeys]
  | cons e rest ih =>
    obtain ⟨k, v⟩ := e
    by_cases h : k = key
    · simp [mapSet, mapKeys, h]
    · have h2 : ¬ key = k := fun h3 => h h3.symm
      simp only [mapKeys] at ih
      by_cases h3 : key ∈ List.map Prod.fst rest
      · simp [mapSet, mapKeys, h, h2, h3, ih]
      · simp [mapSet, mapKeys, h, h2, h3, ih]

theorem mapSet_length {β : Type} (m : GoMap β) (key : String) (val : β) :
    (mapSet m key val).length = if key ∈ mapKeys m then m.length else m.length + 1 := by
  have h := congrArg List.length (mapKeys_mapSet m key val)
  by_cases hk : key ∈ mapKeys m
  · rw [if_pos hk] at h ⊢
    simpa [mapKeys] using h
  · rw [if_neg hk] at h ⊢
    simpa [mapKeys] using h

theorem mapGet_mapSet_self {β : Type} (m : GoMap β) (key : String) (val : β) :
    mapGet (mapSet m key val) key = some val := by
  induction m with
  | nil => simp [mapSet, mapGet]
  | cons e rest ih =>
    obtain ⟨k, v⟩ := e
    by_cases h : k = key
    · simp [mapSet, mapGet, h]
    · simp [mapSet, mapGet, h, ih]

theorem mapGet_mapSet_ne {β : Type} (m : GoMap β) (key other : String) (val : β)
    (hne : other ≠ key) : mapGet (mapSet m key val) other = mapGet m other := by
  induction m with
  | nil =>
    have h2 : ¬ key = other := fun h3 => hne h3.symm
    simp [mapSet, mapGet, h2]
  | cons e rest ih =>
    obtain ⟨k, v⟩ := e
    by_cases h : k = key
    · subst h
      have h2 : ¬ k = other := fun h3 => hne h3.symm
      simp [mapSet, mapGet, h2]
    · by_cases h4 : k = other
      · subst h4
        simp [mapSet, mapGet, h]
      · simp [mapSet, mapGet, h, h4, ih]

theorem mem_mapSet {β : Type} (m : GoMap β) (key : String) (val : β) (e : String × β)
    (he : e ∈ mapSet m key val) : e ∈ m ∨ e = (key, val) := by
  induction m with
  | nil => simpa [mapSet] using he
  | cons e0 rest ih =>
    obtain ⟨k, v⟩ := e0
    by_cases h : k = key
    · simp only [mapSet, h, if_true, List.mem_cons] at he
      rcases he with he | he
      · exact Or.inr he
      · exact Or.inl (List.mem_cons_of_mem _ he)
    · simp only [mapSet, h, if_false, List.mem_cons] at he
      rcases he with he | he
      · exact Or.inl (he ▸ List.mem_cons_self _ _)
      · rcases ih he with h1 | h1
        · exact Or.inl (List.mem_cons_of_mem _ h1)
        · exact Or.inr h1

theorem nodup_mapKeys_mapSet {β : Type} (m : GoMap β) (key : String) (val : β)
    (hnd : (mapKeys m).Nodup) : (mapKeys (mapSet m key val)).Nodup := by
  rw [mapKeys_mapSet]
  split
  · exact hnd
  · rename_i h
    exact List.Nodup.append hnd (List.nodup_singleton _) (by simpa using h)

/-! ## Tracked paths -/

theorem trackPath_length_le (cap : Int) (keys : List String) (path : String)
    (h : (keys.length : Int) ≤ cap) : ((trackPath cap keys path).length : Int) ≤ cap := by
  unfold trackPath
  split
  · exact h
  · split
    · exact h
    · rename_i h1 h2
      simp only [List.length_append, List.length_singleton, Nat.cast_add, Nat.cast_one]
      omega

theorem trackPath_nodup (cap : Int) (keys : List String) (path : String)
    (h : keys.Nodup) : (trackPath cap keys path).Nodup := by
  unfold trackPath
  split
  · exact h
  · split
    · exact h
    · rename_i h1 h2
      exact List.Nodup.append h (List.nodup_singleton _) (by simpa using h1)

theorem trackPath_full (cap : Int) (keys : List String) (path : String)
    (h : cap ≤ (keys.length : Int)) : trackPath cap keys path = keys := by
  by_cases h1 : path ∈ keys <;> simp [trackPath, h1, h]

theorem foldl_trackPath_full (cap : Int) (paths : List String) (keys : List String)
    (h : cap ≤ (keys.length : Int)) : paths.foldl (trackPath cap) keys = keys := by
  induction paths with
  | nil => rfl
  | cons p ps ih => rw [List.foldl_cons, trackPath_full cap keys p h, ih]

theorem trackPath_subset (cap : Int) (keys : List String) (path : String) :
    keys ⊆ trackPath cap keys path := by
  unfold trackPath
  split
  · exact fun _ h => h
  · split
    · exact fun _ h => h
    · exact fun _ h => List.mem_append_left _ h

theorem foldl_trackPath_subset (cap : Int) (paths : List String) (keys : List String) :
    keys ⊆ paths.foldl (trackPath cap) keys := by
  induction paths generalizing keys with
  | nil => exact fun _ h => h
  | cons p ps ih =>
    rw [List.foldl_cons]
    exact fun x hx => ih _ (trackPath_subset cap keys p hx)

theorem foldl_trackPath_length_le (cap : Int) (paths : List String) (keys : List String)
    (h : (keys.length : Int) ≤ cap) : ((paths.foldl (trackPath cap) keys).length : Int) ≤ cap := by
  induction paths generalizing keys with
  | nil => exact h
  | cons p ps ih =>
    rw [List.foldl_cons]
    exact ih _ (trackPath_length_le cap keys p h)

theorem foldl_trackPath_nodup (cap : Int) (paths : List String) (keys : List String)
    (h : keys.Nodup) : (paths.foldl (trackPath cap) keys).Nodup := by
  induction paths generalizing keys with
  | nil => exact h
  | cons p ps ih =>
    rw [List.foldl_cons]
    exact ih _ (trackPath_nodup cap keys p h)

/-! ## Aggregator lemmas -/

theorem updateDimensionCount_fields (L : StdLib) (config : AgentConfig) (metric : ParameterMetric)
    (dimKey : DimensionKey) :
    (updateDimensionCount L config metric dimKey).ParameterPath = metric.ParameterPath ∧
    (updateDimensionCount L config metric dimKey).PresenceCount = metric.PresenceCount ∧
    (updateDimensionCount L config metric dimKey).TotalRequests = metric.TotalRequests ∧
    (updateDimensionCount L config metric dimKey).SampleValues = metric.SampleValues := by
  unfold updateDimensionCount
  dsimp only
  split <;> simp

theorem foldl_updateDimensionCount_fields (L : StdLib) (config : AgentConfig)
    (dimKeys : List DimensionKey) (metric : ParameterMetric) :
    (dimKeys.foldl (updateDimensionCount L config) metric).ParameterPath = metric.ParameterPath ∧
    (dimKeys.foldl (updateDimensionCount L config) metric).PresenceCount = metric.PresenceCount ∧
    (dimKeys.foldl (updateDimensionCount L config) metric).TotalRequests = metric.TotalRequests ∧
    (dimKeys.foldl (updateDimensionCount L config) metric).SampleValues = metric.SampleValues := by
  induction dimKeys generalizing metric with
  | nil => simp
  | cons d ds ih =>
    rw [List.foldl_cons]
    obtain ⟨h1, h2, h3, h4⟩ := ih (updateDimensionCount L config metric d)
    obtain ⟨g1, g2, g3, g4⟩ := updateDimensionCount_fields L config metric d
    exact ⟨h1.trans g1, h2.trans g2, h3.trans g3, h4.trans g4⟩

theorem updateDimensionCount_bound (L : StdLib) (config : AgentConfig) (metric : ParameterMetric)
    (dimKey : DimensionKey)
    (h : (metric.DimensionCounts.length : Int) ≤ config.MaxDimensionCombos ∧
      (mapKeys metric.DimensionCounts).Nodup) :
    ((updateDimensionCount L config metric dimKey).DimensionCounts.length : Int)
        ≤ config.MaxDimensionCombos ∧
      (mapKeys (updateDimensionCount L config metric dimKey).DimensionCounts).Nodup := by
  unfold updateDimensionCount
  dsimp only
  split
  · exact h
  · rename_i hlt
    refine ⟨?_, nodup_mapKeys_mapSet _ _ _ h.2⟩
    rw [mapSet_length]
    split
    · exact h.1
    · push_cast
      omega

theorem foldl_updateDimensionCount_bound (L : StdLib) (config : AgentConfig)
    (dimKeys : List DimensionKey) (metric : ParameterMetric)
    (h : (metric.DimensionCounts.length : Int) ≤ config.MaxDimensionCombos ∧
      (mapKeys metric.DimensionCounts).Nodup) :
    ((dimKeys.foldl (updateDimensionCount L config) metric).DimensionCounts.length : Int)
        ≤ config.MaxDimensionCombos ∧
      (mapKeys (dimKeys.foldl (updateDimensionCount L config) metric).DimensionCounts).Nodup := by
  induction dimKeys generalizing metric with
  | nil => exact h
  | cons d ds ih =>
    rw [List.foldl_cons]
    exact ih _ (updateDimensionCount_bound L config metric d h)

theorem recordObservation_fields (L : StdLib) (config : AgentConfig) (hour : Int)
    (request : GoMap Value) (paramPath : String) (metric : ParameterMetric) :
    (recordObservation L config hour request paramPath metric).ParameterPath
        = metric.ParameterPath ∧
    (recordObservation L config hour request paramPath metric).PresenceCount
        = metric.PresenceCount + 1 ∧
    (recordObservation L config hour request paramPath metric).TotalRequests
        = metric.TotalRequests + 1 := by
  unfold recordObservation
  dsimp only
  refine ⟨?_, ?_, ?_⟩
  · rw [(foldl_updateDimensionCount_fields L config _ _).1]
    split
    · split <;> rfl
    · rfl
  · rw [(foldl_updateDimensionCount_fields L config _ _).2.1]
    split
    · split <;> rfl
    · rfl
  · rw [(foldl_updateDimensionCount_fields L config _ _).2.2.1]
    split
    · split <;> rfl
    · rfl

theorem recordObservation_bound (L : StdLib) (config : AgentConfig) (hour : Int)
    (request : GoMap Value) (paramPath : String) (metric : ParameterMetric)
    (h : (metric.DimensionCounts.length : Int) ≤ config.MaxDimensionCombos ∧
      (mapKeys metric.DimensionCounts).Nodup) :
    ((recordObservation L config hour request paramPath metric).DimensionCounts.length : Int)
        ≤ config.MaxDimensionCombos ∧
      (mapKeys (recordObservation L config hour request paramPath metric).DimensionCounts).Nodup := by
  unfold recordObservation
  dsimp only
  apply foldl_updateDimensionCount_bound
  split
  · split
    · exact h
    · exact h
  · exact h

theorem processParameter_keys (L : StdLib) (config : AgentConfig) (hour : Int)
    (request : GoMap Value) (metrics : GoMap ParameterMetric) (paramPath : String) :
    mapKeys (processParameter L config hour request metrics paramPath)
      = trackPath config.MaxParameters (mapKeys metrics) paramPath := by
  unfold processParameter trackPath
  cases hget : mapGet metrics paramPath with
  | none =>
    have hnot : paramPath ∉ mapKeys metrics := (mapGet_eq_none_iff _ _).1 hget
    have hlen : (mapKeys metrics).length = metrics.length := by simp [mapKeys]
    dsimp only
    rw [if_neg hnot, hlen]
    split
    · rfl
    · rw [mapKeys_mapSet, if_neg hnot]
  | some metric =>
    have hin : paramPath ∈ mapKeys metrics := (mapGet_isSome_iff _ _).1 ⟨metric, hget⟩
    dsimp only
    rw [if_pos hin, mapKeys_mapSet, if_pos hin]

theorem foldl_processParameter_keys (L : StdLib) (config : AgentConfig) (hour : Int)
    (request : GoMap Value) (paths : List String) (metrics : GoMap ParameterMetric) :
    mapKeys (paths.foldl (processParameter L config hour request) metrics)
      = paths.foldl (trackPath config.MaxParameters) (mapKeys metrics) := by
  induction paths generalizing metrics with
  | nil => rfl
  | cons p ps ih => rw [List.foldl_cons, List.foldl_cons, ih, processParameter_keys]

theorem length_eq_mapKeys_length {β : Type} (m : GoMap β) : m.length = (mapKeys m).length := by
  simp [mapKeys]

theorem mapGet_mem {β : Type} (m : GoMap β) (key : String) (val : β)
    (h : mapGet m key = some val) : (key, val) ∈ m := by
  induction m with
  | nil => simp [mapGet] at h
  | cons e rest ih =>
    obtain ⟨k, v⟩ := e
    by_cases hk : k = key
    · simp only [mapGet, hk, if_true, Option.some.injEq] at h
      simp [hk, h]
    · simp only [mapGet, hk, if_false] at h
      exact List.mem_cons_of_mem _ (ih h)

theorem processParameter_forall (L : StdLib) (config : AgentConfig) (hour : Int)
    (request : GoMap Value) (metrics : GoMap ParameterMetric) (paramPath : String)
    (P : String × ParameterMetric → Prop) (hall : ∀ e ∈ metrics, P e)
    (hnew : P (paramPath, recordObservation L config hour request paramPath (newMetric paramPath)))
    (hupd : ∀ metric, (paramPath, metric) ∈ metrics →
      P (paramPath, recordObservation L config hour request paramPath metric)) :
    ∀ e ∈ processParameter L config hour request metrics paramPath, P e := by
  intro e he
  unfold processParameter at he
  cases hget : mapGet metrics paramPath with
  | none =>
    rw [hget] at he
    dsimp only at he
    split at he
    · exact hall e he
    · rcases mem_mapSet _ _ _ _ he with h1 | h1
      · exact hall e h1
      · rw [h1]; exact hnew
  | some metric =>
    rw [hget] at he
    dsimp only at he
    rcases mem_mapSet _ _ _ _ he with h1 | h1
    · exact hall e h1
    · rw [h1]; exact hupd metric (mapGet_mem _ _ _ hget)

theorem foldl_processParameter_forall (L : StdLib) (config : AgentConfig) (hour : Int)
    (request : GoMap Value) (P : String × ParameterMetric → Prop)
    (hnew : ∀ path, P (path, recordObservation L config hour request path (newMetric path)))
    (hupd : ∀ path metric, P (path, metric) →
      P (path, recordObservation L config hour request path metric))
    (paths : List String) (metrics : GoMap ParameterMetric) (hall : ∀ e ∈ metrics, P e) :
    ∀ e ∈ paths.foldl (processParameter L config hour request) metrics, P e := by
  induction paths generalizing metrics with
  | nil => exact hall
  | cons p ps ih =>
    rw [List.foldl_cons]
    exact ih _ (processParameter_forall L config hour request metrics p P hall (hnew p)
      (fun metric hm => hupd p metric (hall _ hm)))

theorem ProcessRequest_error (L : StdLib) (ea : EdgeAgent) (requestJSON : String) (hour : Int)
    (err : String) (h : L.unmarshal requestJSON = .error err) :
    ProcessRequest L ea requestJSON hour
      = (some ("failed to parse JSON: " ++ err), { ea with totalReqs := ea.totalReqs + 1 }) := by
  unfold ProcessRequest
  rw [h]

theorem ProcessRequest_ok (L : StdLib) (ea : EdgeAgent) (requestJSON : String) (hour : Int)
    (request : GoMap Value) (h : L.unmarshal requestJSON = .ok request) :
    ProcessRequest L ea requestJSON hour
      = (none, { ea with
          totalReqs := ea.totalReqs + 1,
          processedReqs := ea.processedReqs + 1,
          metrics := (extractParameterPaths (.obj request) "").foldl
            (processParameter L ea.config hour request) ea.metrics }) := by
  unfold ProcessRequest
  rw [h]

theorem ProcessRequest_config (L : StdLib) (ea : EdgeAgent) (requestJSON : String) (hour : Int) :
    (ProcessRequest L ea requestJSON hour).2.config = ea.config := by
  cases h : L.unmarshal requestJSON with
  | error err => rw [ProcessRequest_error L ea requestJSON hour err h]
  | ok request => rw [ProcessRequest_ok L ea requestJSON hour request h]

theorem step_config (L : StdLib) (ea : EdgeAgent) (call : Call) :
    (step L ea call).config = ea.config := by
  cases call with
  | process requestJSON hour => exact ProcessRequest_config L ea requestJSON hour
  | flush => rfl

theorem run_config (L : StdLib) (calls : List Call) (ea : EdgeAgent) :
    (run L ea calls).config = ea.config := by
  induction calls generalizing ea with
  | nil => rfl
  | cons c cs ih =>
    show (run L (step L ea c) cs).config = ea.config
    rw [ih, step_config]

/-- Invariant of a step: whatever holds of the empty map and is kept by one
ingestion holds in every state reached. -/
theorem run_invariant (L : StdLib) (Inv : EdgeAgent → Prop)
    (hflush : ∀ ea, Inv ea → Inv (flush L ea).2)
    (hproc : ∀ ea requestJSON hour, Inv ea → Inv (ProcessRequest L ea requestJSON hour).2)
    (calls : List Call) (ea : EdgeAgent) (h : Inv ea) : Inv (run L ea calls) := by
  induction calls generalizing ea with
  | nil => exact h
  | cons c cs ih =>
    show Inv (run L (step L ea c) cs)
    apply ih
    cases c with
    | process requestJSON hour => exact hproc ea requestJSON hour h
    | flush => exact hflush ea h

theorem ProcessRequest_keys_bound (L : StdLib) (ea : EdgeAgent) (requestJSON : String)
    (hour : Int)
    (h : (ea.metrics.length : Int) ≤ ea.config.MaxParameters ∧ (mapKeys ea.metrics).Nodup) :
    ((ProcessRequest L ea requestJSON hour).2.metrics.length : Int) ≤ ea.config.MaxParameters ∧
      (mapKeys (ProcessRequest L ea requestJSON hour).2.metrics).Nodup := by
  cases hd : L.unmarshal requestJSON with
  | error err =>
    rw [ProcessRequest_error L ea requestJSON hour err hd]
    exact h
  | ok request =>
    rw [ProcessRequest_ok L ea requestJSON hour request hd]
    dsimp only
    rw [length_eq_mapKeys_length, foldl_processParameter_keys]
    constructor
    · apply foldl_trackPath_length_le
      rw [← length_eq_mapKeys_length]
      exact h.1
    · exact foldl_trackPath_nodup _ _ _ h.2

theorem ProcessRequest_dims_bound (L : StdLib) (ea : EdgeAgent) (requestJSON : String)
    (hour : Int) (hcap : 0 ≤ ea.config.MaxDimensionCombos)
    (h : ∀ e ∈ ea.metrics, (e.2.DimensionCounts.length : Int) ≤ ea.config.MaxDimensionCombos ∧
      (mapKeys e.2.DimensionCounts).Nodup) :
    ∀ e ∈ (ProcessRequest L ea requestJSON hour).2.metrics,
      (e.2.DimensionCounts.length : Int) ≤ ea.config.MaxDimensionCombos ∧
      (mapKeys e.2.DimensionCounts).Nodup := by
  cases hd : L.unmarshal requestJSON with
  | error err =>
    rw [ProcessRequest_error L ea requestJSON hour err hd]
    exact h
  | ok request =>
    rw [ProcessRequest_ok L ea requestJSON hour request hd]
    dsimp only
    apply foldl_processParameter_forall L ea.config hour request
      (fun e => (e.2.DimensionCounts.length : Int) ≤ ea.config.MaxDimensionCombos ∧
        (mapKeys e.2.DimensionCounts).Nodup)
    · intro path
      apply recordObservation_bound
      exact ⟨by simpa [newMetric] using hcap, by simp [newMetric, mapKeys]⟩
    · intro path metric hm
      exact recordObservation_bound L ea.config hour request path metric hm
    · exact h

/-! ## Counting new paths -/

theorem newPaths_cons_mem (keys paths : List String) (path : String) (h : path ∈ keys) :
    newPaths keys (path :: paths) = newPaths keys paths := by
  simp [newPaths, List.filter_cons, h]

theorem newPaths_cons_not_mem (keys paths : List String) (path : String) (h : path ∉ keys) :
    (newPaths keys (path :: paths)).length = (newPaths (keys ++ [path]) paths).length + 1 := by
  unfold newPaths
  rw [← List.card_toFinset, ← List.card_toFinset]
  have h1 : (List.filter (fun p => decide (p ∉ keys)) (path :: paths)).toFinset
      = insert path (List.filter (fun p => decide (p ∉ keys)) paths).toFinset := by
    simp [List.filter_cons, h]
  have h2 : (List.filter (fun p => decide (p ∉ keys ++ [path])) paths).toFinset
      = (insert path (List.filter (fun p => decide (p ∉ keys)) paths).toFinset).erase path := by
    ext x
    simp only [List.mem_toFinset, List.mem_filter, List.mem_append, List.mem_singleton,
      decide_eq_true_eq, Finset.mem_erase, Finset.mem_insert, not_or]
    constructor
    · rintro ⟨hx, hk, hne⟩
      exact ⟨hne, Or.inr ⟨hx, hk⟩⟩
    · rintro ⟨hne, hx | ⟨hx, hk⟩⟩
      · exact absurd hx hne
      · exact ⟨hx, hk, hne⟩
  rw [h1, h2]
  exact (Finset.card_erase_add_one (Finset.mem_insert_self _ _)).symm

theorem foldl_trackPath_length (cap : Int) (paths : List String) (keys : List String)
    (h : (keys.length : Int) ≤ cap) :
    ((paths.foldl (trackPath cap) keys).length : Int)
      = min cap ((keys.length : Int) + ((newPaths keys paths).length : Int)) := by
  induction paths generalizing keys with
  | nil =>
    simp only [List.foldl_nil, newPaths, List.filter_nil, List.dedup_nil, List.length_nil,
      Nat.cast_zero, add_zero]
    omega
  | cons p ps ih =>
    rw [List.foldl_cons]
    by_cases hp : p ∈ keys
    · have ht : trackPath cap keys p = keys := by simp [trackPath, hp]
      rw [ht, newPaths_cons_mem keys ps p hp]
      exact ih keys h
    · by_cases hfull : cap ≤ (keys.length : Int)
      · rw [trackPath_full cap keys p hfull, foldl_trackPath_full cap ps keys hfull]
        have hn : (0 : Int) ≤ ((newPaths keys (p :: ps)).length : Int) := Int.natCast_nonneg _
        omega
      · have ht : trackPath cap keys p = keys ++ [p] := by simp [trackPath, hp, hfull]
        have hlen : ((keys ++ [p]).length : Int) = (keys.length : Int) + 1 := by simp
        rw [ht, ih (keys ++ [p]) (by omega), newPaths_cons_not_mem keys ps p hp, hlen]
        push_cast
        congr 1
        omega

theorem foldl_trackPath_tracked (cap : Int) (paths : List String) (keys : List String)
    (h : (keys.length : Int) + ((newPaths keys paths).length : Int) ≤ cap) :
    ∀ p ∈ paths, p ∈ paths.foldl (trackPath cap) keys := by
  induction paths generalizing keys with
  | nil => intro p hp; cases hp
  | cons q qs ih =>
    intro p hp
    rw [List.foldl_cons]
    by_cases hq : q ∈ keys
    · have ht : trackPath cap keys q = keys := by simp [trackPath, hq]
      rw [ht]
      rw [newPaths_cons_mem keys qs q hq] at h
      rcases List.mem_cons.1 hp with h1 | h1
      · exact foldl_trackPath_subset cap qs keys (h1 ▸ hq)
      · exact ih keys h p h1
    · have hcount := newPaths_cons_not_mem keys qs q hq
      have hroom : ¬ cap ≤ (keys.length : Int) := by
        have : ((newPaths keys (q :: qs)).length : Int)
            = ((newPaths (keys ++ [q]) qs).length : Int) + 1 := by exact_mod_cast hcount
        have hn : (0 : Int) ≤ ((newPaths (keys ++ [q]) qs).length : Int) := Int.natCast_nonneg _
        omega
      have ht : trackPath cap keys q = keys ++ [q] := by simp [trackPath, hq, hroom]
      rw [ht]
      have hlen : ((keys ++ [q]).length : Int) = (keys.length : Int) + 1 := by simp
      have h2 : ((keys ++ [q]).length : Int) + ((newPaths (keys ++ [q]) qs).length : Int)
          ≤ cap := by
        have : ((newPaths keys (q :: qs)).length : Int)
            = ((newPaths (keys ++ [q]) qs).length : Int) + 1 := by exact_mod_cast hcount
        omega
      rcases List.mem_cons.1 hp with h1 | h1
      · exact foldl_trackPath_subset cap qs (keys ++ [q]) (by simp [h1])
      · exact ih (keys ++ [q]) h2 p h1

theorem foldl_trackPath_dropped_full (cap : Int) (paths : List String) (keys : List String)
    (p : String) (hp : p ∈ paths) (hnot : p ∉ paths.foldl (trackPath cap) keys) :
    cap ≤ ((paths.foldl (trackPath cap) keys).length : Int) := by
  induction paths generalizing keys with
  | nil => cases hp
  | cons q qs ih =>
    rw [List.foldl_cons] at hnot ⊢
    by_cases hpq : p ∈ qs
    · exact ih _ hpq hnot
    · have h1 : p = q := by
        rcases List.mem_cons.1 hp with h1 | h1
        · exact h1
        · exact absurd h1 hpq
      subst h1
      have hnk : p ∉ trackPath cap keys p :=
        fun hin => hnot (foldl_trackPath_subset cap qs _ hin)
      have hfull : cap ≤ (keys.length : Int) := by
        by_contra hroom
        apply hnk
        by_cases hk : p ∈ keys
        · simp [trackPath, hk]
        · simp [trackPath, hk, hroom]
      rw [trackPath_full cap keys p hfull, foldl_trackPath_full cap qs keys hfull]
      exact hfull

/-! ## Counts of a tracked path -/

theorem processParameter_get_ne (L : StdLib) (config : AgentConfig) (hour : Int)
    (request : GoMap Value) (metrics : GoMap ParameterMetric) (paramPath other : String)
    (hne : other ≠ paramPath) :
    mapGet (processParameter L config hour request metrics paramPath) other
      = mapGet metrics other := by
  unfold processParameter
  cases hget : mapGet metrics paramPath with
  | none =>
    dsimp only
    split
    · rfl
    · exact mapGet_mapSet_ne _ _ _ _ hne
  | some metric =>
    dsimp only
    exact mapGet_mapSet_ne _ _ _ _ hne

theorem foldl_processParameter_counts (L : StdLib) (config : AgentConfig) (hour : Int)
    (request : GoMap Value) (paths : List String) (metrics : GoMap ParameterMetric)
    (p : String) (r : ParameterMetric)
    (h : mapGet (paths.foldl (processParameter L config hour request) metrics) p = some r) :
    r.PresenceCount = ((countsOf metrics p).getD (0, 0)).1 + (paths.count p : Int) ∧
      r.TotalRequests = ((countsOf metrics p).getD (0, 0)).2 + (paths.count p : Int) := by
  induction paths generalizing metrics with
  | nil =>
    simp only [List.foldl_nil] at h
    simp [countsOf, h]
  | cons q qs ih =>
    rw [List.foldl_cons] at h
    have hih := ih _ h
    by_cases hqp : q = p
    · subst hqp
      rw [List.count_cons_self]
      cases hget : mapGet metrics q with
      | some m0 =>
        have hpp : processParameter L config hour request metrics q
            = mapSet metrics q (recordObservation L config hour request q m0) := by
          unfold processParameter; rw [hget]
        rw [hpp] at hih
        have hf := recordObservation_fields L config hour request q m0
        simp only [countsOf, mapGet_mapSet_self, hget, Option.map_some', Option.getD_some,
          hf.2.1, hf.2.2] at hih ⊢
        push_cast
        omega
      | none =>
        by_cases hfull : config.MaxParameters ≤ (metrics.length : Int)
        · exfalso
          have hpp : processParameter L config hour request metrics q = metrics := by
            unfold processParameter; rw [hget]; simp [hfull]
          rw [hpp] at h
          have hkeys := foldl_processParameter_keys L config hour request qs metrics
          rw [foldl_trackPath_full _ _ _ (by rw [← length_eq_mapKeys_length]; exact hfull)]
            at hkeys
          have hnot : q ∉ mapKeys metrics := (mapGet_eq_none_iff _ _).1 hget
          rw [← hkeys] at hnot
          rw [(mapGet_eq_none_iff _ _).2 hnot] at h
          cases h
        · have hpp : processParameter L config hour request metrics q
              = mapSet metrics q (recordObservation L config hour request q (newMetric q)) := by
            unfold processParameter; rw [hget]; simp [hfull]
          rw [hpp] at hih
          have hf := recordObservation_fields L config hour request q (newMetric q)
          have hz1 : (newMetric q).PresenceCount = 0 := rfl
          have hz2 : (newMetric q).TotalRequests = 0 := rfl
          simp only [countsOf, mapGet_mapSet_self, hget, Option.map_some', Option.getD_some,
            Option.map_none', Option.getD_none, hf.2.1, hf.2.2, hz1, hz2] at hih ⊢
          push_cast
          omega
    · rw [List.count_cons_of_ne (fun h3 => hqp h3.symm)]
      simp only [countsOf, processParameter_get_ne L config hour request metrics q p
        (fun h3 => hqp h3.symm)] at hih ⊢
      exact hih

/-! ## Ingestion and snapshot lemmas -/

theorem newPaths_nil (paths : List String) : newPaths [] paths = paths.dedup := by
  simp [newPaths]

theorem ProcessRequest_labelled (L : StdLib) (ea : EdgeAgent) (requestJSON : String)
    (hour : Int) (h : Labelled ea.metrics) :
    Labelled (ProcessRequest L ea requestJSON hour).2.metrics := by
  cases hd : L.unmarshal requestJSON with
  | error err =>
    rw [ProcessRequest_error L ea requestJSON hour err hd]
    exact h
  | ok request =>
    rw [ProcessRequest_ok L ea requestJSON hour request hd]
    dsimp only
    apply foldl_processParameter_forall L ea.config hour request
      (fun e => e.2.ParameterPath = e.1)
    · intro path
      exact (recordObservation_fields L ea.config hour request path (newMetric path)).1
    · intro path metric hm
      exact (recordObservation_fields L ea.config hour request path metric).1.trans hm
    · exact h

theorem ProcessRequest_keys_full (L : StdLib) (ea : EdgeAgent) (requestJSON : String)
    (hour : Int) (hfull : ea.config.MaxParameters ≤ (ea.metrics.length : Int)) :
    mapKeys (ProcessRequest L ea requestJSON hour).2.metrics = mapKeys ea.metrics := by
  cases hd : L.unmarshal requestJSON with
  | error err => rw [ProcessRequest_error L ea requestJSON hour err hd]
  | ok request =>
    rw [ProcessRequest_ok L ea requestJSON hour request hd]
    dsimp only
    rw [foldl_processParameter_keys]
    exact foldl_trackPath_full _ _ _ (by rw [← length_eq_mapKeys_length]; exact hfull)

theorem run_ingestions_full (L : StdLib) (later : List (String × Int)) (ea : EdgeAgent)
    (hfull : ea.config.MaxParameters ≤ (ea.metrics.length : Int)) (hlab : Labelled ea.metrics) :
    mapKeys (run L ea (ingestions later)).metrics = mapKeys ea.metrics ∧
      Labelled (run L ea (ingestions later)).metrics := by
  induction later generalizing ea with
  | nil => exact ⟨rfl, hlab⟩
  | cons c cs ih =>
    show mapKeys (run L (ProcessRequest L ea c.1 c.2).2 (ingestions cs)).metrics
        = mapKeys ea.metrics ∧
      Labelled (run L (ProcessRequest L ea c.1 c.2).2 (ingestions cs)).metrics
    have hkeys := ProcessRequest_keys_full L ea c.1 c.2 hfull
    have hlen : (ProcessRequest L ea c.1 c.2).2.metrics.length = ea.metrics.length := by
      rw [length_eq_mapKeys_length, hkeys, ← length_eq_mapKeys_length]
    have h := ih (ProcessRequest L ea c.1 c.2).2
      (by rw [ProcessRequest_config, hlen]; exact hfull)
      (ProcessRequest_labelled L ea c.1 c.2 hlab)
    exact ⟨h.1.trans hkeys, h.2⟩

theorem mem_createCloudPayload (L : StdLib) (ea : EdgeAgent) (record : ParameterCloudData)
    (h : record ∈ (createCloudPayload L ea).Parameters) :
    ∃ e ∈ ea.metrics, record = toParameterData L e.2 := by
  unfold createCloudPayload at h
  dsimp only at h
  rw [(L.sortSlice_perm _ _).mem_iff] at h
  obtain ⟨e, he, heq⟩ := List.mem_map.1 h
  exact ⟨e, he, heq.symm⟩

theorem snapshot_path_tracked (L : StdLib) (ea : EdgeAgent) (hlab : Labelled ea.metrics)
    (record : ParameterCloudData) (h : record ∈ (flush L ea).1.Parameters) :
    record.Path ∈ mapKeys ea.metrics := by
  obtain ⟨e, he, heq⟩ := mem_createCloudPayload L ea record h
  rw [heq]
  show e.2.ParameterPath ∈ mapKeys ea.metrics
  rw [hlab e he]
  exact List.mem_map.2 ⟨e, he, rfl⟩

/-- Every state reached from `NewEdgeAgent` stores each metric under its own
path. -/
theorem run_labelled (L : StdLib) (config : AgentConfig) (agentID : String)
    (calls : List Call) : Labelled (run L (NewEdgeAgent config agentID) calls).metrics :=
  run_invariant L (fun ea => Labelled ea.metrics)
    (fun _ _ e he => by cases he)
    (fun ea requestJSON hour h => ProcessRequest_labelled L ea requestJSON hour h)
    calls (NewEdgeAgent config agentID) (fun e he => by cases he)

/-! ## Counts and samples -/

theorem updateDimensionCount_stats (L : StdLib) (config : AgentConfig) (metric : ParameterMetric)
    (dimKey : DimensionKey)
    (h : ∀ st ∈ metric.DimensionCounts,
      st.2.PresenceCount = st.2.TotalRequests ∧ 1 ≤ st.2.TotalRequests) :
    ∀ st ∈ (updateDimensionCount L config metric dimKey).DimensionCounts,
      st.2.PresenceCount = st.2.TotalRequests ∧ 1 ≤ st.2.TotalRequests := by
  unfold updateDimensionCount
  dsimp only
  split
  · exact h
  · intro st hst
    rcases mem_mapSet _ _ _ _ hst with h1 | h1
    · exact h st h1
    · rw [h1]
      dsimp only
      cases hget : mapGet metric.DimensionCounts (dimensionKeyToString L dimKey) with
      | none =>
        dsimp only
        omega
      | some stat =>
        have hs := h _ (mapGet_mem _ _ _ hget)
        dsimp only at hs ⊢
        omega

theorem foldl_updateDimensionCount_stats (L : StdLib) (config : AgentConfig)
    (dimKeys : List DimensionKey) (metric : ParameterMetric)
    (h : ∀ st ∈ metric.DimensionCounts,
      st.2.PresenceCount = st.2.TotalRequests ∧ 1 ≤ st.2.TotalRequests) :
    ∀ st ∈ (dimKeys.foldl (updateDimensionCount L config) metric).DimensionCounts,
      st.2.PresenceCount = st.2.TotalRequests ∧ 1 ≤ st.2.TotalRequests := by
  induction dimKeys generalizing metric with
  | nil => exact h
  | cons d ds ih =>
    rw [List.foldl_cons]
    exact ih _ (updateDimensionCount_stats L config metric d h)

theorem recordObservation_stats (L : StdLib) (config : AgentConfig) (hour : Int)
    (request : GoMap Value) (paramPath : String) (metric : ParameterMetric)
    (h : ∀ st ∈ metric.DimensionCounts,
      st.2.PresenceCount = st.2.TotalRequests ∧ 1 ≤ st.2.TotalRequests) :
    ∀ st ∈ (recordObservation L config hour request paramPath metric).DimensionCounts,
      st.2.PresenceCount = st.2.TotalRequests ∧ 1 ≤ st.2.TotalRequests := by
  unfold recordObservation
  dsimp only
  apply foldl_updateDimensionCount_stats
  split
  · split
    · exact h
    · exact h
  · exact h

theorem recordObservation_sound (L : StdLib) (config : AgentConfig) (hour : Int)
    (request : GoMap Value) (paramPath : String) (metric : ParameterMetric)
    (hc : metric.PresenceCount = metric.TotalRequests ∧ 0 ≤ metric.TotalRequests)
    (h : ∀ st ∈ metric.DimensionCounts,
      st.2.PresenceCount = st.2.TotalRequests ∧ 1 ≤ st.2.TotalRequests) :
    CountsSound (paramPath, recordObservation L config hour request paramPath metric) := by
  have hf := recordObservation_fields L config hour request paramPath metric
  refine ⟨⟨?_, ?_⟩, recordObservation_stats L config hour request paramPath metric h⟩
  · show (recordObservation L config hour request paramPath metric).PresenceCount
      = (recordObservation L config hour request paramPath metric).TotalRequests
    rw [hf.2.1, hf.2.2, hc.1]
  · show 1 ≤ (recordObservation L config hour request paramPath metric).TotalRequests
    rw [hf.2.2]
    omega

theorem ProcessRequest_sound (L : StdLib) (ea : EdgeAgent) (requestJSON : String) (hour : Int)
    (h : ∀ e ∈ ea.metrics, CountsSound e) :
    ∀ e ∈ (ProcessRequest L ea requestJSON hour).2.metrics, CountsSound e := by
  cases hd : L.unmarshal requestJSON with
  | error err =>
    rw [ProcessRequest_error L ea requestJSON hour err hd]
    exact h
  | ok request =>
    rw [ProcessRequest_ok L ea requestJSON hour request hd]
    dsimp only
    apply foldl_processParameter_forall L ea.config hour request CountsSound
    · intro path
      exact recordObservation_sound L ea.config hour request path (newMetric path)
        ⟨rfl, le_refl _⟩ (fun st hst => by cases hst)
    · intro path metric hm
      exact recordObservation_sound L ea.config hour request path metric
        ⟨hm.1.1, le_trans (by decide) (show (1 : Int) ≤ metric.TotalRequests from hm.1.2)⟩ hm.2
    · exact h

/-- Every state reached from `NewEdgeAgent` keeps presence and total counts
equal and at least one, for metrics and for tuples. -/
theorem run_sound (L : StdLib) (config : AgentConfig) (agentID : String) (calls : List Call) :
    ∀ e ∈ (run L (NewEdgeAgent config agentID) calls).metrics, CountsSound e :=
  run_invariant L (fun ea => ∀ e ∈ ea.metrics, CountsSound e)
    (fun _ _ e he => by cases he)
    (fun ea requestJSON hour h => ProcessRequest_sound L ea requestJSON hour h)
    calls (NewEdgeAgent config agentID) (fun e he => by cases he)

theorem mem_snapshot_dimensions (L : StdLib) (ea : EdgeAgent) (record : ParameterCloudData)
    (hrec : record ∈ (createCloudPayload L ea).Parameters) (d : DimensionCloudData)
    (hd : d ∈ record.Dimensions) :
    ∃ e ∈ ea.metrics, ∃ st ∈ e.2.DimensionCounts, d = toDimensionData st := by
  obtain ⟨e, he, heq⟩ := mem_createCloudPayload L ea record hrec
  rw [heq] at hd
  unfold toParameterData at hd
  dsimp only at hd
  rw [(L.sortSlice_perm _ _).mem_iff] at hd
  obtain ⟨st, hst, hdeq⟩ := List.mem_map.1 hd
  exact ⟨e, he, st, hst, hdeq.symm⟩

theorem recordObservation_samples (L : StdLib) (config : AgentConfig) (hour : Int)
    (request : GoMap Value) (paramPath : String) (metric : ParameterMetric) :
    (∃ added, (recordObservation L config hour request paramPath metric).SampleValues
        = metric.SampleValues ++ added) ∧
      ((metric.SampleValues.length : Int) ≤ config.MaxSampleValues →
        ((recordObservation L config hour request paramPath metric).SampleValues.length : Int)
          ≤ config.MaxSampleValues) := by
  unfold recordObservation
  dsimp only
  rw [(foldl_updateDimensionCount_fields L config _ _).2.2.2]
  split
  · rename_i hlt
    split
    · exact ⟨⟨[], by simp⟩, fun hle => hle⟩
    · refine ⟨⟨[getParameterValue request paramPath], rfl⟩, fun _ => ?_⟩
      simp only [List.length_append, List.length_singleton, Nat.cast_add, Nat.cast_one]
      omega
  · exact ⟨⟨[], by simp⟩, fun hle => hle⟩

theorem processParameter_samples (L : StdLib) (config : AgentConfig) (hour : Int)
    (request : GoMap Value) (metrics : GoMap ParameterMetric) (paramPath path : String)
    (metric : ParameterMetric) (h : mapGet metrics path = some metric) :
    ∃ after added, mapGet (processParameter L config hour request metrics paramPath) path
        = some after ∧ after.SampleValues = metric.SampleValues ++ added := by
  by_cases hp : path = paramPath
  · subst hp
    obtain ⟨added, hadd⟩ := (recordObservation_samples L config hour request path metric).1
    refine ⟨recordObservation L config hour request path metric, added, ?_, hadd⟩
    unfold processParameter
    rw [h]
    exact mapGet_mapSet_self _ _ _
  · refine ⟨metric, [], ?_, by simp⟩
    rw [processParameter_get_ne L config hour request metrics paramPath path hp]
    exact h

theorem foldl_processParameter_samples (L : StdLib) (config : AgentConfig) (hour : Int)
    (request : GoMap Value) (paths : List String) (metrics : GoMap ParameterMetric)
    (path : String) (metric : ParameterMetric) (h : mapGet metrics path = some metric) :
    ∃ after added, mapGet (paths.foldl (processParameter L config hour request) metrics) path
        = some after ∧ after.SampleValues = metric.SampleValues ++ added := by
  induction paths generalizing metrics metric with
  | nil => exact ⟨metric, [], h, by simp⟩
  | cons p ps ih =>
    rw [List.foldl_cons]
    obtain ⟨mid, added1, hmid, hadd1⟩ :=
      processParameter_samples L config hour request metrics p path metric h
    obtain ⟨after, added2, hafter, hadd2⟩ := ih _ mid hmid
    exact ⟨after, added1 ++ added2, hafter, by rw [hadd2, hadd1, List.append_assoc]⟩

theorem ProcessRequest_samples_bound (L : StdLib) (ea : EdgeAgent) (requestJSON : String)
    (hour : Int) (hcap : 0 ≤ ea.config.MaxSampleValues)
    (h : ∀ e ∈ ea.metrics, (e.2.SampleValues.length : Int) ≤ ea.config.MaxSampleValues) :
    ∀ e ∈ (ProcessRequest L ea requestJSON hour).2.metrics,
      (e.2.SampleValues.length : Int) ≤ ea.config.MaxSampleValues := by
  cases hd : L.unmarshal requestJSON with
  | error err =>
    rw [ProcessRequest_error L ea requestJSON hour err hd]
    exact h
  | ok request =>
    rw [ProcessRequest_ok L ea requestJSON hour request hd]
    dsimp only
    apply foldl_processParameter_forall L ea.config hour request
      (fun e => (e.2.SampleValues.length : Int) ≤ ea.config.MaxSampleValues)
    · intro path
      exact (recordObservation_samples L ea.config hour request path (newMetric path)).2
        (by simpa [newMetric] using hcap)
    · intro path metric hm
      exact (recordObservation_samples L ea.config hour request path metric).2 hm
    · exact h

theorem sortSlice_nil (L : StdLib) {α : Type} (less : α → α → Bool) :
    L.sortSlice less [] = [] :=
  List.Perm.eq_nil (L.sortSlice_perm less [])

/-! ## Walker lemmas -/

theorem joinPath_eq (pfx key : String) :
    joinPath pfx key = if pfx = "" then key else pfx ++ "." ++ key := by
  unfold joinPath
  by_cases h : pfx = "" <;> simp [h]

mutual
theorem walk_eq_reference : ∀ (v : Value) (pfx : String),
    extractParameterPaths v pfx = referenceWalk v pfx
  | .obj fields, pfx => by
    rw [extractParameterPaths, referenceWalk]
    exact walkFields_eq_reference fields pfx
  | .arr [], pfx => by
    simp [extractParameterPaths, referenceWalk]
  | .arr (first :: rest), pfx => by
    rw [extractParameterPaths, referenceWalk, walk_eq_reference first (pfx ++ "[]")]
    rfl
  | .null, pfx => by simp [extractParameterPaths, referenceWalk]
  | .bool _, pfx => by simp [extractParameterPaths, referenceWalk]
  | .float _, pfx => by simp [extractParameterPaths, referenceWalk]
  | .int _, pfx => by simp [extractParameterPaths, referenceWalk]
  | .str _, pfx => by simp [extractParameterPaths, referenceWalk]
theorem walkFields_eq_reference : ∀ (fields : List (String × Value)) (pfx : String),
    extractFieldPaths fields pfx = referenceWalkKeys fields pfx
  | [], pfx => by rw [extractFieldPaths, referenceWalkKeys]
  | (key, value) :: rest, pfx => by
    rw [extractFieldPaths, referenceWalkKeys, walk_eq_reference value (joinPath pfx key),
      walkFields_eq_reference rest pfx, joinPath_eq]
    rfl
end

theorem walkFields_flatMap (fields : List (String × Value)) (pfx : String) :
    extractFieldPaths fields pfx
      = fields.flatMap (fun kv =>
          (if pfx = "" then kv.1 else pfx ++ "." ++ kv.1)
            :: extractParameterPaths kv.2 (if pfx = "" then kv.1 else pfx ++ "." ++ kv.1)) := by
  induction fields with
  | nil => rw [extractFieldPaths]; rfl
  | cons e rest ih =>
    obtain ⟨key, value⟩ := e
    rw [extractFieldPaths, ih, joinPath_eq, List.flatMap_cons]

mutual
theorem walk_dropTails : ∀ (v : Value) (pfx : String),
    extractParameterPaths (dropTails v) pfx = extractParameterPaths v pfx
  | .obj fields, pfx => by
    rw [dropTails, extractParameterPaths, extractParameterPaths]
    exact walkFields_dropTails fields pfx
  | .arr [], pfx => by rw [dropTails]
  | .arr (first :: rest), pfx => by
    rw [dropTails, extractParameterPaths, extractParameterPaths,
      walk_dropTails first (pfx ++ "[]")]
  | .null, pfx => by rw [dropTails]
  | .bool _, pfx => by rw [dropTails]
  | .float _, pfx => by rw [dropTails]
  | .int _, pfx => by rw [dropTails]
  | .str _, pfx => by rw [dropTails]
theorem walkFields_dropTails : ∀ (fields : List (String × Value)) (pfx : String),
    extractFieldPaths (dropTailsFields fields) pfx = extractFieldPaths fields pfx
  | [], pfx => by rw [dropTailsFields]
  | (key, value) :: rest, pfx => by
    rw [dropTailsFields, extractFieldPaths, extractFieldPaths,
      walk_dropTails value (joinPath pfx key), walkFields_dropTails rest pfx]
end

/-! ## Dimension lemmas -/

theorem extractPrimaryDimensions_device_type (L : StdLib) (hour : Int) (request : GoMap Value) :
    mapGet (extractPrimaryDimensions L hour request) "device_type"
      = match getObject request "device" with
        | some device =>
          some (match mapGet device "devicetype" with
            | some deviceType => deviceType
            | none => .int (inferDeviceType L request))
        | none => none := by
  unfold extractPrimaryDimensions
  dsimp only
  rw [mapGet_mapSet_ne _ _ _ _ (by decide)]
  have hreq : ∀ (dims : GoMap Value),
      mapGet (if (mapGet request "app").isSome = true then
          mapSet dims "request_type" (.str "app")
        else if (mapGet request "site").isSome = true then
          mapSet dims "request_type" (.str "site")
        else mapSet dims "request_type" (.str "unknown")) "device_type"
        = mapGet dims "device_type" := by
    intro dims
    split
    · exact mapGet_mapSet_ne _ _ _ _ (by decide)
    · split
      · exact mapGet_mapSet_ne _ _ _ _ (by decide)
      · exact mapGet_mapSet_ne _ _ _ _ (by decide)
  rw [hreq]
  cases getObject request "device" with
  | none => rfl
  | some device =>
    dsimp only
    have hgeo : ∀ (dims : GoMap Value),
        mapGet (match getObject device "geo" with
          | some geo =>
            match mapGet geo "country" with
            | some country => mapSet dims "country" country
            | none => dims
          | none => dims) "device_type" = mapGet dims "device_type" := by
      intro dims
      cases getObject device "geo" with
      | none => rfl
      | some geo =>
        dsimp only
        cases mapGet geo "country" with
        | none => rfl
        | some country => exact mapGet_mapSet_ne _ _ _ _ (by decide)
    rw [hgeo]
    cases mapGet device "devicetype" with
    | none => rfl
    | some deviceType => rfl

theorem inferDeviceType_eq_firstMatch (L : StdLib) (request device : GoMap Value)
    (hdev : getObject request "device" = some device) :
    inferDeviceType L request
      = firstMatch (deviceTypeRules
          (((mapGet device "ua").bind Value.asString).map L.toLower)
          (((mapGet device "make").bind Value.asString).map L.toLower)
          (((mapGet device "model").bind Value.asString).map L.toLower)) 2 := by
  unfold inferDeviceType
  rw [hdev]
  dsimp only
  cases (mapGet device "ua").bind Value.asString with
  | some ua =>
    dsimp only [Option.map]
    by_cases h1 : (strContains (L.toLower ua) "smart-tv" || strContains (L.toLower ua) "tizen" ||
        strContains (L.toLower ua) "roku" || strContains (L.toLower ua) "androidtv") = true
    · simp [firstMatch, deviceTypeRules, List.find?, h1]
    · by_cases h2 : (strContains (L.toLower ua) "mobile" ||
          strContains (L.toLower ua) "iphone") = true
      · simp [firstMatch, deviceTypeRules, List.find?, h1, h2]
      · cases (mapGet device "make").bind Value.asString with
        | none => simp [firstMatch, deviceTypeRules, List.find?, h1, h2]
        | some make =>
          cases (mapGet device "model").bind Value.asString with
          | none =>
            by_cases h3 : L.toLower make = "roku" ∨ L.toLower make = "samsung" ∨
                L.toLower make = "sony"
            · simp [firstMatch, deviceTypeRules, List.find?, h1, h2, h3]
            · simp [firstMatch, deviceTypeRules, List.find?, h1, h2, h3]
          | some model =>
            by_cases h3 : L.toLower make = "roku" ∨ L.toLower make = "samsung" ∨
                L.toLower make = "sony"
            · have hb : (L.toLower make == "roku" || L.toLower make == "samsung" ||
                  L.toLower make == "sony") = true := by simpa [or_assoc] using h3
              by_cases h4 : strContains (L.toLower model) "tv" = true
              · simp [firstMatch, deviceTypeRules, List.find?, h1, h2, h3, h4, hb]
              · simp [firstMatch, deviceTypeRules, List.find?, h1, h2, h3, h4, hb]
            · have hb : (L.toLower make == "roku" || L.toLower make == "samsung" ||
                  L.toLower make == "sony") = false := by simpa [and_assoc] using h3
              simp [firstMatch, deviceTypeRules, List.find?, h1, h2, h3, hb]
  | none =>
    dsimp only [Option.map]
    cases (mapGet device "make").bind Value.asString with
    | none => simp [firstMatch, deviceTypeRules, List.find?]
    | some make =>
      cases (mapGet device "model").bind Value.asString with
      | none =>
        by_cases h3 : L.toLower make = "roku" ∨ L.toLower make = "samsung" ∨
            L.toLower make = "sony"
        · simp [firstMatch, deviceTypeRules, List.find?, h3]
        · simp [firstMatch, deviceTypeRules, List.find?, h3]
      | some model =>
        by_cases h3 : L.toLower make = "roku" ∨ L.toLower make = "samsung" ∨
            L.toLower make = "sony"
        · have hb : (L.toLower make == "roku" || L.toLower make == "samsung" ||
              L.toLower make == "sony") = true := by simpa [or_assoc] using h3
          by_cases h4 : strContains (L.toLower model) "tv" = true
          · simp [firstMatch, deviceTypeRules, List.find?, h3, h4, hb]
          · simp [firstMatch, deviceTypeRules, List.find?, h3, h4, hb]
        · have hb : (L.toLower make == "roku" || L.toLower make == "samsung" ||
              L.toLower make == "sony") = false := by simpa [and_assoc] using h3
          simp [firstMatch, deviceTypeRules, List.find?, h3, hb]

theorem firstMatch_none (rules : List (Bool × Int)) (default : Int)
    (h : ∀ rule ∈ rules, rule.1 = false) : firstMatch rules default = default := by
  unfold firstMatch
  have hnone : rules.find? (fun rule => rule.1) = none := by
    rw [List.find?_eq_none]
    intro rule hrule
    simp [h rule hrule]
  rw [hnone]

theorem inferDeviceType_no_device (L : StdLib) (request : GoMap Value)
    (h : getObject request "device" = none) : inferDeviceType L request = 2 := by
  unfold inferDeviceType
  rw [h]

/-! ## Combination lemmas -/

theorem threeWayFor_length (primary conditional : GoMap Value) (pKey : String) :
    ∀ key ∈ threeWayFor primary conditional pKey, key.Dimensions.length = 3 := by
  intro key hkey
  unfold threeWayFor at hkey
  cases hp : mapGet primary pKey with
  | none => rw [hp] at hkey; cases hkey
  | some pValue =>
    rw [hp] at hkey
    dsimp only at hkey
    cases hk : mapKeys conditional with
    | nil => rw [hk] at hkey; cases hkey
    | cons k0 ks =>
      cases ks with
      | nil => rw [hk] at hkey; cases hkey
      | cons k1 ks2 =>
        rw [hk] at hkey
        dsimp only at hkey
        rw [List.mem_singleton.1 hkey]
        rfl

theorem threeWayFor_head (primary conditional : GoMap Value) (pKey : String) :
    ∀ key ∈ threeWayFor primary conditional pKey,
      ∃ p ∈ primary, key.Dimensions.head? = some { Name := p.1, Value := p.2 } := by
  intro key hkey
  unfold threeWayFor at hkey
  cases hp : mapGet primary pKey with
  | none => rw [hp] at hkey; cases hkey
  | some pValue =>
    rw [hp] at hkey
    dsimp only at hkey
    cases hk : mapKeys conditional with
    | nil => rw [hk] at hkey; cases hkey
    | cons k0 ks =>
      cases ks with
      | nil => rw [hk] at hkey; cases hkey
      | cons k1 ks2 =>
        rw [hk] at hkey
        dsimp only at hkey
        rw [List.mem_singleton.1 hkey]
        exact ⟨(pKey, pValue), mapGet_mem _ _ _ hp, rfl⟩

theorem generateDimensionCombinations_eq (primary conditional : GoMap Value) :
    generateDimensionCombinations primary conditional
      = singleTuples primary ++ pairTuples primary conditional ++
          (if conditional.length ≥ 2 then
            ["device_type", "request_type"].flatMap (threeWayFor primary conditional)
          else []) := rfl

theorem level3_length (primary conditional : GoMap Value) :
    ∀ key ∈ (if conditional.length ≥ 2 then
          ["device_type", "request_type"].flatMap (threeWayFor primary conditional)
        else []),
      key.Dimensions.length = 3 := by
  intro key hkey
  split at hkey
  · obtain ⟨name, _, hmem⟩ := List.mem_flatMap.1 hkey
    exact threeWayFor_length primary conditional name key hmem
  · cases hkey

theorem singleTuples_length (primary : GoMap Value) :
    ∀ key ∈ singleTuples primary, key.Dimensions.length = 1 := by
  intro key hkey
  obtain ⟨p, _, hp⟩ := List.mem_map.1 hkey
  rw [← hp]
  rfl

theorem pairTuples_length (primary conditional : GoMap Value) :
    ∀ key ∈ pairTuples primary conditional, key.Dimensions.length = 2 := by
  intro key hkey
  obtain ⟨p, _, hmem⟩ := List.mem_flatMap.1 hkey
  obtain ⟨c, _, hc⟩ := List.mem_map.1 hmem
  rw [← hc]
  rfl

theorem pairTuples_count (primary conditional : GoMap Value) :
    (pairTuples primary conditional).length = primary.length * conditional.length := by
  unfold pairTuples
  induction primary with
  | nil => simp
  | cons p ps ih =>
    rw [List.flatMap_cons, List.length_append, ih, List.length_map, List.length_cons]
    ring

theorem tuplesOfSize_append (n : Nat) (a b : List DimensionKey) :
    tuplesOfSize n (a ++ b) = tuplesOfSize n a ++ tuplesOfSize n b := by
  unfold tuplesOfSize
  exact List.filter_append _ _

theorem tuplesOfSize_all (n : Nat) (keys : List DimensionKey)
    (h : ∀ key ∈ keys, key.Dimensions.length = n) : tuplesOfSize n keys = keys := by
  unfold tuplesOfSize
  rw [List.filter_eq_self]
  intro key hkey
  simp [h key hkey]

theorem tuplesOfSize_none (n m : Nat) (keys : List DimensionKey)
    (h : ∀ key ∈ keys, key.Dimensions.length = m) (hne : m ≠ n) : tuplesOfSize n keys = [] := by
  unfold tuplesOfSize
  rw [List.filter_eq_nil_iff]
  intro key hkey
  simp [h key hkey, hne]

theorem threeWayFor_cons_cons (primary : GoMap Value) (c0 c1 : String × Value)
    (rest : GoMap Value) (hne : c0.1 ≠ c1.1) (pKey : String) :
    threeWayFor primary (c0 :: c1 :: rest) pKey
      = ((mapGet primary pKey).map (fun value =>
          ({ Dimensions := [{ Name := pKey, Value := value }, { Name := c0.1, Value := c0.2 },
              { Name := c1.1, Value := c1.2 }] } : DimensionKey))).toList := by
  obtain ⟨k0, v0⟩ := c0
  obtain ⟨k1, v1⟩ := c1
  have hne2 : ¬ k0 = k1 := hne
  unfold threeWayFor
  cases mapGet primary pKey with
  | none => rfl
  | some pValue =>
    simp [mapKeys, mapGet, hne2]

/-! ## Frame, counters and configuration lemmas -/

theorem recordObservation_samples_eq (L : StdLib) (config : AgentConfig) (hour : Int)
    (request : GoMap Value) (paramPath : String) (metric : ParameterMetric) :
    (recordObservation L config hour request paramPath metric).SampleValues
      = if (metric.SampleValues.length : Int) < config.MaxSampleValues ∧
            (getParameterValue request paramPath).isNil = false then
          metric.SampleValues ++ [getParameterValue request paramPath]
        else metric.SampleValues := by
  unfold recordObservation
  dsimp only
  rw [(foldl_updateDimensionCount_fields L config _ _).2.2.2]
  by_cases hlt : (metric.SampleValues.length : Int) < config.MaxSampleValues
  · cases hnil : (getParameterValue request paramPath).isNil <;> simp [hlt, hnil]
  · simp [hlt]

theorem run_ingestions_counters (L : StdLib) (payloads : List (String × Int)) (ea : EdgeAgent) :
    (run L ea (ingestions payloads)).totalReqs = ea.totalReqs + (payloads.length : Int) ∧
      (run L ea (ingestions payloads)).processedReqs
        = ea.processedReqs + ((payloads.filter (fun c => decodes L c.1)).length : Int) := by
  induction payloads generalizing ea with
  | nil => simp [ingestions, run]
  | cons c cs ih =>
    show (run L (ProcessRequest L ea c.1 c.2).2 (ingestions cs)).totalReqs = _ ∧
      (run L (ProcessRequest L ea c.1 c.2).2 (ingestions cs)).processedReqs = _
    obtain ⟨h1, h2⟩ := ih (ProcessRequest L ea c.1 c.2).2
    rw [h1, h2]
    cases hd : L.unmarshal c.1 with
    | error err =>
      rw [ProcessRequest_error L ea c.1 c.2 err hd]
      have hdec : decodes L c.1 = false := by simp [decodes, hd]
      simp only [List.filter_cons, hdec, List.length_cons, Nat.cast_add, Nat.cast_one]
      constructor
      · ring
      · simp
    | ok request =>
      rw [ProcessRequest_ok L ea c.1 c.2 request hd]
      have hdec : decodes L c.1 = true := by simp [decodes, hd]
      simp only [List.filter_cons, hdec, List.length_cons, Nat.cast_add, Nat.cast_one, if_true]
      constructor <;> ring

theorem ProcessRequest_counters_le (L : StdLib) (ea : EdgeAgent) (requestJSON : String)
    (hour : Int) (h : 0 ≤ ea.processedReqs ∧ ea.processedReqs ≤ ea.totalReqs) :
    0 ≤ (ProcessRequest L ea requestJSON hour).2.processedReqs ∧
      (ProcessRequest L ea requestJSON hour).2.processedReqs
        ≤ (ProcessRequest L ea requestJSON hour).2.totalReqs := by
  cases hd : L.unmarshal requestJSON with
  | error err =>
    rw [ProcessRequest_error L ea requestJSON hour err hd]
    dsimp only
    omega
  | ok request =>
    rw [ProcessRequest_ok L ea requestJSON hour request hd]
    dsimp only
    omega

theorem toDimensionData_rate_one (entry : String × DimensionStat)
    (h : entry.2.PresenceCount = entry.2.TotalRequests ∧ 1 ≤ entry.2.TotalRequests) :
    (toDimensionData entry).PresenceRate = some 1 := by
  have hne : entry.2.TotalRequests ≠ 0 := by omega
  have hq : ((entry.2.TotalRequests : Int) : ℚ) ≠ 0 := by exact_mod_cast hne
  unfold toDimensionData
  dsimp only
  rw [if_neg hne, h.1, div_self hq]

theorem updateDimensionCount_caps (L : StdLib) (c1 c2 : AgentConfig) (h : SameCaps c1 c2)
    (metric : ParameterMetric) (dimKey : DimensionKey) :
    updateDimensionCount L c1 metric dimKey = updateDimensionCount L c2 metric dimKey := by
  unfold updateDimensionCount
  rw [h.2.1]

theorem recordObservation_caps (L : StdLib) (c1 c2 : AgentConfig) (h : SameCaps c1 c2)
    (hour : Int) (request : GoMap Value) (paramPath : String) (metric : ParameterMetric) :
    recordObservation L c1 hour request paramPath metric
      = recordObservation L c2 hour request paramPath metric := by
  unfold recordObservation
  have hfun : updateDimensionCount L c1 = updateDimensionCount L c2 := by
    funext metric dimKey
    exact updateDimensionCount_caps L c1 c2 h metric dimKey
  rw [hfun, h.2.2]

theorem processParameter_caps (L : StdLib) (c1 c2 : AgentConfig) (h : SameCaps c1 c2)
    (hour : Int) (request : GoMap Value) (metrics : GoMap ParameterMetric)
    (paramPath : String) :
    processParameter L c1 hour request metrics paramPath
      = processParameter L c2 hour request metrics paramPath := by
  unfold processParameter
  rw [h.1]
  cases mapGet metrics paramPath with
  | none =>
    dsimp only
    rw [recordObservation_caps L c1 c2 h]
  | some metric =>
    dsimp only
    rw [recordObservation_caps L c1 c2 h]

theorem step_withConfig (L : StdLib) (ea : EdgeAgent) (c2 : AgentConfig)
    (h : SameCaps ea.config c2) (call : Call) :
    step L { ea with config := c2 } call = { step L ea call with config := c2 } := by
  cases call with
  | flush => rfl
  | process requestJSON hour =>
    show (ProcessRequest L { ea with config := c2 } requestJSON hour).2
      = { (ProcessRequest L ea requestJSON hour).2 with config := c2 }
    have hfun : processParameter L c2 hour = processParameter L ea.config hour := by
      funext request metrics paramPath
      exact (processParameter_caps L ea.config c2 h hour request metrics paramPath).symm
    cases hd : L.unmarshal requestJSON with
    | error err =>
      rw [ProcessRequest_error L _ requestJSON hour err hd,
        ProcessRequest_error L _ requestJSON hour err hd]
    | ok request =>
      rw [ProcessRequest_ok L _ requestJSON hour request hd,
        ProcessRequest_ok L _ requestJSON hour request hd]
      dsimp only
      rw [hfun]

theorem run_withConfig (L : StdLib) (calls : List Call) (ea : EdgeAgent) (c2 : AgentConfig)
    (h : SameCaps ea.config c2) :
    run L { ea with config := c2 } calls = { run L ea calls with config := c2 } := by
  induction calls generalizing ea with
  | nil => rfl
  | cons c cs ih =>
    show run L (step L { ea with config := c2 } c) cs = { run L (step L ea c) cs with config := c2 }
    rw [step_withConfig L ea c2 h c]
    exact ih (step L ea c) (by rw [step_config]; exact h)

theorem snapshot_dimension_sound (L : StdLib) (config : AgentConfig) (agentID : String)
    (calls : List Call) :
    ∀ record ∈ (createCloudPayload L (run L (NewEdgeAgent config agentID) calls)).Parameters,
      ∀ d ∈ record.Dimensions,
        d.PresenceCount = d.TotalRequests ∧ 1 ≤ d.TotalRequests ∧ d.PresenceRate = some 1 := by
  intro record hrec d hd
  obtain ⟨e, he, st, hst, hdeq⟩ := mem_snapshot_dimensions L _ record hrec d hd
  have hs := (run_sound L config agentID calls e he).2 st hst
  rw [hdeq]
  exact ⟨hs.1, hs.2, toDimensionData_rate_one st hs⟩

/-! ## Path strings of the walker -/

theorem startsWith_append (pat rest : List Char) : startsWith pat (pat ++ rest) = true := by
  induction pat with
  | nil => rfl
  | cons p ps ih => simp [startsWith, ih]

theorem CleanKey.no_bracket_suffix {key : String} (h : CleanKey key) (r : List Char) :
    key.data ≠ r ++ ['[', ']'] := by
  intro heq
  have hs : hasSuffix key "[]" = true := by
    unfold hasSuffix
    rw [heq]
    have hrev : (r ++ ['[', ']']).reverse = [']', '['] ++ r.reverse := by simp
    rw [hrev]
    exact startsWith_append _ _
  rw [h.2.2] at hs
  cases hs

theorem CleanKey.data_ne_nil {key : String} (h : CleanKey key) : key.data ≠ [] := by
  intro hnil
  exact h.1 (String.ext hnil)

theorem SegmentTail.head_cases {c : Char} {t : List Char} (h : SegmentTail (c :: t)) :
    c = '.' ∨ c = '[' := by
  cases h with
  | key k t0 hk ht => exact Or.inl rfl
  | index t0 ht => exact Or.inr rfl

theorem SegmentTail.split {t : List Char} (ht : SegmentTail t) :
    ∀ (u rest : List Char), t = u ++ rest → SegmentTail rest → '.' ∉ u →
      u = [] ∨ ∃ r, u = r ++ ['[', ']'] := by
  induction ht with
  | nil =>
    intro u rest h _ _
    left
    exact (List.append_eq_nil.1 h.symm).1
  | key k t0 hk ht0 _ =>
    intro u rest h _ hdot
    cases u with
    | nil => exact Or.inl rfl
    | cons c u2 =>
      exfalso
      simp only [List.cons_append, List.cons.injEq] at h
      exact hdot (by rw [← h.1]; exact List.mem_cons_self _ _)
  | index t0 ht0 ih =>
    intro u rest h hrest hdot
    cases u with
    | nil => exact Or.inl rfl
    | cons c u2 =>
      cases u2 with
      | nil =>
        exfalso
        simp only [List.cons_append, List.nil_append, List.cons.injEq] at h
        rw [← h.2] at hrest
        rcases hrest.head_cases with h1 | h1 <;> cases h1
      | cons d u3 =>
        simp only [List.cons_append, List.cons.injEq] at h
        obtain ⟨hc, hd, ht⟩ := h
        right
        have hdot3 : '.' ∉ u3 := fun hmem =>
          hdot (List.mem_cons_of_mem _ (List.mem_cons_of_mem _ hmem))
        rcases ih u3 rest ht hrest hdot3 with h3 | ⟨r, hr⟩
        · exact ⟨[], by rw [h3, ← hc, ← hd]; rfl⟩
        · exact ⟨c :: d :: r, by rw [hr]; rfl⟩

theorem key_of_path_unique {k1 k2 : String} {t1 t2 : List Char} (h1 : CleanKey k1)
    (h2 : CleanKey k2) (ht1 : SegmentTail t1) (ht2 : SegmentTail t2)
    (heq : k1.data ++ t1 = k2.data ++ t2) : k1 = k2 := by
  rcases List.append_eq_append_iff.1 heq with ⟨a, ha, hta⟩ | ⟨c, hc, htc⟩
  · have hdot : '.' ∉ a := fun hmem => h2.2.1 (by rw [ha]; exact List.mem_append_right _ hmem)
    rcases ht1.split a t2 hta ht2 hdot with hnil | ⟨r, hr⟩
    · rw [hnil, List.append_nil] at ha
      exact String.ext ha.symm
    · exfalso
      rw [hr, ← List.append_assoc] at ha
      exact h2.no_bracket_suffix _ ha
  · have hdot : '.' ∉ c := fun hmem => h1.2.1 (by rw [hc]; exact List.mem_append_right _ hmem)
    rcases ht2.split c t1 htc ht1 hdot with hnil | ⟨r, hr⟩
    · rw [hnil, List.append_nil] at hc
      exact String.ext hc
    · exfalso
      rw [hr, ← List.append_assoc] at hc
      exact h1.no_bracket_suffix _ hc

theorem joinPath_data (pfx key : String) :
    (joinPath pfx key).data = pathBase pfx ++ key.data := by
  unfold joinPath pathBase
  by_cases h : pfx = ""
  · simp [h]
  · simp [h, String.data_append]

theorem joinPath_ne_empty (pfx key : String) (h : CleanKey key) : joinPath pfx key ≠ "" := by
  intro hempty
  have hdata := joinPath_data pfx key
  rw [hempty] at hdata
  have hnil : key.data = [] := (List.append_eq_nil.1 hdata.symm).2
  exact h.data_ne_nil hnil

theorem pathBase_of_ne (pfx : String) (h : pfx ≠ "") : pathBase pfx = pfx.data ++ ['.'] := by
  unfold pathBase
  rw [if_neg h]

theorem data_append_ne_self (p q : String) (t : List Char) (ht : t ≠ [])
    (h : p.data = q.data ++ t) : p ≠ q := by
  intro heq
  rw [heq] at h
  have hlen := congrArg List.length h
  rw [List.length_append] at hlen
  have hpos : 0 < t.length := List.length_pos.2 ht
  omega

mutual
theorem walk_clean : ∀ (v : Value) (q : String), q ≠ "" → WalkClean v →
    (∀ p ∈ extractParameterPaths v q,
        ∃ t, SegmentTail t ∧ t ≠ [] ∧ p.data = q.data ++ t) ∧
      (extractParameterPaths v q).Nodup
  | .obj fields, q, hq, hclean => by
    rw [WalkClean] at hclean
    rw [extractParameterPaths]
    obtain ⟨hstruct, hnodup⟩ := walkFields_clean fields q hclean.2 hclean.1
    refine ⟨?_, hnodup⟩
    intro p hp
    obtain ⟨k, _, t, ht, hdata, hk⟩ := hstruct p hp
    refine ⟨'.' :: (k.data ++ t), SegmentTail.key k t hk ht, by simp, ?_⟩
    rw [hdata, pathBase_of_ne q hq]
    simp
  | .arr [], q, _, _ => by
    simp [extractParameterPaths]
  | .arr (first :: rest), q, hq, hclean => by
    rw [WalkClean] at hclean
    rw [extractParameterPaths]
    have hq2 : q ++ "[]" ≠ "" := by
      intro h
      have hdata := congrArg String.data h
      rw [String.data_append] at hdata
      have : ("[]" : String).data = [] := (List.append_eq_nil.1 hdata).2
      cases this
    obtain ⟨hstruct, hnodup⟩ := walk_clean first (q ++ "[]") hq2 hclean
    have hbr : (q ++ "[]").data = q.data ++ ['[', ']'] := by
      rw [String.data_append]
    constructor
    · intro p hp
      rcases List.mem_cons.1 hp with h1 | h1
      · exact ⟨['[', ']'], SegmentTail.index [] SegmentTail.nil, by simp, by rw [h1, hbr]⟩
      · obtain ⟨t, ht, _, hdata⟩ := hstruct p h1
        refine ⟨'[' :: ']' :: t, SegmentTail.index t ht, by simp, ?_⟩
        rw [hdata, hbr]
        simp
    · rw [List.nodup_cons]
      refine ⟨?_, hnodup⟩
      intro hmem
      obtain ⟨t, _, hne, hdata⟩ := hstruct _ hmem
      exact data_append_ne_self _ _ t hne hdata rfl
  | .null, q, _, _ => by simp [extractParameterPaths]
  | .bool _, q, _, _ => by simp [extractParameterPaths]
  | .float _, q, _, _ => by simp [extractParameterPaths]
  | .int _, q, _, _ => by simp [extractParameterPaths]
  | .str _, q, _, _ => by simp [extractParameterPaths]
theorem walkFields_clean : ∀ (fields : List (String × Value)) (q : String),
    WalkCleanFields fields → (mapKeys fields).Nodup →
    (∀ p ∈ extractFieldPaths fields q,
        ∃ k ∈ mapKeys fields, ∃ t, SegmentTail t ∧ p.data = pathBase q ++ k.data ++ t ∧
          CleanKey k) ∧
      (extractFieldPaths fields q).Nodup
  | [], q, _, _ => by
    simp [extractFieldPaths]
  | (key, value) :: rest, q, hclean, hkeys => by
    rw [WalkCleanFields] at hclean
    obtain ⟨hkey, hvalue, hrest⟩ := hclean
    have hkeys2 : key ∉ mapKeys rest ∧ (mapKeys rest).Nodup := by
      simpa [mapKeys] using hkeys
    rw [extractFieldPaths]
    obtain ⟨hs1, hn1⟩ := walk_clean value (joinPath q key) (joinPath_ne_empty q key hkey) hvalue
    obtain ⟨hs2, hn2⟩ := walkFields_clean rest q hrest hkeys2.2
    have hblock : ∀ p ∈ joinPath q key :: extractParameterPaths value (joinPath q key),
        ∃ t, SegmentTail t ∧ p.data = pathBase q ++ key.data ++ t := by
      intro p hp
      rcases List.mem_cons.1 hp with h1 | h1
      · exact ⟨[], SegmentTail.nil, by rw [h1, joinPath_data]; simp⟩
      · obtain ⟨t, ht, _, hdata⟩ := hs1 p h1
        exact ⟨t, ht, by rw [hdata, joinPath_data]⟩
    constructor
    · intro p hp
      rcases List.mem_append.1 hp with h1 | h1
      · obtain ⟨t, ht, hdata⟩ := hblock p h1
        exact ⟨key, by simp [mapKeys], t, ht, hdata, hkey⟩
      · obtain ⟨k, hk, t, ht, hdata, hck⟩ := hs2 p h1
        exact ⟨k, by simp only [mapKeys, List.map_cons, List.mem_cons]; exact Or.inr hk,
          t, ht, hdata, hck⟩
    · rw [List.nodup_append]
      refine ⟨?_, hn2, ?_⟩
      · rw [List.nodup_cons]
        refine ⟨?_, hn1⟩
        intro hmem
        obtain ⟨t, _, hne, hdata⟩ := hs1 _ hmem
        exact data_append_ne_self _ _ t hne hdata rfl
      · intro p hp1 hp2
        obtain ⟨t1, ht1, hdata1⟩ := hblock p hp1
        obtain ⟨k, hk, t2, ht2, hdata2, hck⟩ := hs2 p hp2
        rw [hdata1, List.append_assoc, List.append_assoc] at hdata2
        have hkk := key_of_path_unique hkey hck ht1 ht2 (List.append_cancel_left hdata2)
        exact hkeys2.1 (hkk ▸ hk)
end

/-! ## Shape of the dimension mappings -/

theorem extractPrimaryDimensions_keys (L : StdLib) (hour : Int) (request : GoMap Value) :
    mapKeys (extractPrimaryDimensions L hour request)
      = (match getObject request "device" with
          | some device =>
            "device_type" ::
              (match (getObject device "geo").bind (fun geo => mapGet geo "country") with
                | some _ => ["country"]
                | none => [])
          | none => []) ++ ["request_type", "hour"] := by
  unfold extractPrimaryDimensions
  cases getObject request "device" with
  | none =>
    by_cases happ : (mapGet request "app").isSome = true
    · simp [happ, mapSet, mapKeys]
    · by_cases hsite : (mapGet request "site").isSome = true
      · simp [happ, hsite, mapSet, mapKeys]
      · simp [happ, hsite, mapSet, mapKeys]
  | some device =>
    rcases hdt : mapGet device "devicetype" with _ | deviceType
    · rcases hgeo : getObject device "geo" with _ | geo
      · by_cases happ : (mapGet request "app").isSome = true <;>
          by_cases hsite : (mapGet request "site").isSome = true <;>
          simp [happ, hsite, mapSet, mapKeys, *]
      · rcases hc : mapGet geo "country" with _ | country <;>
          by_cases happ : (mapGet request "app").isSome = true <;>
          by_cases hsite : (mapGet request "site").isSome = true <;>
          simp [happ, hsite, mapSet, mapKeys, *]
    · rcases hgeo : getObject device "geo" with _ | geo
      · by_cases happ : (mapGet request "app").isSome = true <;>
          by_cases hsite : (mapGet request "site").isSome = true <;>
          simp [happ, hsite, mapSet, mapKeys, *]
      · rcases hc : mapGet geo "country" with _ | country <;>
          by_cases happ : (mapGet request "app").isSome = true <;>
          by_cases hsite : (mapGet request "site").isSome = true <;>
          simp [happ, hsite, mapSet, mapKeys, *]

theorem extractPrimaryDimensions_request_type (L : StdLib) (hour : Int)
    (request : GoMap Value) :
    mapGet (extractPrimaryDimensions L hour request) "request_type"
      = some (.str (if (mapGet request "app").isSome then "app"
          else if (mapGet request "site").isSome then "site" else "unknown")) := by
  unfold extractPrimaryDimensions
  dsimp only
  rw [mapGet_mapSet_ne _ _ _ _ (by decide)]
  by_cases happ : (mapGet request "app").isSome = true
  · simp only [happ, if_true]
    exact mapGet_mapSet_self _ _ _
  · by_cases hsite : (mapGet request "site").isSome = true
    · simp only [happ, hsite, if_true, if_false]
      exact mapGet_mapSet_self _ _ _
    · simp only [happ, hsite, if_false]
      exact mapGet_mapSet_self _ _ _

theorem extractConditionalDimensions_keys (L : StdLib) (request : GoMap Value)
    (paramPath : String) :
    mapKeys (extractConditionalDimensions L request paramPath)
      = referenceConditionalNames paramPath := by
  unfold extractConditionalDimensions referenceConditionalNames conditionalFamilies
  by_cases h1 : (strContains paramPath "user" || strContains paramPath "eids") = true
  · simp [List.find?, List.any, h1, mapKeys, mapSet]
  · by_cases h2 : strContains paramPath "content" = true
    · simp [List.find?, List.any, h1, h2, mapKeys, mapSet]
    · by_cases h3 : strContains paramPath "video" = true
      · simp [List.find?, List.any, h1, h2, h3, mapKeys, mapSet]
      · by_cases h4 : strContains paramPath "device" = true
        · simp [List.find?, List.any, h1, h2, h3, h4, mapKeys, mapSet]
        · simp [List.find?, List.any, h1, h2, h3, h4, mapKeys]

theorem referenceConditionalNames_cases (paramPath : String) :
    referenceConditionalNames paramPath = [] ∨
      referenceConditionalNames paramPath = ["has_user_id", "has_eids"] ∨
      referenceConditionalNames paramPath = ["content_type", "has_series_info"] ∨
      referenceConditionalNames paramPath = ["video_placement", "video_skippable"] ∨
      referenceConditionalNames paramPath = ["device_make", "has_ifa"] := by
  unfold referenceConditionalNames conditionalFamilies
  by_cases h1 : (strContains paramPath "user" || strContains paramPath "eids") = true
  · simp [List.find?, List.any, h1]
  · by_cases h2 : strContains paramPath "content" = true
    · simp [List.find?, List.any, h1, h2]
    · by_cases h3 : strContains paramPath "video" = true
      · simp [List.find?, List.any, h1, h2, h3]
      · by_cases h4 : strContains paramPath "device" = true
        · simp [List.find?, List.any, h1, h2, h3, h4]
        · simp [List.find?, List.any, h1, h2, h3, h4]

theorem generateDimensionCombinations_length (primary conditional : GoMap Value) :
    (generateDimensionCombinations primary conditional).length
      = primary.length + primary.length * conditional.length +
          (if conditional.length ≥ 2 then anchorCount primary else 0) := by
  rw [generateDimensionCombinations_eq, List.length_append, List.length_append,
    pairTuples_count]
  have h1 : (singleTuples primary).length = primary.length := by simp [singleTuples]
  rw [h1]
  congr 1
  by_cases hge : conditional.length ≥ 2
  · rw [if_pos hge, if_pos hge]
    obtain ⟨c0, c1, rest, hC⟩ : ∃ c0 c1 rest, conditional = c0 :: c1 :: rest := by
      cases hc : conditional with
      | nil => rw [hc] at hge; simp at hge
      | cons c0 tail =>
        cases tail with
        | nil => rw [hc] at hge; simp at hge
        | cons c1 rest => exact ⟨c0, c1, rest, rfl⟩
    unfold anchorCount threeWayFor
    rw [hC]
    cases hdt : mapGet primary "device_type" <;>
      cases hrt : mapGet primary "request_type" <;>
      simp [List.flatMap, List.filter, hdt, hrt, mapKeys]
  · rw [if_neg hge, if_neg hge]
    rfl

/-! ## Canonical keys of one observation -/

theorem first_separator (sep : Char) :
    ∀ (n n2 x y : List Char), sep ∉ n → sep ∉ n2 → n ++ sep :: x = n2 ++ sep :: y →
      n = n2 ∧ x = y
  | [], [], x, y, _, _, h => by
    simp only [List.nil_append, List.cons.injEq, true_and] at h
    exact ⟨rfl, h⟩
  | [], c :: n2, x, y, _, h2, h => by
    exfalso
    simp only [List.nil_append, List.cons_append, List.cons.injEq] at h
    exact h2 (by rw [← h.1]; exact List.mem_cons_self _ _)
  | c :: n, [], x, y, h1, _, h => by
    exfalso
    simp only [List.nil_append, List.cons_append, List.cons.injEq] at h
    exact h1 (by rw [h.1]; exact List.mem_cons_self _ _)
  | c :: n, c2 :: n2, x, y, h1, h2, h => by
    simp only [List.cons_append, List.cons.injEq] at h
    obtain ⟨hn, hx⟩ := first_separator sep n n2 x y
      (fun hm => h1 (List.mem_cons_of_mem _ hm)) (fun hm => h2 (List.mem_cons_of_mem _ hm)) h.2
    exact ⟨by rw [h.1, hn], hx⟩

theorem intercalate_go_data (sep : String) :
    ∀ (parts : List String) (acc : String),
      (String.intercalate.go acc sep parts).data
        = acc.data ++ parts.flatMap (fun a => sep.data ++ a.data)
  | [], acc => by simp [String.intercalate.go]
  | a :: rest, acc => by
    rw [String.intercalate.go, intercalate_go_data sep rest (acc ++ sep ++ a)]
    simp [String.data_append, List.flatMap_cons]

theorem dimensionKeyToString_data (L : StdLib) (d : Dimension) (ds : List Dimension) :
    (dimensionKeyToString L { Dimensions := d :: ds }).data = keyChars L d ds := by
  unfold dimensionKeyToString strJoin keyChars memberChars
  simp only [List.map_cons, String.intercalate]
  rw [intercalate_go_data]
  simp [String.data_append, List.flatMap_map]

theorem keyChars_head (L : StdLib) (InD : Dimension → Prop)
    (hcolon : ∀ d, InD d → ':' ∉ d.Name.data)
    (hfun : ∀ a b, InD a → InD b → a.Name = b.Name → a = b)
    (ds : List Dimension) (d d2 : Dimension) (ds2 : List Dimension) (hd : InD d)
    (hd2 : InD d2) (h : keyChars L d ds = keyChars L d2 ds2) :
    d = d2 ∧ ds.flatMap (fun e => '|' :: memberChars L e)
      = ds2.flatMap (fun e => '|' :: memberChars L e) := by
  unfold keyChars memberChars at h
  simp only [List.append_assoc, List.cons_append] at h
  obtain ⟨hname, hrest⟩ := first_separator ':' _ _ _ _ (hcolon d hd) (hcolon d2 hd2) h
  have hdd : d = d2 := hfun d d2 hd hd2 (String.ext hname)
  subst hdd
  exact ⟨rfl, List.append_cancel_left hrest⟩

theorem keyChars_injective (L : StdLib) (InD : Dimension → Prop)
    (hcolon : ∀ d, InD d → ':' ∉ d.Name.data)
    (hfun : ∀ a b, InD a → InD b → a.Name = b.Name → a = b) (ds : List Dimension) :
    ∀ (d d2 : Dimension) (ds2 : List Dimension),
      InD d → InD d2 → (∀ e ∈ ds, InD e) → (∀ e ∈ ds2, InD e) →
      keyChars L d ds = keyChars L d2 ds2 → d = d2 ∧ ds = ds2 := by
  induction ds with
  | nil =>
    intro d d2 ds2 hd hd2 _ _ h
    obtain ⟨hdd, htail⟩ := keyChars_head L InD hcolon hfun [] d d2 ds2 hd hd2 h
    refine ⟨hdd, ?_⟩
    cases ds2 with
    | nil => rfl
    | cons e2 es2 => simp at htail
  | cons e es ih =>
    intro d d2 ds2 hd hd2 hes hes2 h
    obtain ⟨hdd, htail⟩ := keyChars_head L InD hcolon hfun (e :: es) d d2 ds2 hd hd2 h
    refine ⟨hdd, ?_⟩
    cases ds2 with
    | nil => simp at htail
    | cons e2 es2 =>
      simp only [List.flatMap_cons, List.cons_append, List.cons.injEq, true_and] at htail
      have hkey : keyChars L e es = keyChars L e2 es2 := by
        unfold keyChars
        exact htail
      obtain ⟨he, hes3⟩ := ih e e2 es2
        (hes e (List.mem_cons_self _ _)) (hes2 e2 (List.mem_cons_self _ _))
        (fun x hx => hes x (List.mem_cons_of_mem _ hx))
        (fun x hx => hes2 x (List.mem_cons_of_mem _ hx)) hkey
      rw [he, hes3]

/-! ## Tuple counts against the metric count -/

theorem foldl_updateDimensionCount_presence (L : StdLib) (config : AgentConfig) (B : Int)
    (hB : 0 ≤ B) :
    ∀ (dimKeys : List DimensionKey) (metric : ParameterMetric),
      (dimKeys.map (dimensionKeyToString L)).Nodup →
      (∀ st ∈ metric.DimensionCounts, st.2.PresenceCount ≤ B + 1 ∧
        (st.1 ∈ dimKeys.map (dimensionKeyToString L) → st.2.PresenceCount ≤ B)) →
      ∀ st ∈ (dimKeys.foldl (updateDimensionCount L config) metric).DimensionCounts,
        st.2.PresenceCount ≤ B + 1
  | [], metric, _, h => fun st hst => (h st hst).1
  | d :: ds, metric, hnd, h => by
    rw [List.foldl_cons]
    rw [List.map_cons, List.nodup_cons] at hnd
    apply foldl_updateDimensionCount_presence L config B hB ds _ hnd.2
    intro st hst
    have hold : ∀ st ∈ metric.DimensionCounts, st.2.PresenceCount ≤ B + 1 ∧
        (st.1 ∈ ds.map (dimensionKeyToString L) → st.2.PresenceCount ≤ B) :=
      fun st hst => ⟨(h st hst).1, fun hm => (h st hst).2 (List.mem_cons_of_mem _ hm)⟩
    unfold updateDimensionCount at hst
    dsimp only at hst
    split at hst
    · exact hold st hst
    · rcases mem_mapSet _ _ _ _ hst with h1 | h1
      · exact hold st h1
      · rw [h1]
        refine ⟨?_, fun hm => absurd hm hnd.1⟩
        cases hget : mapGet metric.DimensionCounts (dimensionKeyToString L d) with
        | none =>
          show (0 : Int) + 1 ≤ B + 1
          omega
        | some stat =>
          have h2 := (h _ (mapGet_mem _ _ _ hget)).2 (List.mem_cons_self _ _)
          show stat.PresenceCount + 1 ≤ B + 1
          have h3 : stat.PresenceCount ≤ B := h2
          omega

theorem recordObservation_counts (L : StdLib) (config : AgentConfig) (hour : Int)
    (request : GoMap Value) (paramPath : String) (metric : ParameterMetric) :
    ∃ base : ParameterMetric, base.DimensionCounts = metric.DimensionCounts ∧
      recordObservation L config hour request paramPath metric
        = (generateDimensionCombinations (extractPrimaryDimensions L hour request)
            (extractConditionalDimensions L request paramPath)).foldl
              (updateDimensionCount L config) base := by
  unfold recordObservation
  dsimp only
  split
  · split
    · refine ⟨_, ?_, rfl⟩
      rfl
    · refine ⟨_, ?_, rfl⟩
      rfl
  · refine ⟨_, ?_, rfl⟩
    rfl
theorem mem_nodup_keys_unique {β : Type} (m : GoMap β) (hnd : (mapKeys m).Nodup)
    (k : String) (v v2 : β) (h1 : (k, v) ∈ m) (h2 : (k, v2) ∈ m) : v = v2 := by
  induction m with
  | nil => simp at h1
  | cons e rest ih =>
    obtain ⟨k0, v0⟩ := e
    have hnd2 : k0 ∉ mapKeys rest ∧ (mapKeys rest).Nodup := by
      simpa [mapKeys] using hnd
    have hkey : ∀ w, (k, w) ∈ rest → k ∈ mapKeys rest := fun w hw =>
      List.mem_map.2 ⟨(k, w), hw, rfl⟩
    rcases List.mem_cons.1 h1 with g1 | g1 <;> rcases List.mem_cons.1 h2 with g2 | g2
    · rw [Prod.mk.injEq] at g1 g2
      rw [g1.2, g2.2]
    · rw [Prod.mk.injEq] at g1
      exact absurd (g1.1 ▸ hkey v2 g2) hnd2.1
    · rw [Prod.mk.injEq] at g2
      exact absurd (g2.1 ▸ hkey v g1) hnd2.1
    · exact ih hnd2.2 g1 g2

theorem threeWayFor_names (P C : GoMap Value) (anchor : String) :
    (threeWayFor P C anchor).map tupleNames
      = if anchor ∈ mapKeys P then
          (match mapKeys C with
            | k0 :: k1 :: _ => [[anchor, k0, k1]]
            | _ => [])
        else [] := by
  unfold threeWayFor
  cases hget : mapGet P anchor with
  | none =>
    rw [if_neg ((mapGet_eq_none_iff P anchor).1 hget)]
    rfl
  | some v =>
    rw [if_pos ((mapGet_isSome_iff P anchor).1 ⟨v, hget⟩)]
    dsimp only
    rcases mapKeys C with _ | ⟨k0, _ | ⟨k1, rest⟩⟩ <;> rfl

theorem generateDimensionCombinations_names (P C : GoMap Value) :
    (generateDimensionCombinations P C).map tupleNames
      = combinationNames (mapKeys P) (mapKeys C) := by
  rw [generateDimensionCombinations_eq]
  unfold combinationNames
  rw [List.map_append, List.map_append]
  congr 1
  · congr 1
    · simp [singleTuples, mapKeys, tupleNames]
    · simp only [pairTuples, mapKeys, List.map_flatMap, List.flatMap_map, List.map_map]
      rfl
  · have hlen : (mapKeys C).length = C.length := by simp [mapKeys]
    rw [hlen]
    by_cases hge : C.length ≥ 2
    · rw [if_pos hge, if_pos hge]
      simp only [List.flatMap_cons, List.flatMap_nil, List.map_append, List.map_nil,
        threeWayFor_names]
    · rw [if_neg hge, if_neg hge]
      rfl

theorem threeWayFor_members (P C : GoMap Value) (anchor : String) :
    ∀ t ∈ threeWayFor P C anchor, ∃ d ds, t = { Dimensions := d :: ds } ∧
      ∀ e ∈ d :: ds, (e.Name, e.Value) ∈ P ++ C := by
  intro t ht
  unfold threeWayFor at ht
  cases hget : mapGet P anchor with
  | none => simp [hget] at ht
  | some v =>
    rw [hget] at ht
    dsimp only at ht
    rcases hk : mapKeys C with _ | ⟨k0, _ | ⟨k1, rest⟩⟩
    · simp [hk] at ht
    · simp [hk] at ht
    · rw [hk] at ht
      simp only [List.mem_singleton] at ht
      have hin : ∀ k ∈ mapKeys C, (k, (mapGet C k).getD .null) ∈ C := by
        intro k hkm
        obtain ⟨w, hw⟩ := (mapGet_isSome_iff C k).2 hkm
        rw [hw]
        exact mapGet_mem C k w hw
      refine ⟨_, _, ht, ?_⟩
      intro e he
      simp only [List.mem_cons, List.mem_singleton, List.not_mem_nil, or_false] at he
      rcases he with he | he | he
      · rw [he]
        exact List.mem_append_left _ (mapGet_mem P anchor v hget)
      · rw [he]
        exact List.mem_append_right _ (hin k0 (by rw [hk]; simp))
      · rw [he]
        exact List.mem_append_right _ (hin k1 (by rw [hk]; simp))

theorem generateDimensionCombinations_members (P C : GoMap Value) :
    ∀ t ∈ generateDimensionCombinations P C, ∃ d ds, t = { Dimensions := d :: ds } ∧
      ∀ e ∈ d :: ds, (e.Name, e.Value) ∈ P ++ C := by
  intro t ht
  rw [generateDimensionCombinations_eq, List.mem_append, List.mem_append] at ht
  rcases ht with (ht | ht) | ht
  · obtain ⟨p, hp, hpt⟩ := List.mem_map.1 ht
    refine ⟨_, _, hpt.symm, ?_⟩
    intro e he
    rw [List.mem_singleton] at he
    rw [he]
    exact List.mem_append_left _ hp
  · obtain ⟨p, hp, hpc⟩ := List.mem_flatMap.1 ht
    obtain ⟨c, hc, hct⟩ := List.mem_map.1 hpc
    refine ⟨_, _, hct.symm, ?_⟩
    intro e he
    simp only [List.mem_cons, List.mem_singleton, List.not_mem_nil, or_false] at he
    rcases he with he | he
    · rw [he]
      exact List.mem_append_left _ hp
    · rw [he]
      exact List.mem_append_right _ hc
  · split at ht
    · obtain ⟨anchor, _, hat⟩ := List.mem_flatMap.1 ht
      exact threeWayFor_members P C anchor t hat
    · simp at ht

set_option maxRecDepth 100000 in
theorem shapes_distinct :
    ∀ kp ∈ primaryShapes, ∀ kc ∈ conditionalShapes,
      (kp ++ kc).Nodup ∧ (∀ n ∈ kp ++ kc, ':' ∉ n.data) ∧ (combinationNames kp kc).Nodup := by
  decide

theorem extractPrimaryDimensions_shape (L : StdLib) (hour : Int) (request : GoMap Value) :
    mapKeys (extractPrimaryDimensions L hour request) ∈ primaryShapes := by
  rw [extractPrimaryDimensions_keys]
  unfold primaryShapes
  cases getObject request "device" with
  | none => simp
  | some device =>
    dsimp only
    split <;> simp

theorem extractConditionalDimensions_shape (L : StdLib) (request : GoMap Value)
    (paramPath : String) :
    mapKeys (extractConditionalDimensions L request paramPath) ∈ conditionalShapes := by
  rw [extractConditionalDimensions_keys]
  unfold conditionalShapes
  rcases referenceConditionalNames_cases paramPath with h | h | h | h | h <;> rw [h] <;> simp

theorem observation_keys_nodup (L : StdLib) (hour : Int) (request : GoMap Value)
    (paramPath : String) :
    ((generateDimensionCombinations (extractPrimaryDimensions L hour request)
      (extractConditionalDimensions L request paramPath)).map (dimensionKeyToString L)).Nodup := by
  obtain ⟨hnd, hcolon, hnames⟩ := shapes_distinct _ (extractPrimaryDimensions_shape L hour request)
    _ (extractConditionalDimensions_shape L request paramPath)
  generalize extractPrimaryDimensions L hour request = P at hnd hcolon hnames ⊢
  generalize extractConditionalDimensions L request paramPath = C at hnd hcolon hnames ⊢
  have hkeys : mapKeys (P ++ C) = mapKeys P ++ mapKeys C := by simp [mapKeys]
  have hgen : (generateDimensionCombinations P C).Nodup := by
    apply List.Nodup.of_map tupleNames
    rw [generateDimensionCombinations_names]
    exact hnames
  apply List.Nodup.map_on _ hgen
  intro x hx y hy hxy
  obtain ⟨d, ds, hxd, hxm⟩ := generateDimensionCombinations_members P C x hx
  obtain ⟨d2, ds2, hyd, hym⟩ := generateDimensionCombinations_members P C y hy
  have hchars : keyChars L d ds = keyChars L d2 ds2 := by
    rw [← dimensionKeyToString_data, ← dimensionKeyToString_data, ← hxd, ← hyd, hxy]
  have hinj := keyChars_injective L (fun e => (e.Name, e.Value) ∈ P ++ C)
    (fun e he => hcolon e.Name (by
      rw [← hkeys]
      exact List.mem_map.2 ⟨(e.Name, e.Value), he, rfl⟩))
    (fun a b ha hb hab => by
      have hb2 : (a.Name, b.Value) ∈ P ++ C := by rw [hab]; exact hb
      have hv := mem_nodup_keys_unique (P ++ C) (by rw [hkeys]; exact hnd) a.Name a.Value
        b.Value ha hb2
      cases a
      cases b
      simp only at hab hv
      rw [hab, hv])
    ds d d2 ds2 (hxm d (List.mem_cons_self _ _)) (hym d2 (List.mem_cons_self _ _))
    (fun e he => hxm e (List.mem_cons_of_mem _ he))
    (fun e he => hym e (List.mem_cons_of_mem _ he)) hchars
  rw [hxd, hyd, hinj.1, hinj.2]

theorem updateDimensionCount_presenceOf (L : StdLib) (config : AgentConfig)
    (metric : ParameterMetric) (d : DimensionKey) (key : String) :
    presenceOf (updateDimensionCount L config metric d).DimensionCounts key
        ≤ presenceOf metric.DimensionCounts key + 1 ∧
      (key ≠ dimensionKeyToString L d →
        presenceOf (updateDimensionCount L config metric d).DimensionCounts key
          = presenceOf metric.DimensionCounts key) := by
  unfold updateDimensionCount
  dsimp only
  split
  · exact ⟨by omega, fun _ => rfl⟩
  · by_cases hk : key = dimensionKeyToString L d
    · refine ⟨?_, fun hne => absurd hk hne⟩
      rw [hk]
      unfold presenceOf
      rw [mapGet_mapSet_self]
      cases mapGet metric.DimensionCounts (dimensionKeyToString L d) with
      | none => exact le_refl _
      | some stat => exact le_refl _
    · have heq : ∀ stat : DimensionStat,
          presenceOf (mapSet metric.DimensionCounts (dimensionKeyToString L d) stat) key
            = presenceOf metric.DimensionCounts key := by
        intro stat
        unfold presenceOf
        rw [mapGet_mapSet_ne _ _ _ _ hk]
      exact ⟨by rw [heq]; omega, fun _ => heq _⟩

theorem foldl_updateDimensionCount_once (L : StdLib) (config : AgentConfig) :
    ∀ (dimKeys : List DimensionKey) (metric : ParameterMetric),
      (dimKeys.map (dimensionKeyToString L)).Nodup → ∀ key : String,
      presenceOf (dimKeys.foldl (updateDimensionCount L config) metric).DimensionCounts key
          ≤ presenceOf metric.DimensionCounts key + 1 ∧
        (key ∉ dimKeys.map (dimensionKeyToString L) →
          presenceOf (dimKeys.foldl (updateDimensionCount L config) metric).DimensionCounts key
            = presenceOf metric.DimensionCounts key)
  | [], metric, _, key => ⟨by rw [List.foldl_nil]; omega, fun _ => rfl⟩
  | d :: ds, metric, hnd, key => by
    rw [List.foldl_cons]
    rw [List.map_cons, List.nodup_cons] at hnd
    obtain ⟨ih1, ih2⟩ := foldl_updateDimensionCount_once L config ds
      (updateDimensionCount L config metric d) hnd.2 key
    obtain ⟨s1, s2⟩ := updateDimensionCount_presenceOf L config metric d key
    by_cases hk : key = dimensionKeyToString L d
    · refine ⟨?_, fun hn => absurd (hk ▸ List.mem_cons_self _ _) hn⟩
      rw [ih2 (by rw [hk]; exact hnd.1)]
      exact s1
    · refine ⟨?_, fun hn => ?_⟩
      · rw [s2 hk] at ih1
        exact ih1
      · rw [ih2 (fun hm => hn (List.mem_cons_of_mem _ hm)), s2 hk]

theorem recordObservation_once (L : StdLib) (config : AgentConfig) (hour : Int)
    (request : GoMap Value) (paramPath : String) (metric : ParameterMetric) (key : String) :
    presenceOf (recordObservation L config hour request paramPath metric).DimensionCounts key
      ≤ presenceOf metric.DimensionCounts key + 1 := by
  obtain ⟨base, hbase, heq⟩ := recordObservation_counts L config hour request paramPath metric
  rw [heq, ← hbase]
  exact (foldl_updateDimensionCount_once L config _ base
    (observation_keys_nodup L hour request paramPath) key).1

theorem recordObservation_presence (L : StdLib) (config : AgentConfig) (hour : Int)
    (request : GoMap Value) (paramPath : String) (metric : ParameterMetric)
    (h : 0 ≤ metric.PresenceCount ∧
      ∀ st ∈ metric.DimensionCounts, st.2.PresenceCount ≤ metric.PresenceCount) :
    0 ≤ (recordObservation L config hour request paramPath metric).PresenceCount ∧
      ∀ st ∈ (recordObservation L config hour request paramPath metric).DimensionCounts,
        st.2.PresenceCount
          ≤ (recordObservation L config hour request paramPath metric).PresenceCount := by
  rw [(recordObservation_fields L config hour request paramPath metric).2.1]
  refine ⟨by omega, ?_⟩
  obtain ⟨base, hbase, heq⟩ := recordObservation_counts L config hour request paramPath metric
  rw [heq]
  apply foldl_updateDimensionCount_presence L config metric.PresenceCount h.1 _ base
    (observation_keys_nodup L hour request paramPath)
  intro st hst
  rw [hbase] at hst
  exact ⟨by have := h.2 st hst; omega, fun _ => h.2 st hst⟩

theorem run_presence (L : StdLib) (agentID : String) (config : AgentConfig)
    (calls : List Call) :
    ∀ e ∈ (run L (NewEdgeAgent config agentID) calls).metrics,
      0 ≤ e.2.PresenceCount ∧
        ∀ st ∈ e.2.DimensionCounts, st.2.PresenceCount ≤ e.2.PresenceCount := by
  apply run_invariant L (fun ea => ∀ e ∈ ea.metrics, 0 ≤ e.2.PresenceCount ∧
    ∀ st ∈ e.2.DimensionCounts, st.2.PresenceCount ≤ e.2.PresenceCount)
  · intro ea _ e he
    simp [flush] at he
  · intro ea requestJSON hour hinv
    cases hdec : L.unmarshal requestJSON with
    | error err =>
      rw [ProcessRequest_error L ea requestJSON hour err hdec]
      exact hinv
    | ok request =>
      rw [ProcessRequest_ok L ea requestJSON hour request hdec]
      exact foldl_processParameter_forall L ea.config hour request
        (fun e => 0 ≤ e.2.PresenceCount ∧
          ∀ st ∈ e.2.DimensionCounts, st.2.PresenceCount ≤ e.2.PresenceCount)
        (fun path => recordObservation_presence L ea.config hour request path (newMetric path)
          ⟨le_refl _, fun st hst => by simp [newMetric] at hst⟩)
        (fun path metric hm => recordObservation_presence L ea.config hour request path metric hm)
        _ ea.metrics hinv
  · intro e he
    simp [NewEdgeAgent] at he

/-! ## Lookup of the paths of the walk -/

mutual
theorem walkNodes_paths : ∀ (v : Value) (pfx : String),
    (walkNodes v pfx).map Prod.fst = extractParameterPaths v pfx
  | .obj fields, pfx => by
    rw [walkNodes, extractParameterPaths]
    exact walkFieldNodes_paths fields pfx
  | .arr [], pfx => by simp [walkNodes, extractParameterPaths]
  | .arr (first :: _), pfx => by
    rw [walkNodes, extractParameterPaths, List.map_cons, walkNodes_paths first]
  | .null, pfx => by simp [walkNodes, extractParameterPaths]
  | .bool _, pfx => by simp [walkNodes, extractParameterPaths]
  | .float _, pfx => by simp [walkNodes, extractParameterPaths]
  | .int _, pfx => by simp [walkNodes, extractParameterPaths]
  | .str _, pfx => by simp [walkNodes, extractParameterPaths]
theorem walkFieldNodes_paths : ∀ (fields : List (String × Value)) (pfx : String),
    (walkFieldNodes fields pfx).map Prod.fst = extractFieldPaths fields pfx
  | [], pfx => by simp [walkFieldNodes, extractFieldPaths]
  | (key, value) :: rest, pfx => by
    rw [walkFieldNodes, extractFieldPaths, List.map_append, List.map_cons,
      walkNodes_paths value, walkFieldNodes_paths rest]
end

theorem splitChars_ne_nil (sep : Char) : ∀ l : List Char, splitChars sep l ≠ []
  | [] => by simp [splitChars]
  | c :: cs => by
    rw [splitChars]
    split
    · simp
    · split <;> simp

theorem splitChars_of_not_mem (sep : Char) :
    ∀ l : List Char, sep ∉ l → splitChars sep l = [l]
  | [], _ => rfl
  | c :: cs, h => by
    have hc : ¬ c = sep := fun hc => h (by rw [← hc]; exact List.mem_cons_self _ _)
    rw [splitChars, if_neg hc,
      splitChars_of_not_mem sep cs (fun hm => h (List.mem_cons_of_mem _ hm))]

theorem splitChars_append_tail (sep : Char) (t : List Char) (ht : sep ∉ t) :
    ∀ (a : List Char) (parts : List (List Char)) (s : List Char),
      splitChars sep a = parts ++ [s] → splitChars sep (a ++ t) = parts ++ [s ++ t]
  | [], parts, s, h => by
    rw [List.nil_append, splitChars_of_not_mem sep t ht]
    cases parts with
    | nil =>
      simp only [splitChars, List.nil_append, List.cons.injEq, and_true] at h
      rw [← h]
      rfl
    | cons p ps =>
      simp only [splitChars, List.cons_append, List.cons.injEq] at h
      exact absurd h.2.symm (by simp)
  | c :: a, parts, s, h => by
    rw [List.cons_append, splitChars]
    rw [splitChars] at h
    by_cases hc : c = sep
    · rw [if_pos hc] at h ⊢
      cases parts with
      | nil =>
        simp only [List.nil_append, List.cons.injEq] at h
        exact absurd h.2 (splitChars_ne_nil sep a)
      | cons p ps =>
        simp only [List.cons_append, List.cons.injEq] at h
        rw [splitChars_append_tail sep t ht a ps s h.2, ← h.1]
        rfl
    · rw [if_neg hc] at h ⊢
      rcases hsp : splitChars sep a with _ | ⟨q, qs⟩
      · exact absurd hsp (splitChars_ne_nil sep a)
      · rw [hsp] at h
        dsimp only at h
        cases parts with
        | nil =>
          simp only [List.nil_append, List.cons.injEq] at h
          have h2 : splitChars sep a = [] ++ [q] := by rw [hsp, h.2]; rfl
          rw [splitChars_append_tail sep t ht a [] q h2, ← h.1]
          rfl
        | cons p ps =>
          simp only [List.cons_append, List.cons.injEq] at h
          have h2 : splitChars sep a = (q :: ps) ++ [s] := by rw [hsp, h.2]; rfl
          rw [splitChars_append_tail sep t ht a (q :: ps) s h2, ← h.1]
          rfl

theorem splitChars_append_segment (sep : Char) (k : List Char) (hk : sep ∉ k) :
    ∀ a : List Char, splitChars sep (a ++ sep :: k) = splitChars sep a ++ [k]
  | [] => by
    simp [splitChars, splitChars_of_not_mem sep k hk]
  | c :: a => by
    rw [List.cons_append, splitChars, splitChars, splitChars_append_segment sep k hk a]
    by_cases hc : c = sep
    · rw [if_pos hc, if_pos hc]
      rfl
    · rw [if_neg hc, if_neg hc]
      rcases hsp : splitChars sep a with _ | ⟨q, qs⟩
      · exact absurd hsp (splitChars_ne_nil sep a)
      · rfl

theorem splitDots_of_clean (key : String) (hk : '.' ∉ key.data) : splitDots key = [key] := by
  unfold splitDots
  rw [splitChars_of_not_mem '.' key.data hk]
  rfl

theorem splitDots_join (pfx key : String) (hk : '.' ∉ key.data) :
    splitDots (pfx ++ "." ++ key) = splitDots pfx ++ [key] := by
  unfold splitDots
  have hd : (pfx ++ "." ++ key).data = pfx.data ++ '.' :: key.data := by
    simp [String.data_append]
  rw [hd, splitChars_append_segment '.' key.data hk, List.map_append]
  rfl

theorem splitDots_index (pfx : String) (parts : List String) (s : String)
    (h : splitDots pfx = parts ++ [s]) :
    splitDots (pfx ++ "[]") = parts ++ [s ++ "[]"] := by
  unfold splitDots at h ⊢
  have h2 : splitChars '.' pfx.data = parts.map String.data ++ [s.data] := by
    have h3 := congrArg (List.map String.data) h
    have hid : (String.data ∘ String.mk) = id := rfl
    rw [List.map_map, hid, List.map_id, List.map_append] at h3
    exact h3
  have hd : (pfx ++ "[]").data = pfx.data ++ ['[', ']'] := by
    simp [String.data_append]
  have hid : (String.mk ∘ String.data) = id := rfl
  rw [hd, splitChars_append_tail '.' ['[', ']'] (by decide) pfx.data _ _ h2, List.map_append,
    List.map_map, hid, List.map_id]
  congr 1

theorem append_index_ne_empty (q : String) : q ++ "[]" ≠ "" := by
  intro h
  have hdata := congrArg String.data h
  rw [String.data_append] at hdata
  have : ("[]" : String).data = [] := (List.append_eq_nil.1 hdata).2
  cases this

theorem hasSuffix_append_index (s : String) : hasSuffix (s ++ "[]") "[]" = true := by
  unfold hasSuffix
  rw [String.data_append]
  have hrev : (s.data ++ ("[]" : String).data).reverse = [']', '['] ++ s.data.reverse := by
    simp
  rw [hrev]
  exact startsWith_append _ _

theorem trimSuffix_append_index (s : String) : trimSuffix (s ++ "[]") "[]" = s := by
  unfold trimSuffix
  rw [if_pos (hasSuffix_append_index s)]
  apply String.ext
  simp [String.data_append]

theorem getParameterStep_key (m : GoMap Value) (key : String) (hk : CleanKey key) :
    getParameterStep (.obj m) key = mapGet m key := by
  unfold getParameterStep
  rw [if_neg hk.1, hk.2.2]
  rfl

theorem getParameterStep_index (m : GoMap Value) (s : String) (first : Value)
    (tl : List Value) (h : mapGet m s = some (.arr (first :: tl))) :
    getParameterStep (.obj m) (s ++ "[]") = some first := by
  unfold getParameterStep
  rw [if_neg (append_index_ne_empty s), if_pos (hasSuffix_append_index s)]
  dsimp only
  rw [trimSuffix_append_index, h]
  rfl

theorem mapGet_of_mem_nodup {β : Type} (m : GoMap β) (hnd : (mapKeys m).Nodup)
    (e : String × β) (he : e ∈ m) : mapGet m e.1 = some e.2 := by
  obtain ⟨w, hw⟩ := (mapGet_isSome_iff m e.1).2 (List.mem_map.2 ⟨e, he, rfl⟩)
  rw [hw, mem_nodup_keys_unique m hnd e.1 e.2 w he (mapGet_mem m e.1 w hw)]

theorem getParameterLoop_snoc (root u v : Value) (parts : List String) (s : String)
    (hreach : ∀ rest, getParameterLoop root (parts ++ rest) = getParameterLoop u rest)
    (hstep : getParameterStep u s = some v) (rest : List String) :
    getParameterLoop root ((parts ++ [s]) ++ rest) = getParameterLoop v rest := by
  rw [List.append_assoc, hreach, List.singleton_append, getParameterLoop, hstep]

mutual
theorem walkNodes_resolves (root : Value) :
    ∀ (v : Value) (pfx : String) (parts : List String) (s : String) (u : Value),
      WalkClean v → FlatSequences v → pfx ≠ "" → splitDots pfx = parts ++ [s] →
      (∀ rest, getParameterLoop root (parts ++ rest) = getParameterLoop u rest) →
      getParameterStep u s = some v →
      (∀ items, v = .arr items → ∃ m, u = .obj m ∧ mapGet m s = some v) →
      ∀ e ∈ walkNodes v pfx, getParameterLoop root (splitDots e.1) = e.2
  | .obj fields, pfx, parts, s, u, hc, hf, hne, hsplit, hreach, hstep, _ => by
    rw [walkNodes]
    rw [WalkClean] at hc
    rw [FlatSequences] at hf
    exact walkFieldNodes_resolves root fields fields pfx (parts ++ [s]) hc.2 hf
      (fun e he => mapGet_of_mem_nodup fields hc.1 e he)
      (fun key hk => by
        rw [joinPath_eq, if_neg hne, splitDots_join pfx key hk.2.1, hsplit])
      (getParameterLoop_snoc root u (.obj fields) parts s hreach hstep)
  | .arr [], pfx, _, _, _, _, _, _, _, _, _, _ => by simp [walkNodes]
  | .arr (first :: tl), pfx, parts, s, u, hc, hf, _, hsplit, hreach, _, harr => by
    obtain ⟨m, hu, hget⟩ := harr _ rfl
    rw [WalkClean] at hc
    rw [FlatSequences] at hf
    have hsplit2 := splitDots_index pfx parts s hsplit
    have hstep2 : getParameterStep u (s ++ "[]") = some first := by
      rw [hu]
      exact getParameterStep_index m s first tl hget
    intro e he
    rw [walkNodes, List.mem_cons] at he
    rcases he with he | he
    · rw [he]
      show getParameterLoop root (splitDots (pfx ++ "[]")) = first
      rw [hsplit2, hreach, getParameterLoop, hstep2]
      rfl
    · exact walkNodes_resolves root first (pfx ++ "[]") parts (s ++ "[]") u hc hf.2
        (append_index_ne_empty pfx) hsplit2 hreach hstep2
        (fun items hi => by
          have h1 := hf.1
          rw [hi] at h1
          cases h1) e he
  | .null, pfx, _, _, _, _, _, _, _, _, _, _ => by simp [walkNodes]
  | .bool _, pfx, _, _, _, _, _, _, _, _, _, _ => by simp [walkNodes]
  | .float _, pfx, _, _, _, _, _, _, _, _, _, _ => by simp [walkNodes]
  | .int _, pfx, _, _, _, _, _, _, _, _, _, _ => by simp [walkNodes]
  | .str _, pfx, _, _, _, _, _, _, _, _, _, _ => by simp [walkNodes]
theorem walkFieldNodes_resolves (root : Value) :
    ∀ (fields all : List (String × Value)) (pfx : String) (parts : List String),
      WalkCleanFields fields → FlatSequencesFields fields →
      (∀ e ∈ fields, mapGet all e.1 = some e.2) →
      (∀ key, CleanKey key → splitDots (joinPath pfx key) = parts ++ [key]) →
      (∀ rest, getParameterLoop root (parts ++ rest) = getParameterLoop (.obj all) rest) →
      ∀ e ∈ walkFieldNodes fields pfx, getParameterLoop root (splitDots e.1) = e.2
  | [], _, pfx, _, _, _, _, _, _ => by simp [walkFieldNodes]
  | (key, value) :: rest, all, pfx, parts, hc, hf, hget, hsplit, hreach => by
    rw [WalkCleanFields] at hc
    rw [FlatSequencesFields] at hf
    have hg : mapGet all key = some value := hget (key, value) (List.mem_cons_self _ _)
    have hstep : getParameterStep (.obj all) key = some value := by
      rw [getParameterStep_key all key hc.1, hg]
    intro e he
    rw [walkFieldNodes, List.mem_append, List.mem_cons] at he
    rcases he with (he | he) | he
    · rw [he]
      show getParameterLoop root (splitDots (joinPath pfx key)) = value
      rw [hsplit key hc.1, hreach, getParameterLoop, hstep]
      rfl
    · exact walkNodes_resolves root value (joinPath pfx key) parts key (.obj all) hc.2.1 hf.1
        (joinPath_ne_empty pfx key hc.1) (hsplit key hc.1) hreach hstep
        (fun items _ => ⟨all, rfl, hg⟩) e he
    · exact walkFieldNodes_resolves root rest all pfx parts hc.2.2 hf.2
        (fun e he => hget e (List.mem_cons_of_mem _ he)) hsplit hreach e he
end

theorem walk_resolves (request : GoMap Value) (hclean : WalkClean (.obj request))
    (hflat : FlatSequences (.obj request)) :
    ∀ e ∈ walkNodes (.obj request) "", getParameterValue request e.1 = e.2 := by
  rw [WalkClean] at hclean
  rw [FlatSequences] at hflat
  rw [walkNodes]
  unfold getParameterValue
  exact walkFieldNodes_resolves (.obj request) request request "" [] hclean.2 hflat
    (fun e he => mapGet_of_mem_nodup request hclean.1 e he)
    (fun key hk => by
      rw [joinPath_eq, if_pos rfl, splitDots_of_clean key hk.2.1]
      rfl)
    (fun rest => rfl)

/-! ## Parent paths -/

theorem last_separator (sep : Char) (a b x y : List Char) (hx : sep ∉ x) (hy : sep ∉ y)
    (h : a ++ sep :: x = b ++ sep :: y) : a = b ∧ x = y := by
  have h2 := congrArg List.reverse h
  simp only [List.reverse_append, List.reverse_cons, List.append_assoc,
    List.singleton_append] at h2
  obtain ⟨h3, h4⟩ := first_separator sep x.reverse y.reverse a.reverse b.reverse
    (by simpa using hx) (by simpa using hy) h2
  exact ⟨List.reverse_injective h4, List.reverse_injective h3⟩

theorem CleanKey.not_bracket_end {key : String} (h : CleanKey key) (pre x : List Char)
    (hpre : ∀ r, pre ≠ r ++ ['[']) : pre ++ key.data ≠ x ++ ['[', ']'] := by
  intro heq
  have h2 := congrArg List.reverse heq
  simp only [List.reverse_append, List.reverse_cons, List.reverse_nil, List.nil_append,
    List.cons_append] at h2
  rcases hk : key.data.reverse with _ | ⟨a, _ | ⟨b, r⟩⟩
  · exact h.data_ne_nil (List.reverse_eq_nil_iff.1 hk)
  · rw [hk] at h2
    simp only [List.cons_append, List.nil_append, List.cons.injEq] at h2
    apply hpre x.reverse.reverse
    rw [← List.reverse_reverse pre, h2.2]
    simp
  · rw [hk] at h2
    simp only [List.cons_append, List.cons.injEq] at h2
    apply h.no_bracket_suffix r.reverse
    rw [← List.reverse_reverse key.data, hk, ← h2.1, ← h2.2.1]
    simp

theorem pathBase_not_bracket (q : String) : ∀ r, pathBase q ≠ r ++ ['['] := by
  intro r heq
  unfold pathBase at heq
  by_cases hq : q = ""
  · rw [if_pos hq] at heq
    simp at heq
  · rw [if_neg hq] at heq
    have h2 := congrArg List.reverse heq
    simp at h2

theorem parent_of_index (q p : String) (h : ParentPath p (q ++ "[]")) : p = q := by
  rcases h with h | ⟨k, hk, h⟩
  · have hd := congrArg String.data h
    rw [String.data_append, String.data_append] at hd
    exact String.ext (List.append_cancel_right hd).symm
  · exfalso
    have hd := congrArg String.data h
    simp only [String.data_append] at hd
    have hd2 : (p.data ++ ['.']) ++ k.data = q.data ++ ['[', ']'] := by
      rw [hd.symm.trans rfl]
    refine hk.not_bracket_end (p.data ++ ['.']) q.data ?_ hd2
    intro r heq
    have h2 := congrArg List.reverse heq
    simp at h2

theorem parent_of_join (q key p : String) (hkey : CleanKey key)
    (h : ParentPath p (joinPath q key)) : q ≠ "" ∧ p = q := by
  rcases h with h | ⟨k, hk, h⟩
  · exfalso
    have hd := congrArg String.data h
    rw [joinPath_data, String.data_append] at hd
    exact hkey.not_bracket_end (pathBase q) p.data (pathBase_not_bracket q) hd
  · have hd := congrArg String.data h
    rw [joinPath_data] at hd
    simp only [String.data_append] at hd
    have hd2 : pathBase q ++ key.data = p.data ++ '.' :: k.data := by
      rw [hd]
      simp
    by_cases hq : q = ""
    · exfalso
      unfold pathBase at hd2
      rw [if_pos hq, List.nil_append] at hd2
      apply hkey.2.1
      rw [hd2]
      simp
    · refine ⟨hq, ?_⟩
      rw [pathBase_of_ne q hq] at hd2
      have hd3 : q.data ++ '.' :: key.data = p.data ++ '.' :: k.data := by
        rw [← hd2]
        simp
      exact String.ext (last_separator '.' _ _ _ _ hkey.2.1 hk.2.1 hd3).1.symm

theorem OrderedFrom_mono : ∀ (paths seen seen2 : List String),
    (∀ x ∈ seen, x ∈ seen2) → OrderedFrom seen paths → OrderedFrom seen2 paths
  | [], _, _, _, _ => by simp [OrderedFrom]
  | a :: rest, seen, seen2, hsub, h => by
    rw [OrderedFrom] at h ⊢
    refine ⟨fun p hp => hsub p (h.1 p hp), OrderedFrom_mono rest _ _ ?_ h.2⟩
    intro x hx
    rcases List.mem_cons.1 hx with h1 | h1
    · rw [h1]
      exact List.mem_cons_self _ _
    · exact List.mem_cons_of_mem _ (hsub x h1)

theorem OrderedFrom_append : ∀ (A B seen : List String),
    OrderedFrom seen A → OrderedFrom (A ++ seen) B → OrderedFrom seen (A ++ B)
  | [], B, seen, _, hB => hB
  | a :: A, B, seen, hA, hB => by
    rw [OrderedFrom] at hA
    rw [List.cons_append, OrderedFrom]
    refine ⟨hA.1, OrderedFrom_append A B (a :: seen) hA.2 (OrderedFrom_mono B _ _ ?_ hB)⟩
    intro x hx
    simp only [List.cons_append, List.mem_cons, List.mem_append] at hx ⊢
    tauto

mutual
theorem walk_ordered : ∀ (v : Value) (q : String) (seen : List String),
    WalkClean v → q ∈ seen → OrderedFrom seen (extractParameterPaths v q)
  | .obj fields, q, seen, hc, hq => by
    rw [extractParameterPaths]
    rw [WalkClean] at hc
    exact walkFields_ordered fields q seen hc.2 (fun _ => hq)
  | .arr [], q, seen, _, _ => by simp [extractParameterPaths, OrderedFrom]
  | .arr (first :: _), q, seen, hc, hq => by
    rw [extractParameterPaths, OrderedFrom]
    rw [WalkClean] at hc
    exact ⟨fun p hp => by rw [parent_of_index q p hp]; exact hq,
      walk_ordered first (q ++ "[]") _ hc (List.mem_cons_self _ _)⟩
  | .null, q, seen, _, _ => by simp [extractParameterPaths, OrderedFrom]
  | .bool _, q, seen, _, _ => by simp [extractParameterPaths, OrderedFrom]
  | .float _, q, seen, _, _ => by simp [extractParameterPaths, OrderedFrom]
  | .int _, q, seen, _, _ => by simp [extractParameterPaths, OrderedFrom]
  | .str _, q, seen, _, _ => by simp [extractParameterPaths, OrderedFrom]
theorem walkFields_ordered : ∀ (fields : List (String × Value)) (q : String)
    (seen : List String), WalkCleanFields fields → (q ≠ "" → q ∈ seen) →
    OrderedFrom seen (extractFieldPaths fields q)
  | [], q, seen, _, _ => by simp [extractFieldPaths, OrderedFrom]
  | (key, value) :: rest, q, seen, hc, hq => by
    rw [extractFieldPaths]
    rw [WalkCleanFields] at hc
    apply OrderedFrom_append
    · rw [OrderedFrom]
      refine ⟨fun p hp => ?_,
        walk_ordered value (joinPath q key) _ hc.2.1 (List.mem_cons_self _ _)⟩
      obtain ⟨h1, h2⟩ := parent_of_join q key p hc.1 hp
      rw [h2]
      exact hq h1
    · exact walkFields_ordered rest q _ hc.2.2 (fun h => List.mem_append_right _ (hq h))
end

theorem presenceAt_of_get (M : GoMap ParameterMetric) (x : String) (m : ParameterMetric)
    (h : mapGet M x = some m) : presenceAt M x = m.PresenceCount := by
  unfold presenceAt
  rw [h]

theorem presenceAt_of_none (M : GoMap ParameterMetric) (x : String)
    (h : mapGet M x = none) : presenceAt M x = 0 := by
  unfold presenceAt
  rw [h]

theorem presenceAt_nonneg (M : GoMap ParameterMetric)
    (hpos : ∀ e ∈ M, 1 ≤ e.2.PresenceCount) (x : String) : 0 ≤ presenceAt M x := by
  cases h : mapGet M x with
  | none => rw [presenceAt_of_none M x h]
  | some m =>
    rw [presenceAt_of_get M x m h]
    have h1 : 1 ≤ m.PresenceCount := hpos _ (mapGet_mem M x m h)
    omega

theorem processParameter_presenceAt_ne (L : StdLib) (config : AgentConfig) (hour : Int)
    (request : GoMap Value) (M : GoMap ParameterMetric) (x y : String) (hne : y ≠ x) :
    presenceAt (processParameter L config hour request M x) y = presenceAt M y := by
  unfold presenceAt
  rw [processParameter_get_ne L config hour request M x y hne]

theorem processParameter_presenceAt (L : StdLib) (config : AgentConfig) (hour : Int)
    (request : GoMap Value) (M : GoMap ParameterMetric) (x : String)
    (hpos : ∀ e ∈ M, 1 ≤ e.2.PresenceCount) :
    (1 ≤ presenceAt M x ∧
        presenceAt (processParameter L config hour request M x) x = presenceAt M x + 1 ∧
        (processParameter L config hour request M x).length = M.length) ∨
      (presenceAt M x = 0 ∧ config.MaxParameters ≤ (M.length : Int) ∧
        processParameter L config hour request M x = M) ∨
      (presenceAt M x = 0 ∧ ¬ config.MaxParameters ≤ (M.length : Int) ∧
        presenceAt (processParameter L config hour request M x) x = 1) := by
  cases hget : mapGet M x with
  | some m =>
    left
    have hm : 1 ≤ m.PresenceCount := hpos _ (mapGet_mem M x m hget)
    rw [presenceAt_of_get M x m hget]
    refine ⟨hm, ?_, ?_⟩
    · unfold processParameter
      rw [hget]
      dsimp only
      rw [presenceAt_of_get _ x _ (mapGet_mapSet_self _ _ _)]
      exact (recordObservation_fields L config hour request x m).2.1
    · unfold processParameter
      rw [hget]
      dsimp only
      rw [mapSet_length, if_pos ((mapGet_isSome_iff M x).1 ⟨m, hget⟩)]
  | none =>
    right
    rw [presenceAt_of_none M x hget]
    by_cases hfull : config.MaxParameters ≤ (M.length : Int)
    · left
      refine ⟨rfl, hfull, ?_⟩
      unfold processParameter
      rw [hget]
      dsimp only
      rw [if_pos hfull]
    · right
      refine ⟨rfl, hfull, ?_⟩
      unfold processParameter
      rw [hget]
      dsimp only
      rw [if_neg hfull, presenceAt_of_get _ x _ (mapGet_mapSet_self _ _ _),
        (recordObservation_fields L config hour request x (newMetric x)).2.1]
      rfl

theorem processParameter_positive (L : StdLib) (config : AgentConfig) (hour : Int)
    (request : GoMap Value) (M : GoMap ParameterMetric) (x : String)
    (hpos : ∀ e ∈ M, 1 ≤ e.2.PresenceCount) :
    ∀ e ∈ processParameter L config hour request M x, 1 ≤ e.2.PresenceCount := by
  apply processParameter_forall L config hour request M x (fun e => 1 ≤ e.2.PresenceCount) hpos
  · show 1 ≤ (recordObservation L config hour request x (newMetric x)).PresenceCount
    rw [(recordObservation_fields L config hour request x (newMetric x)).2.1]
    exact le_refl _
  · intro metric hm
    show 1 ≤ (recordObservation L config hour request x metric).PresenceCount
    rw [(recordObservation_fields L config hour request x metric).2.1]
    have h2 : 1 ≤ metric.PresenceCount := hpos _ hm
    omega

theorem foldl_processParameter_parents (L : StdLib) (config : AgentConfig) (hour : Int)
    (request : GoMap Value) :
    ∀ (rest seen : List String) (M : GoMap ParameterMetric),
      rest.Nodup → (∀ x ∈ rest, x ∉ seen) → OrderedFrom seen rest →
      (∀ e ∈ M, 1 ≤ e.2.PresenceCount) →
      (∀ p c, ParentPath p c → presenceAt M c ≤ presenceAt M p) →
      (∀ p c, ParentPath p c → 1 ≤ presenceAt M c → c ∈ rest → p ∈ seen →
        presenceAt M c + 1 ≤ presenceAt M p) →
      (∀ p ∈ seen, presenceAt M p = 0 → config.MaxParameters ≤ (M.length : Int)) →
      (∀ e ∈ rest.foldl (processParameter L config hour request) M, 1 ≤ e.2.PresenceCount) ∧
        ∀ p c, ParentPath p c →
          presenceAt (rest.foldl (processParameter L config hour request) M) c
            ≤ presenceAt (rest.foldl (processParameter L config hour request) M) p
  | [], _, M, _, _, _, hpos, h1a, _, _ => ⟨hpos, h1a⟩
  | x :: rest, seen, M, hnd, hdis, hord, hpos, h1a, h1b, h2 => by
    rw [List.foldl_cons]
    rw [List.nodup_cons] at hnd
    rw [OrderedFrom] at hord
    have hxs : x ∉ seen := hdis x (List.mem_cons_self _ _)
    have hoth := processParameter_presenceAt_ne L config hour request M x
    have hnn := presenceAt_nonneg M hpos
    have hstep := processParameter_presenceAt L config hour request M x hpos
    have hseen : ∀ p, p ∈ seen → p ≠ x := fun p hp h => hxs (by rw [← h]; exact hp)
    apply foldl_processParameter_parents L config hour request rest (x :: seen) _ hnd.2
    · intro y hy hmem
      rcases List.mem_cons.1 hmem with h | h
      · exact hnd.1 (by rw [← h]; exact hy)
      · exact hdis y (List.mem_cons_of_mem _ hy) h
    · exact hord.2
    · exact processParameter_positive L config hour request M x hpos
    · intro p c hpc
      have ha := h1a p c hpc
      rcases hstep with ⟨hx1, hx2, _⟩ | ⟨hx0, _, heq⟩ | ⟨hx0, hnf, hx1⟩
      · by_cases hc : c = x
        · rw [hc] at hpc
          have hps : p ∈ seen := hord.1 p hpc
          have hb := h1b p x hpc hx1 (List.mem_cons_self _ _) hps
          rw [hoth p (hseen p hps), hc, hx2]
          exact hb
        · rw [hoth c hc]
          by_cases hp : p = x
          · rw [hp, hx2]
            rw [hp] at ha
            omega
          · rw [hoth p hp]
            exact ha
      · rw [heq]
        exact ha
      · by_cases hc : c = x
        · rw [hc] at hpc
          have hps : p ∈ seen := hord.1 p hpc
          rw [hoth p (hseen p hps), hc, hx1]
          by_contra hlt
          have h0 : presenceAt M p = 0 := by
            have := hnn p
            omega
          exact hnf (h2 p hps h0)
        · rw [hoth c hc]
          by_cases hp : p = x
          · rw [hp, hx1]
            rw [hp, hx0] at ha
            omega
          · rw [hoth p hp]
            exact ha
    · intro p c hpc hc1 hcr hps
      have hcx : c ≠ x := fun h => hnd.1 (by rw [← h]; exact hcr)
      rw [hoth c hcx] at hc1 ⊢
      have ha := h1a p c hpc
      rcases List.mem_cons.1 hps with hp | hp
      · rw [hp] at ha ⊢
        rcases hstep with ⟨_, hx2, _⟩ | ⟨hx0, _, _⟩ | ⟨hx0, _, _⟩
        · rw [hx2]
          omega
        · exfalso
          omega
        · exfalso
          omega
      · rw [hoth p (hseen p hp)]
        exact h1b p c hpc hc1 (List.mem_cons_of_mem _ hcr) hp
    · intro p hps h0
      rcases hstep with ⟨hx1, hx2, hlen⟩ | ⟨_, hfull, heq⟩ | ⟨_, hnf, hx1⟩
      · rcases List.mem_cons.1 hps with hp | hp
        · exfalso
          rw [hp, hx2] at h0
          omega
        · rw [hoth p (hseen p hp)] at h0
          rw [hlen]
          exact h2 p hp h0
      · rw [heq]
        exact hfull
      · exfalso
        rcases List.mem_cons.1 hps with hp | hp
        · rw [hp, hx1] at h0
          omega
        · rw [hoth p (hseen p hp)] at h0
          exact hnf (h2 p hp h0)

theorem ProcessRequest_parents (L : StdLib) (ea : EdgeAgent) (requestJSON : String)
    (hour : Int)
    (hclean : ∀ request, L.unmarshal requestJSON = .ok request → WalkClean (.obj request))
    (hinv : (∀ e ∈ ea.metrics, 1 ≤ e.2.PresenceCount) ∧
      ∀ p c, ParentPath p c → presenceAt ea.metrics c ≤ presenceAt ea.metrics p) :
    (∀ e ∈ (ProcessRequest L ea requestJSON hour).2.metrics, 1 ≤ e.2.PresenceCount) ∧
      ∀ p c, ParentPath p c →
        presenceAt (ProcessRequest L ea requestJSON hour).2.metrics c
          ≤ presenceAt (ProcessRequest L ea requestJSON hour).2.metrics p := by
  cases hdec : L.unmarshal requestJSON with
  | error err =>
    rw [ProcessRequest_error L ea requestJSON hour err hdec]
    exact hinv
  | ok request =>
    rw [ProcessRequest_ok L ea requestJSON hour request hdec]
    have hc := hclean request hdec
    rw [WalkClean] at hc
    have hnd : (extractParameterPaths (.obj request) "").Nodup := by
      rw [extractParameterPaths]
      exact (walkFields_clean request "" hc.2 hc.1).2
    have hord : OrderedFrom [] (extractParameterPaths (.obj request) "") := by
      rw [extractParameterPaths]
      exact walkFields_ordered request "" [] hc.2 (fun h => absurd rfl h)
    exact foldl_processParameter_parents L ea.config hour request _ [] ea.metrics hnd
      (fun _ _ h => by cases h) hord hinv.1 hinv.2 (fun _ _ _ _ _ h => by cases h)
      (fun _ h => by cases h)

theorem run_parents (L : StdLib) :
    ∀ (calls : List Call) (ea : EdgeAgent), CleanCalls L calls →
      ((∀ e ∈ ea.metrics, 1 ≤ e.2.PresenceCount) ∧
        ∀ p c, ParentPath p c → presenceAt ea.metrics c ≤ presenceAt ea.metrics p) →
      (∀ e ∈ (run L ea calls).metrics, 1 ≤ e.2.PresenceCount) ∧
        ∀ p c, ParentPath p c →
          presenceAt (run L ea calls).metrics c ≤ presenceAt (run L ea calls).metrics p
  | [], _, _, hinv => hinv
  | call :: calls, ea, hclean, hinv => by
    show (∀ e ∈ (run L (step L ea call) calls).metrics, 1 ≤ e.2.PresenceCount) ∧
      ∀ p c, ParentPath p c →
        presenceAt (run L (step L ea call) calls).metrics c
          ≤ presenceAt (run L (step L ea call) calls).metrics p
    apply run_parents L calls (step L ea call)
      (fun requestJSON hour request hmem hdec =>
        hclean requestJSON hour request (List.mem_cons_of_mem _ hmem) hdec)
    cases call with
    | process requestJSON hour =>
      exact ProcessRequest_parents L ea requestJSON hour
        (fun request hdec => hclean requestJSON hour request (List.mem_cons_self _ _) hdec) hinv
    | flush =>
      refine ⟨fun e he => by simp [step, flush] at he, fun p c _ => ?_⟩
      show presenceAt [] c ≤ presenceAt [] p
      exact le_refl _

theorem parents_tracked (M : GoMap ParameterMetric)
    (hinv : (∀ e ∈ M, 1 ≤ e.2.PresenceCount) ∧
      ∀ p c, ParentPath p c → presenceAt M c ≤ presenceAt M p)
    (parent child : String) (hpc : ParentPath parent child) (mc : ParameterMetric)
    (hget : mapGet M child = some mc) :
    ∃ mp, mapGet M parent = some mp ∧ mc.PresenceCount ≤ mp.PresenceCount := by
  have h1 : 1 ≤ mc.PresenceCount := hinv.1 _ (mapGet_mem M child mc hget)
  have h2 := hinv.2 parent child hpc
  rw [presenceAt_of_get M child mc hget] at h2
  cases hp : mapGet M parent with
  | none =>
    rw [presenceAt_of_none M parent hp] at h2
    omega
  | some mp =>
    rw [presenceAt_of_get M parent mp hp] at h2
    exact ⟨mp, rfl, h2⟩

/-! ## Claims -/

/-- C1: from `NewEdgeAgent` with `MaxParameters >= 0`, after any sequence of
`ProcessRequest` and `flush` calls the metrics map holds pairwise distinct
paths, and no more than `MaxParameters` of them. -/
theorem C1_paths_within_MaxParameters (L : StdLib) (config : AgentConfig) (agentID : String)
    (calls : List Call) (hcap : 0 ≤ config.MaxParameters) :
    (mapKeys (run L (NewEdgeAgent config agentID) calls).metrics).Nodup ∧
      ((run L (NewEdgeAgent config agentID) calls).metrics.length : Int)
        ≤ config.MaxParameters := by
  have h := run_invariant L
    (fun ea => ea.config = config ∧ (ea.metrics.length : Int) ≤ config.MaxParameters ∧
      (mapKeys ea.metrics).Nodup)
    (fun ea hinv => ⟨hinv.1, by simpa [flush] using hcap, by simp [flush, mapKeys]⟩)
    (fun ea requestJSON hour hinv => by
      have hb := ProcessRequest_keys_bound L ea requestJSON hour (hinv.1 ▸ ⟨hinv.2.1, hinv.2.2⟩)
      rw [hinv.1] at hb
      exact ⟨(ProcessRequest_config L ea requestJSON hour).trans hinv.1, hb.1, hb.2⟩)
    calls (NewEdgeAgent config agentID)
    ⟨rfl, by simpa [NewEdgeAgent] using hcap, by simp [NewEdgeAgent, mapKeys]⟩
  exact ⟨h.2.2, h.2.1⟩

/-- Witness of C1: the configuration of `main` capped at one path, fed a
two-path document, a malformed text and a flush. -/
theorem C1_paths_within_MaxParameters_witness :
    (mapKeys (run exampleLib (NewEdgeAgent (configWith 1 50 5) "agent-0")
        [Call.process payloadTwo 13, Call.process payloadBad 13, Call.flush,
          Call.process payloadTwo 14]).metrics).Nodup ∧
      ((run exampleLib (NewEdgeAgent (configWith 1 50 5) "agent-0")
        [Call.process payloadTwo 13, Call.process payloadBad 13, Call.flush,
          Call.process payloadTwo 14]).metrics.length : Int)
        ≤ (configWith 1 50 5).MaxParameters :=
  C1_paths_within_MaxParameters exampleLib (configWith 1 50 5) "agent-0" _ (by decide)

/-- C2: from `NewEdgeAgent` with `MaxDimensionCombos >= 0`, after any sequence
of `ProcessRequest` and `flush` calls every tracked metric holds pairwise
distinct tuple keys, and no more than `MaxDimensionCombos` of them; the bound
is on each path's own map. -/
theorem C2_tuples_within_MaxDimensionCombos (L : StdLib) (config : AgentConfig)
    (agentID : String) (calls : List Call) (hcap : 0 ≤ config.MaxDimensionCombos) :
    ∀ e ∈ (run L (NewEdgeAgent config agentID) calls).metrics,
      (mapKeys e.2.DimensionCounts).Nodup ∧
        (e.2.DimensionCounts.length : Int) ≤ config.MaxDimensionCombos := by
  have h := run_invariant L
    (fun ea => ea.config = config ∧ ∀ e ∈ ea.metrics,
      (e.2.DimensionCounts.length : Int) ≤ config.MaxDimensionCombos ∧
        (mapKeys e.2.DimensionCounts).Nodup)
    (fun ea hinv => ⟨hinv.1, by simp [flush]⟩)
    (fun ea requestJSON hour hinv => by
      have hb := ProcessRequest_dims_bound L ea requestJSON hour (hinv.1 ▸ hcap)
        (hinv.1 ▸ hinv.2)
      rw [hinv.1] at hb
      exact ⟨(ProcessRequest_config L ea requestJSON hour).trans hinv.1, hb⟩)
    calls (NewEdgeAgent config agentID) ⟨rfl, by simp [NewEdgeAgent]⟩
  exact fun e he => ⟨(h.2 e he).2, (h.2 e he).1⟩

/-- Witness of C2: two tuples allowed per path; the metric of path `id` after
one ingestion of `{"id":"x"}` is `cappedMetric`. -/
theorem C2_tuples_within_MaxDimensionCombos_witness :
    (mapKeys cappedMetric.DimensionCounts).Nodup ∧
      (cappedMetric.DimensionCounts.length : Int) ≤ (configWith 1000 2 5).MaxDimensionCombos :=
  C2_tuples_within_MaxDimensionCombos exampleLib (configWith 1000 2 5) "agent-0"
    [Call.process payloadId 13] (by decide) ("id", cappedMetric)
    (mapGet_mem _ "id" cappedMetric (by rfl))

/-- C3: whatever the state before, right after `flush` the metrics map is
empty and `totalReqs` and `processedReqs` are zero. -/
theorem C3_flush_resets_window (L : StdLib) (ea : EdgeAgent) :
    (flush L ea).2.metrics = [] ∧ (flush L ea).2.totalReqs = 0 ∧
      (flush L ea).2.processedReqs = 0 :=
  ⟨rfl, rfl, rfl⟩

/-- C4: on a payload that fails to decode, `ProcessRequest` returns an error,
adds one to `totalReqs`, and leaves `processedReqs` and the whole metrics map
as they were. -/
theorem C4_decode_failure_counts_only_total (L : StdLib) (ea : EdgeAgent) (requestJSON : String)
    (hour : Int) (err : String) (hdec : L.unmarshal requestJSON = .error err) :
    (ProcessRequest L ea requestJSON hour).1 = some ("failed to parse JSON: " ++ err) ∧
      (ProcessRequest L ea requestJSON hour).2.totalReqs = ea.totalReqs + 1 ∧
      (ProcessRequest L ea requestJSON hour).2.processedReqs = ea.processedReqs ∧
      (ProcessRequest L ea requestJSON hour).2.metrics = ea.metrics := by
  rw [ProcessRequest_error L ea requestJSON hour err hdec]
  exact ⟨rfl, rfl, rfl, rfl⟩

/-- Witness of C4: a text that is not JSON, after one document was ingested. -/
theorem C4_decode_failure_counts_only_total_witness :
    (ProcessRequest exampleLib (run exampleLib (NewEdgeAgent (configWith 1000 50 5) "agent-0")
        [Call.process payloadId 13]) payloadBad 13).1
        = some ("failed to parse JSON: " ++
            "invalid character 'o' in literal null (expecting 'u')") ∧
      (ProcessRequest exampleLib (run exampleLib (NewEdgeAgent (configWith 1000 50 5) "agent-0")
        [Call.process payloadId 13]) payloadBad 13).2.totalReqs
        = (run exampleLib (NewEdgeAgent (configWith 1000 50 5) "agent-0")
            [Call.process payloadId 13]).totalReqs + 1 ∧
      (ProcessRequest exampleLib (run exampleLib (NewEdgeAgent (configWith 1000 50 5) "agent-0")
        [Call.process payloadId 13]) payloadBad 13).2.processedReqs
        = (run exampleLib (NewEdgeAgent (configWith 1000 50 5) "agent-0")
            [Call.process payloadId 13]).processedReqs ∧
      (ProcessRequest exampleLib (run exampleLib (NewEdgeAgent (configWith 1000 50 5) "agent-0")
        [Call.process payloadId 13]) payloadBad 13).2.metrics
        = (run exampleLib (NewEdgeAgent (configWith 1000 50 5) "agent-0")
            [Call.process payloadId 13]).metrics :=
  C4_decode_failure_counts_only_total exampleLib _ payloadBad 13 _ (by rfl)

/-- C5 (the code at the failing input): with `MaxDimensionCombos = 2` the
document `{"id":"x"}` records its two tuples once each; ingested a second time
in the same hour, path `id` goes to 2/2 but both tuples stay at 1/1, because
`updateDimensionCount` returns before the lookup once the map holds two keys. -/
theorem C5_double_ingestion_leaves_tuples_undoubled :
    countsOf (run exampleLib (NewEdgeAgent (configWith 1000 2 5) "agent-0")
        [Call.process payloadId 13]).metrics "id" = some (1, 1) ∧
      tupleCountsOf (run exampleLib (NewEdgeAgent (configWith 1000 2 5) "agent-0")
        [Call.process payloadId 13]).metrics "id" "request_type:unknown" = some (1, 1) ∧
      tupleCountsOf (run exampleLib (NewEdgeAgent (configWith 1000 2 5) "agent-0")
        [Call.process payloadId 13]).metrics "id" "hour:13" = some (1, 1) ∧
      countsOf (run exampleLib (NewEdgeAgent (configWith 1000 2 5) "agent-0")
        [Call.process payloadId 13, Call.process payloadId 13]).metrics "id" = some (2, 2) ∧
      tupleCountsOf (run exampleLib (NewEdgeAgent (configWith 1000 2 5) "agent-0")
        [Call.process payloadId 13, Call.process payloadId 13]).metrics "id"
        "request_type:unknown" = some (1, 1) ∧
      tupleCountsOf (run exampleLib (NewEdgeAgent (configWith 1000 2 5) "agent-0")
        [Call.process payloadId 13, Call.process payloadId 13]).metrics "id" "hour:13"
        = some (1, 1) := by
  decide

/-- C8 (the code at the failing input): `cappedMetric` is the metric of path
`id` after one ingestion of `{"id":"x"}` with `MaxDimensionCombos = 2`; its
tuple map holds the key of `seenTuple` and is at the cap, and
`updateDimensionCount` leaves that stat at 1/1 instead of 2/2. -/
theorem C8_update_at_cap_skips_existing_key :
    mapGet (run exampleLib (NewEdgeAgent (configWith 1000 2 5) "agent-0")
        [Call.process payloadId 13]).metrics "id" = some cappedMetric ∧
      dimensionKeyToString exampleLib seenTuple = "request_type:unknown" ∧
      (mapGet cappedMetric.DimensionCounts "request_type:unknown").map statCounts
        = some (1, 1) ∧
      (cappedMetric.DimensionCounts.length : Int) = (configWith 1000 2 5).MaxDimensionCombos ∧
      (mapGet (updateDimensionCount exampleLib (configWith 1000 2 5) cappedMetric
          seenTuple).DimensionCounts "request_type:unknown").map statCounts = some (1, 1) :=
  ⟨by rfl, by decide, by decide, by decide, by decide⟩

/-- C6 (counterexample): `{"a.b":1,"a":{"b":2}}` yields the walk
`a.b, a, a.b`, two distinct paths, within `MaxParameters = 1000`; after one
ingestion into a fresh agent the map holds two entries, but path `a.b` has
presence and total count 2, not 1. -/
theorem C6_colliding_paths_counted_twice :
    extractParameterPaths (.obj [("a.b", .float 1), ("a", .obj [("b", .float 2)])]) ""
        = ["a.b", "a", "a.b"] ∧
      ((["a.b", "a", "a.b"] : List String).dedup.length : Int)
        ≤ (configWith 1000 50 5).MaxParameters ∧
      (ProcessRequest exampleLib (NewEdgeAgent (configWith 1000 50 5) "agent-0")
        payloadCollide 13).2.metrics.length = 2 ∧
      countsOf (ProcessRequest exampleLib (NewEdgeAgent (configWith 1000 50 5) "agent-0")
        payloadCollide 13).2.metrics "a.b" = some (2, 2) ∧
      ¬ (∀ p ∈ extractParameterPaths
            (.obj [("a.b", .float 1), ("a", .obj [("b", .float 2)])]) "",
          countsOf (ProcessRequest exampleLib (NewEdgeAgent (configWith 1000 50 5) "agent-0")
            payloadCollide 13).2.metrics p = some (1, 1)) := by
  refine ⟨by decide, by decide, by decide, by decide, ?_⟩
  intro h
  have h2 := h "a.b" (by decide)
  revert h2
  decide

/-- C6 (amended): for a decoded document whose walk yields N distinct paths,
N <= `MaxParameters`, one `ProcessRequest` on a fresh agent leaves exactly N
entries, and every discovered path has presence count = total count = the
number of times the walk yields it; that number is 1 for every path when no
two field locations share a path string. -/
theorem C6_single_ingestion_counts (L : StdLib) (config : AgentConfig) (agentID : String)
    (requestJSON : String) (hour : Int) (request : GoMap Value)
    (hdec : L.unmarshal requestJSON = .ok request)
    (hN : ((extractParameterPaths (.obj request) "").dedup.length : Int)
      ≤ config.MaxParameters) :
    (ProcessRequest L (NewEdgeAgent config agentID) requestJSON hour).2.metrics.length
        = (extractParameterPaths (.obj request) "").dedup.length ∧
      (∀ p ∈ extractParameterPaths (.obj request) "",
        countsOf (ProcessRequest L (NewEdgeAgent config agentID) requestJSON hour).2.metrics p
          = some (((extractParameterPaths (.obj request) "").count p : Int),
              ((extractParameterPaths (.obj request) "").count p : Int))) ∧
      ((extractParameterPaths (.obj request) "").Nodup →
        ∀ p ∈ extractParameterPaths (.obj request) "",
          countsOf (ProcessRequest L (NewEdgeAgent config agentID) requestJSON hour).2.metrics p
            = some (1, 1)) := by
  rw [ProcessRequest_ok L (NewEdgeAgent config agentID) requestJSON hour request hdec]
  have hkeys := foldl_processParameter_keys L config hour request
    (extractParameterPaths (.obj request) "") []
  have hcounts : ∀ p ∈ extractParameterPaths (.obj request) "",
      countsOf ((extractParameterPaths (.obj request) "").foldl
          (processParameter L config hour request) []) p
        = some (((extractParameterPaths (.obj request) "").count p : Int),
            ((extractParameterPaths (.obj request) "").count p : Int)) := by
    intro p hp
    have hin : p ∈ mapKeys ((extractParameterPaths (.obj request) "").foldl
        (processParameter L config hour request) []) := by
      rw [hkeys]
      apply foldl_trackPath_tracked _ _ _ _ p hp
      rw [show mapKeys ([] : GoMap ParameterMetric) = [] from rfl, newPaths_nil]
      simpa using hN
    obtain ⟨r, hr⟩ := (mapGet_isSome_iff _ _).2 hin
    have hc := foldl_processParameter_counts L config hour request _ [] p r hr
    simp only [countsOf, mapGet, Option.map_none', Option.getD_none, zero_add] at hc
    simp [countsOf, hr, hc.1, hc.2]
  refine ⟨?_, hcounts, ?_⟩
  · show ((extractParameterPaths (.obj request) "").foldl
        (processParameter L config hour request) []).length = _
    have hlen := foldl_trackPath_length config.MaxParameters
      (extractParameterPaths (.obj request) "") []
      (by
        have : (0 : Int) ≤ ((extractParameterPaths (.obj request) "").dedup.length : Int) :=
          Int.natCast_nonneg _
        simp only [List.length_nil, Nat.cast_zero]
        omega)
    rw [length_eq_mapKeys_length, hkeys]
    rw [show mapKeys ([] : GoMap ParameterMetric) = [] from rfl]
    rw [newPaths_nil] at hlen
    simp only [List.length_nil, Nat.cast_zero, zero_add] at hlen
    rw [min_eq_right hN] at hlen
    exact_mod_cast hlen
  · intro hnd p hp
    have := hcounts p hp
    rw [List.count_eq_one_of_mem hnd hp] at this
    simpa using this

/-- Witness of C6: the document `{"a":1,"b":2}` with room for 1000 paths. -/
theorem C6_single_ingestion_counts_witness :
    (ProcessRequest exampleLib (NewEdgeAgent (configWith 1000 50 5) "agent-0")
        payloadTwo 13).2.metrics.length
        = (extractParameterPaths (.obj [("a", .float 1), ("b", .float 2)]) "").dedup.length ∧
      (∀ p ∈ extractParameterPaths (.obj [("a", .float 1), ("b", .float 2)]) "",
        countsOf (ProcessRequest exampleLib (NewEdgeAgent (configWith 1000 50 5) "agent-0")
            payloadTwo 13).2.metrics p
          = some (((extractParameterPaths
                (.obj [("a", .float 1), ("b", .float 2)]) "").count p : Int),
              ((extractParameterPaths
                (.obj [("a", .float 1), ("b", .float 2)]) "").count p : Int))) ∧
      ((extractParameterPaths (.obj [("a", .float 1), ("b", .float 2)]) "").Nodup →
        ∀ p ∈ extractParameterPaths (.obj [("a", .float 1), ("b", .float 2)]) "",
          countsOf (ProcessRequest exampleLib (NewEdgeAgent (configWith 1000 50 5) "agent-0")
            payloadTwo 13).2.metrics p = some (1, 1)) :=
  C6_single_ingestion_counts exampleLib (configWith 1000 50 5) "agent-0" payloadTwo 13
    [("a", .float 1), ("b", .float 2)] (by rfl) (by decide)

/-- C7: from a state holding k <= `MaxParameters` paths, ingesting a decoded
document with m distinct untracked paths leaves min(`MaxParameters`, k + m)
paths; `MaxParameters + 1` distinct paths into an empty map leave exactly
`MaxParameters`; and a path of the document that was dropped has no record in
the snapshot of the next flush, whatever is ingested before that flush. -/
theorem C7_path_cap_enforced (L : StdLib) (ea : EdgeAgent) (requestJSON : String) (hour : Int)
    (request : GoMap Value) (hdec : L.unmarshal requestJSON = .ok request)
    (hk : (ea.metrics.length : Int) ≤ ea.config.MaxParameters)
    (hlab : Labelled ea.metrics) :
    ((ProcessRequest L ea requestJSON hour).2.metrics.length : Int)
        = min ea.config.MaxParameters ((ea.metrics.length : Int) +
            ((newPaths (mapKeys ea.metrics)
              (extractParameterPaths (.obj request) "")).length : Int)) ∧
      (ea.metrics = [] →
        ((extractParameterPaths (.obj request) "").dedup.length : Int)
          = ea.config.MaxParameters + 1 →
        ((ProcessRequest L ea requestJSON hour).2.metrics.length : Int)
          = ea.config.MaxParameters) ∧
      (∀ p ∈ extractParameterPaths (.obj request) "",
        mapGet (ProcessRequest L ea requestJSON hour).2.metrics p = none →
        ∀ later : List (String × Int),
          ∀ record ∈ (flush L (run L (ProcessRequest L ea requestJSON hour).2
              (ingestions later))).1.Parameters,
            record.Path ≠ p) := by
  have hlab1 := ProcessRequest_labelled L ea requestJSON hour hlab
  have hcfg := ProcessRequest_config L ea requestJSON hour
  have hkeys : mapKeys (ProcessRequest L ea requestJSON hour).2.metrics
      = (extractParameterPaths (.obj request) "").foldl (trackPath ea.config.MaxParameters)
          (mapKeys ea.metrics) := by
    rw [ProcessRequest_ok L ea requestJSON hour request hdec]
    exact foldl_processParameter_keys L ea.config hour request _ ea.metrics
  have hlen : ((ProcessRequest L ea requestJSON hour).2.metrics.length : Int)
      = min ea.config.MaxParameters ((ea.metrics.length : Int) +
          ((newPaths (mapKeys ea.metrics)
            (extractParameterPaths (.obj request) "")).length : Int)) := by
    rw [length_eq_mapKeys_length, hkeys,
      foldl_trackPath_length _ _ _ (by rw [← length_eq_mapKeys_length]; exact hk),
      ← length_eq_mapKeys_length]
  refine ⟨hlen, ?_, ?_⟩
  · intro hempty hcount
    rw [hlen, hempty]
    rw [show mapKeys ([] : GoMap ParameterMetric) = [] from rfl, newPaths_nil, hcount]
    simp
  · intro p hp hnone later record hrec heq
    have hnot : p ∉ mapKeys (ProcessRequest L ea requestJSON hour).2.metrics :=
      (mapGet_eq_none_iff _ _).1 hnone
    have hfull : (ProcessRequest L ea requestJSON hour).2.config.MaxParameters
        ≤ ((ProcessRequest L ea requestJSON hour).2.metrics.length : Int) := by
      rw [hcfg, length_eq_mapKeys_length, hkeys]
      apply foldl_trackPath_dropped_full _ _ _ p hp
      rw [← hkeys]
      exact hnot
    have hrun := run_ingestions_full L later _ hfull hlab1
    have hin := snapshot_path_tracked L _ hrun.2 record hrec
    rw [hrun.1, heq] at hin
    exact hnot hin

/-- Witness of C7: two new paths into an empty map capped at one path. -/
theorem C7_path_cap_enforced_witness :
    ((ProcessRequest exampleLib (NewEdgeAgent (configWith 1 50 5) "agent-0")
        payloadTwo 13).2.metrics.length : Int)
        = min (NewEdgeAgent (configWith 1 50 5) "agent-0").config.MaxParameters
            (((NewEdgeAgent (configWith 1 50 5) "agent-0").metrics.length : Int) +
              ((newPaths (mapKeys (NewEdgeAgent (configWith 1 50 5) "agent-0").metrics)
                (extractParameterPaths (.obj [("a", .float 1), ("b", .float 2)]) "")).length
                  : Int)) ∧
      ((NewEdgeAgent (configWith 1 50 5) "agent-0").metrics = [] →
        ((extractParameterPaths (.obj [("a", .float 1), ("b", .float 2)]) "").dedup.length
            : Int)
          = (NewEdgeAgent (configWith 1 50 5) "agent-0").config.MaxParameters + 1 →
        ((ProcessRequest exampleLib (NewEdgeAgent (configWith 1 50 5) "agent-0")
            payloadTwo 13).2.metrics.length : Int)
          = (NewEdgeAgent (configWith 1 50 5) "agent-0").config.MaxParameters) ∧
      (∀ p ∈ extractParameterPaths (.obj [("a", .float 1), ("b", .float 2)]) "",
        mapGet (ProcessRequest exampleLib (NewEdgeAgent (configWith 1 50 5) "agent-0")
            payloadTwo 13).2.metrics p = none →
        ∀ later : List (String × Int),
          ∀ record ∈ (flush exampleLib (run exampleLib
              (ProcessRequest exampleLib (NewEdgeAgent (configWith 1 50 5) "agent-0")
                payloadTwo 13).2 (ingestions later))).1.Parameters,
            record.Path ≠ p) :=
  C7_path_cap_enforced exampleLib (NewEdgeAgent (configWith 1 50 5) "agent-0") payloadTwo 13
    [("a", .float 1), ("b", .float 2)] (by rfl) (by decide) (fun e he => by cases he)

/-- C9: in the snapshot of `createCloudPayload` the parameter records are in
non-increasing order of presence count, and so are the dimension records
inside every parameter record. -/
theorem C9_snapshot_ranked (L : StdLib) (ea : EdgeAgent) :
    List.Pairwise (fun a b : ParameterCloudData => b.PresenceCount ≤ a.PresenceCount)
        (createCloudPayload L ea).Parameters ∧
      ∀ record ∈ (createCloudPayload L ea).Parameters,
        List.Pairwise (fun a b : DimensionCloudData => b.PresenceCount ≤ a.PresenceCount)
          record.Dimensions := by
  constructor
  · unfold createCloudPayload
    dsimp only
    refine List.Pairwise.imp ?_ (L.sortSlice_sorted
      (fun a b : ParameterCloudData => decide (a.PresenceCount > b.PresenceCount)) _ ?_ ?_)
    · intro a b h
      simpa using h
    · intro a b h
      simp only [gt_iff_lt, decide_eq_true_eq, decide_eq_false_iff_not, not_lt] at h ⊢
      omega
    · intro a b c h1 h2
      simp only [gt_iff_lt, decide_eq_false_iff_not, not_lt] at h1 h2 ⊢
      omega
  · intro record hrec
    obtain ⟨e, _, heq⟩ := mem_createCloudPayload L ea record hrec
    rw [heq]
    unfold toParameterData
    dsimp only
    refine List.Pairwise.imp ?_ (L.sortSlice_sorted
      (fun a b : DimensionCloudData => decide (a.PresenceCount > b.PresenceCount)) _ ?_ ?_)
    · intro a b h
      simpa using h
    · intro a b h
      simp only [gt_iff_lt, decide_eq_true_eq, decide_eq_false_iff_not, not_lt] at h ⊢
      omega
    · intro a b c h1 h2
      simp only [gt_iff_lt, decide_eq_false_iff_not, not_lt] at h1 h2 ⊢
      omega

/-- C10: the snapshot of `createCloudPayload` carries `totalReqs` and
`processedReqs`, and its parameter list is a rearrangement of one record per
entry of the metrics map: the record has the entry's path, presence count,
total count and sample values, and its dimension list is a rearrangement of
one record per tuple key of that metric, with that stat's two counts. -/
theorem C10_snapshot_mirrors_aggregator (L : StdLib) (ea : EdgeAgent)
    (hlab : Labelled ea.metrics) :
    (createCloudPayload L ea).TotalRequests = ea.totalReqs ∧
      (createCloudPayload L ea).ProcessedReqs = ea.processedReqs ∧
      ∃ records : List ParameterCloudData,
        List.Perm records (createCloudPayload L ea).Parameters ∧
        List.Forall₂
          (fun (e : String × ParameterMetric) (record : ParameterCloudData) =>
            record.Path = e.1 ∧ record.PresenceCount = e.2.PresenceCount ∧
            record.TotalRequests = e.2.TotalRequests ∧
            record.SampleValues = e.2.SampleValues ∧
            List.Perm
              (record.Dimensions.map
                (fun d => (d.DimensionKey, d.PresenceCount, d.TotalRequests)))
              (e.2.DimensionCounts.map
                (fun st => (st.1, st.2.PresenceCount, st.2.TotalRequests))))
          ea.metrics records := by
  refine ⟨rfl, rfl, ea.metrics.map (fun entry => toParameterData L entry.2), ?_, ?_⟩
  · exact (L.sortSlice_perm _ _).symm
  · rw [List.forall₂_map_right_iff, List.forall₂_same]
    intro e he
    refine ⟨hlab e he, rfl, rfl, rfl, ?_⟩
    unfold toParameterData
    dsimp only
    refine ((L.sortSlice_perm _ _).map _).trans ?_
    rw [List.map_map]
    exact List.Perm.refl _

/-- Witness of C10: the state after ingesting `{"a.b":1,"a":{"b":2}}`. -/
theorem C10_snapshot_mirrors_aggregator_witness :
    (createCloudPayload exampleLib (ProcessRequest exampleLib
        (NewEdgeAgent (configWith 1000 50 5) "agent-0") payloadCollide 13).2).TotalRequests
        = (ProcessRequest exampleLib
            (NewEdgeAgent (configWith 1000 50 5) "agent-0") payloadCollide 13).2.totalReqs ∧
      (createCloudPayload exampleLib (ProcessRequest exampleLib
        (NewEdgeAgent (configWith 1000 50 5) "agent-0") payloadCollide 13).2).ProcessedReqs
        = (ProcessRequest exampleLib
            (NewEdgeAgent (configWith 1000 50 5) "agent-0") payloadCollide 13).2.processedReqs ∧
      ∃ records : List ParameterCloudData,
        List.Perm records (createCloudPayload exampleLib (ProcessRequest exampleLib
          (NewEdgeAgent (configWith 1000 50 5) "agent-0") payloadCollide 13).2).Parameters ∧
        List.Forall₂
          (fun (e : String × ParameterMetric) (record : ParameterCloudData) =>
            record.Path = e.1 ∧ record.PresenceCount = e.2.PresenceCount ∧
            record.TotalRequests = e.2.TotalRequests ∧
            record.SampleValues = e.2.SampleValues ∧
            List.Perm
              (record.Dimensions.map
                (fun d => (d.DimensionKey, d.PresenceCount, d.TotalRequests)))
              (e.2.DimensionCounts.map
                (fun st => (st.1, st.2.PresenceCount, st.2.TotalRequests))))
          (ProcessRequest exampleLib
            (NewEdgeAgent (configWith 1000 50 5) "agent-0") payloadCollide 13).2.metrics
          records :=
  C10_snapshot_mirrors_aggregator exampleLib _
    (ProcessRequest_labelled exampleLib _ payloadCollide 13 (fun e he => by cases he))

/-- C11: in every state reached from `NewEdgeAgent` by `ProcessRequest` and
`flush`, every dimension record of the snapshot has total count >= 1 and
0 <= presence count <= total count; its presence rate is defined, equals
presence count / total count, and lies between 0 and 1. -/
theorem C11_presence_rate_defined (L : StdLib) (config : AgentConfig) (agentID : String)
    (calls : List Call) :
    ∀ record ∈ (createCloudPayload L (run L (NewEdgeAgent config agentID) calls)).Parameters,
      ∀ d ∈ record.Dimensions,
        1 ≤ d.TotalRequests ∧ 0 ≤ d.PresenceCount ∧ d.PresenceCount ≤ d.TotalRequests ∧
          ∃ rate : ℚ, d.PresenceRate = some rate ∧
            rate = (d.PresenceCount : ℚ) / (d.TotalRequests : ℚ) ∧ 0 ≤ rate ∧ rate ≤ 1 := by
  intro record hrec d hd
  obtain ⟨e, he, st, hst, hdeq⟩ := mem_snapshot_dimensions L _ record hrec d hd
  have hs := (run_sound L config agentID calls e he).2 st hst
  have hne : st.2.TotalRequests ≠ 0 := by omega
  have hq : ((st.2.TotalRequests : Int) : ℚ) ≠ 0 := by exact_mod_cast hne
  rw [hdeq]
  unfold toDimensionData
  dsimp only
  refine ⟨hs.2, by omega, by omega, (st.2.PresenceCount : ℚ) / (st.2.TotalRequests : ℚ), ?_,
    rfl, ?_, ?_⟩
  · rw [if_neg hne]
  · rw [hs.1, div_self hq]
    exact zero_le_one
  · rw [hs.1, div_self hq]

/-- Witness of C11: the tuple `request_type:unknown` of path `id` in the
snapshot taken after one ingestion of `{"id":"x"}`. -/
theorem C11_presence_rate_defined_witness :
    1 ≤ (toDimensionData ("request_type:unknown",
          ({ PresenceCount := 1, TotalRequests := 1 } : DimensionStat))).TotalRequests ∧
      0 ≤ (toDimensionData ("request_type:unknown",
          ({ PresenceCount := 1, TotalRequests := 1 } : DimensionStat))).PresenceCount ∧
      (toDimensionData ("request_type:unknown",
          ({ PresenceCount := 1, TotalRequests := 1 } : DimensionStat))).PresenceCount
        ≤ (toDimensionData ("request_type:unknown",
          ({ PresenceCount := 1, TotalRequests := 1 } : DimensionStat))).TotalRequests ∧
      ∃ rate : ℚ,
        (toDimensionData ("request_type:unknown",
          ({ PresenceCount := 1, TotalRequests := 1 } : DimensionStat))).PresenceRate
          = some rate ∧
        rate = ((toDimensionData ("request_type:unknown",
            ({ PresenceCount := 1, TotalRequests := 1 } : DimensionStat))).PresenceCount : ℚ)
          / ((toDimensionData ("request_type:unknown",
            ({ PresenceCount := 1, TotalRequests := 1 } : DimensionStat))).TotalRequests : ℚ) ∧
        0 ≤ rate ∧ rate ≤ 1 :=
  C11_presence_rate_defined exampleLib (configWith 1000 2 5) "agent-0"
    [Call.process payloadId 13] (toParameterData exampleLib cappedMetric)
    (List.Mem.head _)
    (toDimensionData ("request_type:unknown", { PresenceCount := 1, TotalRequests := 1 }))
    (List.Mem.head _)

/-- C12: with `MaxSampleValues >= 0`, in every state reached from
`NewEdgeAgent` no metric holds more than `MaxSampleValues` sample values, and
one more `ProcessRequest` keeps every tracked path tracked with its previous
sample list as an initial segment of the new one: values are only appended. -/
theorem C12_samples_first_come (L : StdLib) (config : AgentConfig) (agentID : String)
    (calls : List Call) (requestJSON : String) (hour : Int)
    (hcap : 0 ≤ config.MaxSampleValues) :
    (∀ e ∈ (run L (NewEdgeAgent config agentID) calls).metrics,
        (e.2.SampleValues.length : Int) ≤ config.MaxSampleValues) ∧
      (∀ path metric,
        mapGet (run L (NewEdgeAgent config agentID) calls).metrics path = some metric →
        ∃ after added,
          mapGet (ProcessRequest L (run L (NewEdgeAgent config agentID) calls)
              requestJSON hour).2.metrics path = some after ∧
            after.SampleValues = metric.SampleValues ++ added) := by
  constructor
  · have h := run_invariant L
      (fun ea => ea.config = config ∧
        ∀ e ∈ ea.metrics, (e.2.SampleValues.length : Int) ≤ config.MaxSampleValues)
      (fun ea hinv => ⟨hinv.1, by simp [flush]⟩)
      (fun ea requestJSON hour hinv => by
        have hb := ProcessRequest_samples_bound L ea requestJSON hour (hinv.1 ▸ hcap)
          (hinv.1 ▸ hinv.2)
        rw [hinv.1] at hb
        exact ⟨(ProcessRequest_config L ea requestJSON hour).trans hinv.1, hb⟩)
      calls (NewEdgeAgent config agentID) ⟨rfl, by simp [NewEdgeAgent]⟩
    exact h.2
  · intro path metric hget
    cases hd : L.unmarshal requestJSON with
    | error err =>
      rw [ProcessRequest_error L _ requestJSON hour err hd]
      exact ⟨metric, [], hget, by simp⟩
    | ok request =>
      rw [ProcessRequest_ok L _ requestJSON hour request hd]
      exact foldl_processParameter_samples L _ hour request _ _ path metric hget

/-- Witness of C12: the document `{"id":"x"}` ingested into the state that
already holds it once. -/
theorem C12_samples_first_come_witness :
    (∀ e ∈ (run exampleLib (NewEdgeAgent (configWith 1000 50 5) "agent-0")
          [Call.process payloadId 13]).metrics,
        (e.2.SampleValues.length : Int) ≤ (configWith 1000 50 5).MaxSampleValues) ∧
      (∀ path metric,
        mapGet (run exampleLib (NewEdgeAgent (configWith 1000 50 5) "agent-0")
          [Call.process payloadId 13]).metrics path = some metric →
        ∃ after added,
          mapGet (ProcessRequest exampleLib
              (run exampleLib (NewEdgeAgent (configWith 1000 50 5) "agent-0")
                [Call.process payloadId 13]) payloadId 13).2.metrics path = some after ∧
            after.SampleValues = metric.SampleValues ++ added) :=
  C12_samples_first_come exampleLib (configWith 1000 50 5) "agent-0"
    [Call.process payloadId 13] payloadId 13 (by decide)

/-- C13: a `flush` that directly follows a `flush` builds the all-zero
snapshot: no requests, no processed requests, no parameter record. -/
theorem C13_second_flush_all_zero (L : StdLib) (ea : EdgeAgent) :
    (flush L (flush L ea).2).1.TotalRequests = 0 ∧
      (flush L (flush L ea).2).1.ProcessedReqs = 0 ∧
      (flush L (flush L ea).2).1.Parameters = [] :=
  ⟨rfl, rfl, sortSlice_nil L _⟩

/-- C14: `extractParameterPaths` is the reference walk: a mapping yields, for
each key, the key's path (the bare key under the empty prefix) followed by
the walk of the key's value under that path; a non-empty sequence yields
exactly prefix + "[]" followed by the walk of element 0; a scalar, null or
empty sequence yields nothing. Hence two documents that become equal once
every sequence is cut to its element 0 yield the same paths. -/
theorem C14_walk_is_reference_walk (v : Value) (pfx : String) :
    extractParameterPaths v pfx = referenceWalk v pfx ∧
      (∀ fields : List (String × Value),
        extractParameterPaths (.obj fields) pfx
          = fields.flatMap (fun kv =>
              (if pfx = "" then kv.1 else pfx ++ "." ++ kv.1)
                :: extractParameterPaths kv.2
                    (if pfx = "" then kv.1 else pfx ++ "." ++ kv.1))) ∧
      (∀ (first : Value) (rest : List Value),
        extractParameterPaths (.arr (first :: rest)) pfx
          = (pfx ++ "[]") :: extractParameterPaths first (pfx ++ "[]")) ∧
      (extractParameterPaths (.arr []) pfx = [] ∧ extractParameterPaths .null pfx = [] ∧
        (∀ b, extractParameterPaths (.bool b) pfx = []) ∧
        (∀ x, extractParameterPaths (.float x) pfx = []) ∧
        (∀ n, extractParameterPaths (.int n) pfx = []) ∧
        (∀ s, extractParameterPaths (.str s) pfx = [])) ∧
      (∀ other : Value, dropTails v = dropTails other →
        extractParameterPaths v pfx = extractParameterPaths other pfx) := by
  refine ⟨walk_eq_reference v pfx, ?_, ?_, ?_, ?_⟩
  · intro fields
    rw [extractParameterPaths]
    exact walkFields_flatMap fields pfx
  · intro first rest
    rw [extractParameterPaths]
  · refine ⟨?_, ?_, ?_, ?_, ?_, ?_⟩ <;> simp [extractParameterPaths]
  · intro other h
    rw [← walk_dropTails v pfx, ← walk_dropTails other pfx, h]

/-- Witness of C14: `{"a":[{"b":1},2]}` and `{"a":[{"b":1},{"z":[3]},4]}`
differ only after element 0 of the sequence and yield the same paths. -/
theorem C14_walk_is_reference_walk_witness :
    extractParameterPaths (.obj [("a", .arr [.obj [("b", .float 1)], .float 2])]) ""
      = extractParameterPaths
          (.obj [("a", .arr [.obj [("b", .float 1)], .obj [("z", .arr [.float 3])],
            .float 4])]) "" :=
  (C14_walk_is_reference_walk (.obj [("a", .arr [.obj [("b", .float 1)], .float 2])]) "").2.2.2.2
    (.obj [("a", .arr [.obj [("b", .float 1)], .obj [("z", .arr [.float 3])], .float 4])])
    (by rfl)

/-- C15 (the code at the failing input): in `{"a":5,"a.b":[1]}` the walker
yields the path `a.b[]`; `getParameterValue` follows `a` to the number 5, and
at the segment `b[]` the node is not a mapping, yet the result is 5 and not
nil, and 5 is what `processParameter` samples for that path. On the key
segment `b` the same node does give nil. -/
theorem C15_bracket_segment_on_scalar_not_absent :
    "a.b[]" ∈ extractParameterPaths (.obj [("a", .float 5), ("a.b", .arr [.float 1])]) "" ∧
      splitDots "a.b[]" = ["a", "b[]"] ∧
      (getParameterValue [("a", .float 5), ("a.b", .arr [.float 1])] "a.b[]").isNil = false ∧
      (getParameterValue [("a", .float 5), ("a.b", .arr [.float 1])] "a.b[]").asFloat
        = some 5 ∧
      (recordObservation exampleLib (configWith 1000 50 5) 13
        [("a", .float 5), ("a.b", .arr [.float 1])] "a.b[]"
        (newMetric "a.b[]")).SampleValues.map Value.asFloat = [some 5] ∧
      (getParameterValue [("a", .float 5), ("a.b", .arr [.float 1])] "a.b").isNil = true := by
  refine ⟨by decide, by decide, by decide, by decide, by decide, by decide⟩

/-- C16 (counterexample): the document `{"id":"x"}` carries no device
information at all, and `extractPrimaryDimensions` returns the entries
`request_type` and `hour` only: there is no `device_type` entry. -/
theorem C16_no_device_no_device_type :
    (getObject [("id", .str "x")] "device").isNone = true ∧
      mapKeys (extractPrimaryDimensions exampleLib 13 [("id", .str "x")])
        = ["request_type", "hour"] ∧
      (mapGet (extractPrimaryDimensions exampleLib 13 [("id", .str "x")])
        "device_type").isNone = true := by
  decide

/-- C16 (amended): for a document whose `device` entry is an object,
`extractPrimaryDimensions` returns a `device_type` entry: `device.devicetype`
when the device carries one, otherwise the result of `inferDeviceType`, which
is desktop (2) when no rule of the chain matches. A document without a device
object gets no `device_type` entry (the chain, not consulted, would say 2). -/
theorem C16_device_type_entry (L : StdLib) (hour : Int) (request : GoMap Value) :
    (∀ device, getObject request "device" = some device →
      (∀ v, mapGet device "devicetype" = some v →
        mapGet (extractPrimaryDimensions L hour request) "device_type" = some v) ∧
      (mapGet device "devicetype" = none →
        mapGet (extractPrimaryDimensions L hour request) "device_type"
          = some (.int (inferDeviceType L request))) ∧
      ((∀ rule ∈ deviceTypeRules
            (((mapGet device "ua").bind Value.asString).map L.toLower)
            (((mapGet device "make").bind Value.asString).map L.toLower)
            (((mapGet device "model").bind Value.asString).map L.toLower),
          rule.1 = false) →
        inferDeviceType L request = 2)) ∧
      (getObject request "device" = none →
        mapGet (extractPrimaryDimensions L hour request) "device_type" = none ∧
          inferDeviceType L request = 2) := by
  have hdt := extractPrimaryDimensions_device_type L hour request
  constructor
  · intro device hdev
    rw [hdev] at hdt
    dsimp only at hdt
    refine ⟨?_, ?_, ?_⟩
    · intro v hv
      rw [hdt, hv]
    · intro hnone
      rw [hdt, hnone]
    · intro hrules
      rw [inferDeviceType_eq_firstMatch L request device hdev]
      exact firstMatch_none _ 2 hrules
  · intro hnone
    rw [hnone] at hdt
    exact ⟨hdt, inferDeviceType_no_device L request hnone⟩

/-- Witness of C16: `{"id":"x","device":{"make":"Roku","model":"Roku TV"}}`
has a device object without `devicetype`. -/
theorem C16_device_type_entry_witness :
    mapGet (extractPrimaryDimensions exampleLib 13 docRokuTv) "device_type"
      = some (.int (inferDeviceType exampleLib docRokuTv)) :=
  ((C16_device_type_entry exampleLib 13 docRokuTv).1 deviceRokuTv (by rfl)).2.1 (by rfl)

/-- C17: for a document with a device object, `inferDeviceType` is the
ordered rule chain on the lower-cased strings, first match wins: 3 if the
user agent contains "smart-tv", "tizen", "roku" or "androidtv"; else 1 if it
contains "mobile" or "iphone"; else 3 if the make is roku, samsung or sony and
the model contains "tv"; else 2. A user agent containing "tizen" gives 3 also
when it contains "mobile"; a user agent with "iphone" and none of the four TV
marks gives 1 whatever the make and model. -/
theorem C17_device_type_rule_chain (L : StdLib) (request device : GoMap Value)
    (hdev : getObject request "device" = some device) :
    inferDeviceType L request
        = firstMatch (deviceTypeRules
            (((mapGet device "ua").bind Value.asString).map L.toLower)
            (((mapGet device "make").bind Value.asString).map L.toLower)
            (((mapGet device "model").bind Value.asString).map L.toLower)) 2 ∧
      (∀ ua, (mapGet device "ua").bind Value.asString = some ua →
        strContains (L.toLower ua) "tizen" = true → inferDeviceType L request = 3) ∧
      (∀ ua, (mapGet device "ua").bind Value.asString = some ua →
        (strContains (L.toLower ua) "smart-tv" || strContains (L.toLower ua) "tizen" ||
          strContains (L.toLower ua) "roku" || strContains (L.toLower ua) "androidtv")
          = false →
        strContains (L.toLower ua) "iphone" = true → inferDeviceType L request = 1) := by
  have h := inferDeviceType_eq_firstMatch L request device hdev
  refine ⟨h, ?_, ?_⟩
  · intro ua hua htizen
    rw [h, hua]
    simp [firstMatch, deviceTypeRules, List.find?, htizen]
  · intro ua hua hnotv hiphone
    rw [h, hua]
    simp only [Option.map_some', firstMatch, deviceTypeRules, List.find?, hnotv, hiphone,
      Bool.or_true]

/-- Witness of C17: "Tizen" with "Mobile" in the user agent gives connected
TV; an iPhone user agent with make Roku and model "Roku TV" gives mobile. -/
theorem C17_device_type_rule_chain_witness :
    inferDeviceType exampleLib docTizenMobile = 3 ∧
      inferDeviceType exampleLib docIphoneRoku = 1 :=
  ⟨(C17_device_type_rule_chain exampleLib docTizenMobile deviceTizenMobile (by rfl)).2.1
      "Mozilla/5.0 (Linux; Tizen 2.3) AppleWebKit/537.3 Mobile Safari/537.3" (by rfl)
      (by decide),
    (C17_device_type_rule_chain exampleLib docIphoneRoku deviceIphoneRoku (by rfl)).2.2
      "Mozilla/5.0 (iPhone; CPU iPhone OS 15_0 like Mac OS X)" (by rfl) (by decide)
      (by decide)⟩

/-- C18: the names returned by `extractConditionalDimensions` are those of
the first rule family, in the order user/eids, content, video, device, one of
whose substrings occurs in the path, in the family's order, and none when no
family matches; a path containing "user" yields the user family also when it
contains "device". -/
theorem C18_conditional_names_first_family (L : StdLib) (request : GoMap Value)
    (paramPath : String) :
    mapKeys (extractConditionalDimensions L request paramPath)
        = referenceConditionalNames paramPath ∧
      (strContains paramPath "user" = true →
        mapKeys (extractConditionalDimensions L request paramPath)
          = ["has_user_id", "has_eids"]) ∧
      ((strContains paramPath "user" || strContains paramPath "eids" ||
          strContains paramPath "content" || strContains paramPath "video" ||
          strContains paramPath "device") = false →
        extractConditionalDimensions L request paramPath = []) := by
  refine ⟨?_, ?_, ?_⟩
  · unfold extractConditionalDimensions referenceConditionalNames conditionalFamilies
    by_cases h1 : (strContains paramPath "user" || strContains paramPath "eids") = true
    · simp [List.find?, List.any, h1, mapKeys, mapSet]
    · by_cases h2 : strContains paramPath "content" = true
      · simp [List.find?, List.any, h1, h2, mapKeys, mapSet]
      · by_cases h3 : strContains paramPath "video" = true
        · simp [List.find?, List.any, h1, h2, h3, mapKeys, mapSet]
        · by_cases h4 : strContains paramPath "device" = true
          · simp [List.find?, List.any, h1, h2, h3, h4, mapKeys, mapSet]
          · simp [List.find?, List.any, h1, h2, h3, h4, mapKeys]
  · intro hu
    unfold extractConditionalDimensions
    simp [hu, mapKeys, mapSet]
  · intro hnone
    simp only [Bool.or_eq_false_iff] at hnone
    unfold extractConditionalDimensions
    simp [hnone.1.1.1.1, hnone.1.1.1.2, hnone.1.1.2, hnone.1.2, hnone.2]

/-- C19: among the tuples of `generateDimensionCombinations`, the 1-member
tuples are the entries of the primary mapping, one each; the 2-member tuples
are the |P|*|C| pairs of a primary entry followed by a conditional entry;
every tuple starts with an entry of the primary mapping, so (no name being
both primary and conditional) none starts with or consists of a conditional
dimension. -/
theorem C19_one_and_two_member_tuples (primary conditional : GoMap Value) :
    tuplesOfSize 1 (generateDimensionCombinations primary conditional)
        = singleTuples primary ∧
      tuplesOfSize 2 (generateDimensionCombinations primary conditional)
        = pairTuples primary conditional ∧
      (tuplesOfSize 2 (generateDimensionCombinations primary conditional)).length
        = primary.length * conditional.length ∧
      (∀ key ∈ generateDimensionCombinations primary conditional,
        ∃ p ∈ primary, key.Dimensions.head? = some { Name := p.1, Value := p.2 }) ∧
      ((∀ name ∈ mapKeys primary, name ∉ mapKeys conditional) →
        ∀ key ∈ generateDimensionCombinations primary conditional,
          ∀ d, key.Dimensions.head? = some d → d.Name ∉ mapKeys conditional) := by
  have h1 := singleTuples_length primary
  have h2 := pairTuples_length primary conditional
  have h3 := level3_length primary conditional
  have hhead : ∀ key ∈ generateDimensionCombinations primary conditional,
      ∃ p ∈ primary, key.Dimensions.head? = some { Name := p.1, Value := p.2 } := by
    intro key hkey
    rw [generateDimensionCombinations_eq] at hkey
    rcases List.mem_append.1 hkey with h12 | hl3
    · rcases List.mem_append.1 h12 with hl1 | hl2
      · obtain ⟨p, hp, heq⟩ := List.mem_map.1 hl1
        exact ⟨p, hp, by rw [← heq]; rfl⟩
      · obtain ⟨p, hp, hmem⟩ := List.mem_flatMap.1 hl2
        obtain ⟨c, _, heq⟩ := List.mem_map.1 hmem
        exact ⟨p, hp, by rw [← heq]; rfl⟩
    · split at hl3
      · obtain ⟨name, _, hmem⟩ := List.mem_flatMap.1 hl3
        exact threeWayFor_head primary conditional name key hmem
      · cases hl3
  have hsize2 : tuplesOfSize 2 (generateDimensionCombinations primary conditional)
      = pairTuples primary conditional := by
    rw [generateDimensionCombinations_eq, tuplesOfSize_append, tuplesOfSize_append,
      tuplesOfSize_none 2 1 _ h1 (by decide), tuplesOfSize_all 2 _ h2,
      tuplesOfSize_none 2 3 _ h3 (by decide)]
    simp
  refine ⟨?_, hsize2, ?_, hhead, ?_⟩
  · rw [generateDimensionCombinations_eq, tuplesOfSize_append, tuplesOfSize_append,
      tuplesOfSize_all 1 _ h1, tuplesOfSize_none 1 2 _ h2 (by decide),
      tuplesOfSize_none 1 3 _ h3 (by decide)]
    simp
  · rw [hsize2]
    exact pairTuples_count primary conditional
  · intro hdisj key hkey d hd
    obtain ⟨p, hp, hhd⟩ := hhead key hkey
    rw [hhd] at hd
    have hname : d.Name = p.1 := by
      cases hd
      rfl
    rw [hname]
    exact hdisj p.1 (List.mem_map.2 ⟨p, hp, rfl⟩)

/-- C20: with fewer than two conditional entries `generateDimensionCombinations`
returns no 3-member tuple; with the conditional entries `c0, c1, ...` (two or
more, keys pairwise distinct) it returns exactly one 3-member tuple for each
of the names `device_type` and `request_type` that is a key of the primary
mapping: that primary dimension followed by `c0` and `c1`, two distinct
entries of the conditional mapping. -/
theorem C20_three_member_tuples (primary conditional : GoMap Value)
    (hnd : (mapKeys conditional).Nodup) :
    (conditional.length < 2 →
        tuplesOfSize 3 (generateDimensionCombinations primary conditional) = []) ∧
      (∀ c0 c1 rest, conditional = c0 :: c1 :: rest →
        tuplesOfSize 3 (generateDimensionCombinations primary conditional)
            = anchoredTriples primary c0 c1 ∧
          c0.1 ≠ c1.1 ∧ c0 ∈ conditional ∧ c1 ∈ conditional) ∧
      (2 ≤ conditional.length →
        (tuplesOfSize 3 (generateDimensionCombinations primary conditional)).length
          = (["device_type", "request_type"].filter
              (fun name => (mapGet primary name).isSome)).length) := by
  have h1 := singleTuples_length primary
  have h2 := pairTuples_length primary conditional
  have h3 := level3_length primary conditional
  have hsize3 : tuplesOfSize 3 (generateDimensionCombinations primary conditional)
      = (if conditional.length ≥ 2 then
          ["device_type", "request_type"].flatMap (threeWayFor primary conditional)
        else []) := by
    rw [generateDimensionCombinations_eq, tuplesOfSize_append, tuplesOfSize_append,
      tuplesOfSize_none 3 1 _ h1 (by decide), tuplesOfSize_none 3 2 _ h2 (by decide),
      tuplesOfSize_all 3 _ h3]
    simp
  have hcons : ∀ c0 c1 rest, conditional = c0 :: c1 :: rest →
      tuplesOfSize 3 (generateDimensionCombinations primary conditional)
          = anchoredTriples primary c0 c1 ∧
        c0.1 ≠ c1.1 ∧ c0 ∈ conditional ∧ c1 ∈ conditional := by
    intro c0 c1 rest hC
    have hne : c0.1 ≠ c1.1 := by
      rw [hC] at hnd
      simp only [mapKeys, List.map_cons, List.nodup_cons, List.mem_cons, not_or] at hnd
      exact hnd.1.1
    refine ⟨?_, hne, by rw [hC]; simp, by rw [hC]; simp⟩
    rw [hsize3, hC]
    have hlen : (c0 :: c1 :: rest).length ≥ 2 := by simp
    rw [if_pos hlen]
    unfold anchoredTriples
    simp only [List.flatMap_cons, List.flatMap_nil, List.append_nil,
      threeWayFor_cons_cons primary c0 c1 rest hne]
    cases hdt : mapGet primary "device_type" <;> cases hrt : mapGet primary "request_type" <;>
      simp [List.filterMap, hdt, hrt]
  refine ⟨?_, hcons, ?_⟩
  · intro hlt
    rw [hsize3, if_neg (by omega)]
  · intro hge
    obtain ⟨c0, c1, rest, hC⟩ : ∃ c0 c1 rest, conditional = c0 :: c1 :: rest := by
      cases hc : conditional with
      | nil => rw [hc] at hge; simp at hge
      | cons c0 tail =>
        cases tail with
        | nil => rw [hc] at hge; simp at hge
        | cons c1 rest => exact ⟨c0, c1, rest, rfl⟩
    rw [(hcons c0 c1 rest hC).1]
    unfold anchoredTriples
    cases hdt : mapGet primary "device_type" <;>
      cases hrt : mapGet primary "request_type" <;>
      simp [List.filterMap, List.filter, hdt, hrt]

/-- Witness of C20: the primary dimensions of a device document and the
conditional dimensions of the device family. -/
theorem C20_three_member_tuples_witness :
    (tuplesOfSize 3 (generateDimensionCombinations
        (extractPrimaryDimensions exampleLib 13 docRokuTv)
        (extractConditionalDimensions exampleLib docRokuTv "device.make"))).map
        (dimensionKeyToString exampleLib)
      = ["device_type:3|device_make:roku|has_ifa:false",
          "request_type:unknown|device_make:roku|has_ifa:false"] :=
  (congrArg (List.map (dimensionKeyToString exampleLib))
    (((C20_three_member_tuples (extractPrimaryDimensions exampleLib 13 docRokuTv)
        (extractConditionalDimensions exampleLib docRokuTv "device.make")
        (by decide)).2.1
      ("device_make", .str "roku") ("has_ifa", .bool false) [] (by rfl)).1)).trans (by decide)

/-- C23: when the path is not tracked and the metrics map holds
`MaxParameters` paths or more, `processParameter` leaves the whole map as it
is: no metric is created and no existing metric changes. -/
theorem C23_drop_has_no_effect (L : StdLib) (config : AgentConfig) (hour : Int)
    (request : GoMap Value) (metrics : GoMap ParameterMetric) (paramPath : String)
    (hnew : mapGet metrics paramPath = none)
    (hfull : config.MaxParameters ≤ (metrics.length : Int)) :
    processParameter L config hour request metrics paramPath = metrics := by
  unfold processParameter
  rw [hnew]
  dsimp only
  rw [if_pos hfull]

/-- Witness of C23: one path allowed, `id` tracked, path `device` arrives. -/
theorem C23_drop_has_no_effect_witness :
    processParameter exampleLib (configWith 1 50 5) 13 docRokuTv [("id", cappedMetric)] "device"
      = [("id", cappedMetric)] :=
  C23_drop_has_no_effect exampleLib (configWith 1 50 5) 13 docRokuTv [("id", cappedMetric)]
    "device" (by rfl) (by decide)

/-- C24: for a tracked path, whatever the size of the map, `processParameter`
adds one to the metric's presence count and total count, appends
`getParameterValue(request, path)` to its samples exactly when the list holds
fewer than `MaxSampleValues` values and the value is not nil, keeps the set of
tracked paths and leaves the metric of every other path unchanged. -/
theorem C24_tracked_path_update (L : StdLib) (config : AgentConfig) (hour : Int)
    (request : GoMap Value) (metrics : GoMap ParameterMetric) (paramPath : String)
    (metric : ParameterMetric) (htracked : mapGet metrics paramPath = some metric) :
    (∃ after,
        mapGet (processParameter L config hour request metrics paramPath) paramPath
          = some after ∧
        after.PresenceCount = metric.PresenceCount + 1 ∧
        after.TotalRequests = metric.TotalRequests + 1 ∧
        after.SampleValues
          = if (metric.SampleValues.length : Int) < config.MaxSampleValues ∧
                (getParameterValue request paramPath).isNil = false then
              metric.SampleValues ++ [getParameterValue request paramPath]
            else metric.SampleValues) ∧
      (∀ other, other ≠ paramPath →
        mapGet (processParameter L config hour request metrics paramPath) other
          = mapGet metrics other) ∧
      mapKeys (processParameter L config hour request metrics paramPath) = mapKeys metrics := by
  have hf := recordObservation_fields L config hour request paramPath metric
  refine ⟨⟨recordObservation L config hour request paramPath metric, ?_, hf.2.1, hf.2.2,
    recordObservation_samples_eq L config hour request paramPath metric⟩, ?_, ?_⟩
  · unfold processParameter
    rw [htracked]
    exact mapGet_mapSet_self _ _ _
  · intro other hne
    exact processParameter_get_ne L config hour request metrics paramPath other hne
  · rw [processParameter_keys]
    have hin : paramPath ∈ mapKeys metrics := (mapGet_isSome_iff _ _).1 ⟨metric, htracked⟩
    simp [trackPath, hin]

/-- Witness of C24: path `id` tracked in a map that is at `MaxParameters = 1`. -/
theorem C24_tracked_path_update_witness :
    (∃ after,
        mapGet (processParameter exampleLib (configWith 1 50 5) 13 docRokuTv
          [("id", cappedMetric)] "id") "id" = some after ∧
        after.PresenceCount = cappedMetric.PresenceCount + 1 ∧
        after.TotalRequests = cappedMetric.TotalRequests + 1 ∧
        after.SampleValues
          = if (cappedMetric.SampleValues.length : Int) < (configWith 1 50 5).MaxSampleValues ∧
                (getParameterValue docRokuTv "id").isNil = false then
              cappedMetric.SampleValues ++ [getParameterValue docRokuTv "id"]
            else cappedMetric.SampleValues) ∧
      (∀ other, other ≠ "id" →
        mapGet (processParameter exampleLib (configWith 1 50 5) 13 docRokuTv
          [("id", cappedMetric)] "id") other = mapGet [("id", cappedMetric)] other) ∧
      mapKeys (processParameter exampleLib (configWith 1 50 5) 13 docRokuTv
        [("id", cappedMetric)] "id") = mapKeys [("id", cappedMetric)] :=
  C24_tracked_path_update exampleLib (configWith 1 50 5) 13 docRokuTv [("id", cappedMetric)]
    "id" cappedMetric (by rfl)

/-- C25: `ProcessRequest` returns an error exactly when the payload fails to
decode; a payload that decodes gives no error in any state and under any
caps, whatever is dropped. -/
theorem C25_error_iff_decode_failure (L : StdLib) (ea : EdgeAgent) (requestJSON : String)
    (hour : Int) :
    ((ProcessRequest L ea requestJSON hour).1.isSome = true ↔ decodes L requestJSON = false) ∧
      ((ProcessRequest L ea requestJSON hour).1 = none ↔ decodes L requestJSON = true) := by
  cases hd : L.unmarshal requestJSON with
  | error err =>
    rw [ProcessRequest_error L ea requestJSON hour err hd]
    simp [decodes, hd]
  | ok request =>
    rw [ProcessRequest_ok L ea requestJSON hour request hd]
    simp [decodes, hd]

/-- C26: after any ingestions since a flush, or since `NewEdgeAgent`,
`totalReqs` is the number of calls and `processedReqs` the number of calls
whose payload decoded; in every reachable state, and in its snapshot,
0 <= processed <= total. -/
theorem C26_window_counters (L : StdLib) (config : AgentConfig) (agentID : String)
    (ea : EdgeAgent) (calls : List Call) (payloads : List (String × Int)) :
    ((run L (flush L ea).2 (ingestions payloads)).totalReqs = (payloads.length : Int) ∧
        (run L (flush L ea).2 (ingestions payloads)).processedReqs
          = ((payloads.filter (fun c => decodes L c.1)).length : Int)) ∧
      ((run L (NewEdgeAgent config agentID) (ingestions payloads)).totalReqs
          = (payloads.length : Int) ∧
        (run L (NewEdgeAgent config agentID) (ingestions payloads)).processedReqs
          = ((payloads.filter (fun c => decodes L c.1)).length : Int)) ∧
      (0 ≤ (run L (NewEdgeAgent config agentID) calls).processedReqs ∧
        (run L (NewEdgeAgent config agentID) calls).processedReqs
          ≤ (run L (NewEdgeAgent config agentID) calls).totalReqs) ∧
      (createCloudPayload L (run L (NewEdgeAgent config agentID) calls)).ProcessedReqs
        ≤ (createCloudPayload L (run L (NewEdgeAgent config agentID) calls)).TotalRequests := by
  have hle := run_invariant L
    (fun st => 0 ≤ st.processedReqs ∧ st.processedReqs ≤ st.totalReqs)
    (fun _ _ => ⟨le_refl _, le_refl _⟩)
    (fun st requestJSON hour h => ProcessRequest_counters_le L st requestJSON hour h)
    calls (NewEdgeAgent config agentID) ⟨le_refl _, le_refl _⟩
  refine ⟨?_, ?_, hle, hle.2⟩
  · obtain ⟨h1, h2⟩ := run_ingestions_counters L payloads (flush L ea).2
    rw [h1, h2]
    simp [flush]
  · obtain ⟨h1, h2⟩ := run_ingestions_counters L payloads (NewEdgeAgent config agentID)
    rw [h1, h2]
    simp [NewEdgeAgent]

/-- C27: in every state reached from `NewEdgeAgent` every metric and every
dimension stat has presence count = total count >= 1; every parameter record
of the snapshot has the same, and every dimension record has presence rate
exactly 1. -/
theorem C27_presence_equals_total (L : StdLib) (config : AgentConfig) (agentID : String)
    (calls : List Call) :
    (∀ e ∈ (run L (NewEdgeAgent config agentID) calls).metrics,
        (e.2.PresenceCount = e.2.TotalRequests ∧ 1 ≤ e.2.TotalRequests) ∧
          ∀ st ∈ e.2.DimensionCounts,
            st.2.PresenceCount = st.2.TotalRequests ∧ 1 ≤ st.2.TotalRequests) ∧
      (∀ record ∈ (createCloudPayload L (run L (NewEdgeAgent config agentID) calls)).Parameters,
        (record.PresenceCount = record.TotalRequests ∧ 1 ≤ record.TotalRequests) ∧
          ∀ d ∈ record.Dimensions,
            d.PresenceCount = d.TotalRequests ∧ 1 ≤ d.TotalRequests ∧
              d.PresenceRate = some 1) := by
  have hsound := run_sound L config agentID calls
  refine ⟨hsound, ?_⟩
  intro record hrec
  constructor
  · obtain ⟨e, he, heq⟩ := mem_createCloudPayload L _ record hrec
    rw [heq]
    exact (hsound e he).1
  · intro d hd
    obtain ⟨e, he, st, hst, hdeq⟩ := mem_snapshot_dimensions L _ record hrec d hd
    have hs := (hsound e he).2 st hst
    rw [hdeq]
    exact ⟨hs.1, hs.2, toDimensionData_rate_one st hs⟩

/-- C28 (counterexample): `configNoSampling` differs from the configuration
of `main` only in `SamplingRate` and `FlushIntervalSeconds`, yet the two
snapshots differ: each carries its configuration in its metadata. -/
theorem C28_snapshot_metadata_differs :
    configNoSampling
        = { configWith 1000 50 5 with SamplingRate := 0, FlushIntervalSeconds := 1 } ∧
      (createCloudPayload exampleLib
        (NewEdgeAgent configNoSampling "agent-0")).MetadataConfig.SamplingRate = 0 ∧
      (createCloudPayload exampleLib
        (NewEdgeAgent (configWith 1000 50 5) "agent-0")).MetadataConfig.SamplingRate = 1 ∧
      createCloudPayload exampleLib (NewEdgeAgent configNoSampling "agent-0")
        ≠ createCloudPayload exampleLib (NewEdgeAgent (configWith 1000 50 5) "agent-0") := by
  refine ⟨rfl, rfl, rfl, ?_⟩
  intro h
  have h2 := congrArg (fun payload => payload.MetadataConfig.SamplingRate) h
  revert h2
  decide

/-- C28 (amended): for two configurations that differ only in `SamplingRate`
and `FlushIntervalSeconds`, after every sequence of calls the metrics map and
the two counters are identical, the next call returns the same result, and the
snapshots have identical agent id, counts and parameter records; only the
copy of the configuration in the snapshot's metadata differs. -/
theorem C28_hints_not_consulted (L : StdLib) (config : AgentConfig) (agentID : String)
    (calls : List Call) (rate : ℚ) (interval : Int) (requestJSON : String) (hour : Int) :
    (run L (NewEdgeAgent { config with SamplingRate := rate, FlushIntervalSeconds := interval }
        agentID) calls).metrics = (run L (NewEdgeAgent config agentID) calls).metrics ∧
      (run L (NewEdgeAgent { config with SamplingRate := rate, FlushIntervalSeconds := interval }
        agentID) calls).totalReqs = (run L (NewEdgeAgent config agentID) calls).totalReqs ∧
      (run L (NewEdgeAgent { config with SamplingRate := rate, FlushIntervalSeconds := interval }
        agentID) calls).processedReqs
        = (run L (NewEdgeAgent config agentID) calls).processedReqs ∧
      (ProcessRequest L (run L (NewEdgeAgent
          { config with SamplingRate := rate, FlushIntervalSeconds := interval } agentID) calls)
          requestJSON hour).1
        = (ProcessRequest L (run L (NewEdgeAgent config agentID) calls) requestJSON hour).1 ∧
      (createCloudPayload L (run L (NewEdgeAgent
          { config with SamplingRate := rate, FlushIntervalSeconds := interval } agentID)
          calls)).AgentID
        = (createCloudPayload L (run L (NewEdgeAgent config agentID) calls)).AgentID ∧
      (createCloudPayload L (run L (NewEdgeAgent
          { config with SamplingRate := rate, FlushIntervalSeconds := interval } agentID)
          calls)).TotalRequests
        = (createCloudPayload L (run L (NewEdgeAgent config agentID) calls)).TotalRequests ∧
      (createCloudPayload L (run L (NewEdgeAgent
          { config with SamplingRate := rate, FlushIntervalSeconds := interval } agentID)
          calls)).ProcessedReqs
        = (createCloudPayload L (run L (NewEdgeAgent config agentID) calls)).ProcessedReqs ∧
      (createCloudPayload L (run L (NewEdgeAgent
          { config with SamplingRate := rate, FlushIntervalSeconds := interval } agentID)
          calls)).Parameters
        = (createCloudPayload L (run L (NewEdgeAgent config agentID) calls)).Parameters := by
  have hrun := run_withConfig L calls (NewEdgeAgent config agentID)
    { config with SamplingRate := rate, FlushIntervalSeconds := interval } ⟨rfl, rfl, rfl⟩
  have hnew : NewEdgeAgent { config with SamplingRate := rate, FlushIntervalSeconds := interval }
      agentID = { NewEdgeAgent config agentID with
        config := { config with SamplingRate := rate, FlushIntervalSeconds := interval } } := rfl
  rw [hnew, hrun]
  refine ⟨rfl, rfl, rfl, ?_, rfl, rfl, rfl, rfl⟩
  cases hd : L.unmarshal requestJSON with
  | error err =>
    rw [ProcessRequest_error L _ requestJSON hour err hd,
      ProcessRequest_error L _ requestJSON hour err hd]
  | ok request =>
    rw [ProcessRequest_ok L _ requestJSON hour request hd,
      ProcessRequest_ok L _ requestJSON hour request hd]

/-- C21 (the code at the failing input): for the path `device.make` of
`{"id":"x","device":{"make":"Roku","model":"Roku TV"}}` the conditional mapping
is {device_make: roku, has_ifa: false}. Enumerated in that order the 3-member
tuple anchored on `device_type` gets the key
`device_type:3|device_make:roku|has_ifa:false`; enumerated in the other order
the same logical tuple gets `device_type:3|has_ifa:false|device_make:roku`:
the two sets of keys differ. -/
theorem C21_three_member_key_depends_on_enumeration :
    extractConditionalDimensions exampleLib docRokuTv "device.make"
        = [("device_make", .str "roku"), ("has_ifa", .bool false)] ∧
      List.Perm [("has_ifa", Value.bool false), ("device_make", Value.str "roku")]
        [("device_make", .str "roku"), ("has_ifa", .bool false)] ∧
      "device_type:3|device_make:roku|has_ifa:false" ∈
        (generateDimensionCombinations (extractPrimaryDimensions exampleLib 13 docRokuTv)
          [("device_make", .str "roku"), ("has_ifa", .bool false)]).map
          (dimensionKeyToString exampleLib) ∧
      "device_type:3|device_make:roku|has_ifa:false" ∉
        (generateDimensionCombinations (extractPrimaryDimensions exampleLib 13 docRokuTv)
          [("has_ifa", .bool false), ("device_make", .str "roku")]).map
          (dimensionKeyToString exampleLib) ∧
      "device_type:3|has_ifa:false|device_make:roku" ∈
        (generateDimensionCombinations (extractPrimaryDimensions exampleLib 13 docRokuTv)
          [("has_ifa", .bool false), ("device_make", .str "roku")]).map
          (dimensionKeyToString exampleLib) ∧
      "device_type:3|has_ifa:false|device_make:roku" ∉
        (generateDimensionCombinations (extractPrimaryDimensions exampleLib 13 docRokuTv)
          [("device_make", .str "roku"), ("has_ifa", .bool false)]).map
          (dimensionKeyToString exampleLib) :=
  ⟨by rfl, List.Perm.swap _ _ _, by decide, by decide, by decide, by decide⟩

set_option maxRecDepth 8000 in
/-- C22: with the caps 1000, 50 and 5, ingesting
`{"id":"x","device":{"make":"Roku","model":"Roku TV"}}` into a fresh agent
succeeds and tracks exactly the paths `id`, `device`, `device.make` and
`device.model`, each with presence and total count 1; the device type is
inferred as 3; each path has the tuple `device_type:3` at 1/1, and in the
snapshot each of the four records has a dimension record `device_type:3` with
presence count 1 and presence rate 1. -/
theorem C22_roku_scenario :
    (ProcessRequest exampleLib (NewEdgeAgent (configWith 1000 50 5) "agent-0")
        payloadRokuTv 13).1 = none ∧
      (run exampleLib (NewEdgeAgent (configWith 1000 50 5) "agent-0")
        [Call.process payloadRokuTv 13]).metrics.map
          (fun e => (e.1, e.2.PresenceCount, e.2.TotalRequests))
        = [("id", 1, 1), ("device", 1, 1), ("device.make", 1, 1), ("device.model", 1, 1)] ∧
      inferDeviceType exampleLib docRokuTv = 3 ∧
      (["id", "device", "device.make", "device.model"].map
          (fun path => tupleCountsOf
            (run exampleLib (NewEdgeAgent (configWith 1000 50 5) "agent-0")
              [Call.process payloadRokuTv 13]).metrics path "device_type:3"))
        = [some (1, 1), some (1, 1), some (1, 1), some (1, 1)] ∧
      ((createCloudPayload exampleLib
          (run exampleLib (NewEdgeAgent (configWith 1000 50 5) "agent-0")
            [Call.process payloadRokuTv 13])).Parameters.map
          (fun record => (record.Path, record.PresenceCount)))
        = [("id", 1), ("device", 1), ("device.make", 1), ("device.model", 1)] ∧
      (∀ record ∈ (createCloudPayload exampleLib
          (run exampleLib (NewEdgeAgent (configWith 1000 50 5) "agent-0")
            [Call.process payloadRokuTv 13])).Parameters,
        ∃ d ∈ record.Dimensions,
          d.DimensionKey = "device_type:3" ∧ d.PresenceCount = 1 ∧
            d.PresenceRate = some 1) := by
  refine ⟨by decide, by decide, by decide, by decide, by decide, ?_⟩
  intro record hrec
  have hall : ((createCloudPayload exampleLib
      (run exampleLib (NewEdgeAgent (configWith 1000 50 5) "agent-0")
        [Call.process payloadRokuTv 13])).Parameters.all
      (fun r => r.Dimensions.any
        (fun d => d.DimensionKey == "device_type:3" && d.PresenceCount == 1))) = true := by
    decide
  have hrecord := List.all_eq_true.1 hall record hrec
  obtain ⟨d, hd, hprop⟩ := List.any_eq_true.1 hrecord
  simp only [Bool.and_eq_true, beq_iff_eq] at hprop
  exact ⟨d, hd, hprop.1, hprop.2,
    (snapshot_dimension_sound exampleLib (configWith 1000 50 5) "agent-0"
      [Call.process payloadRokuTv 13] record hrec d hd).2.2⟩

/-- C30 (counterexample): in `{"a.b":1,"a":{"b":2}}` the key `a.b` and the
key `b` under `a` are two field locations with the path `a.b`; in
`{"a":[1],"a[]":2}` the first element of `a` and the key `a[]` share `a[]`;
in `{"":{"a":1},"a":2}` the key `a` under the empty key and the top-level key
`a` share `a`. Each walk contains a duplicate. -/
theorem C30_walk_yields_duplicates :
    extractParameterPaths (.obj [("a.b", .float 1), ("a", .obj [("b", .float 2)])]) ""
        = ["a.b", "a", "a.b"] ∧
      ¬ (extractParameterPaths
          (.obj [("a.b", .float 1), ("a", .obj [("b", .float 2)])]) "").Nodup ∧
      ¬ (extractParameterPaths (.obj [("a", .arr [.float 1]), ("a[]", .float 2)]) "").Nodup ∧
      ¬ (extractParameterPaths
          (.obj [("", .obj [("a", .float 1)]), ("a", .float 2)]) "").Nodup := by
  decide

/-- C30 (amended): for every decoded document in which every mapping the
walk visits has keys that are non-empty, contain no "." and do not end in
"[]" (and, as in any mapping, are pairwise distinct),
`extractParameterPaths(document, "")` gives different path strings to
different field locations: its output contains no duplicate. -/
theorem C30_clean_keys_unique_paths (request : GoMap Value)
    (hclean : WalkClean (.obj request)) :
    (extractParameterPaths (.obj request) "").Nodup := by
  rw [WalkClean] at hclean
  rw [extractParameterPaths]
  exact (walkFields_clean request "" hclean.2 hclean.1).2

/-- Witness of C30: `{"id":"x","device":{"make":"Roku","model":"Roku TV"}}`. -/
theorem C30_clean_keys_unique_paths_witness :
    (extractParameterPaths (.obj docRokuTv) "").Nodup :=
  C30_clean_keys_unique_paths docRokuTv (by
    simp only [WalkClean, WalkCleanFields, CleanKey, docRokuTv, deviceRokuTv]
    decide)

/-- C31: `extractPrimaryDimensions` sets `request_type` to "app" if the
document has an `app` entry, also when it has a `site` entry; else to "site"
if it has a `site` entry; else to "unknown". -/
theorem C31_request_type (L : StdLib) (hour : Int) (request : GoMap Value) :
    mapGet (extractPrimaryDimensions L hour request) "request_type"
        = some (.str (if (mapGet request "app").isSome then "app"
            else if (mapGet request "site").isSome then "site" else "unknown")) ∧
      ((mapGet request "app").isSome = true →
        mapGet (extractPrimaryDimensions L hour request) "request_type" = some (.str "app")) ∧
      ((mapGet request "app").isSome = false → (mapGet request "site").isSome = true →
        mapGet (extractPrimaryDimensions L hour request) "request_type"
          = some (.str "site")) ∧
      ((mapGet request "app").isSome = false → (mapGet request "site").isSome = false →
        mapGet (extractPrimaryDimensions L hour request) "request_type"
          = some (.str "unknown")) := by
  have h := extractPrimaryDimensions_request_type L hour request
  refine ⟨h, ?_, ?_, ?_⟩
  · intro happ
    rw [h, happ]
    rfl
  · intro happ hsite
    rw [h, happ, hsite]
    rfl
  · intro happ hsite
    rw [h, happ, hsite]
    rfl

/-- C32: `extractContentType` returns "live" if the app content's livestream
flag is the number 1, "vod" if app content exists without that, "article" if
there is no app content and the site has a content entry, and "unknown"
otherwise; `hasSeriesInfo` is true exactly when the app content has a
`series` entry. App content is `app.content` with both being mappings. -/
theorem C32_content_type (request : GoMap Value) :
    (∀ content, appContent request = some content →
        (mapGet content "livestream").bind Value.asFloat = some 1 →
        extractContentType request = "live") ∧
      (∀ content, appContent request = some content →
        (mapGet content "livestream").bind Value.asFloat ≠ some 1 →
        extractContentType request = "vod") ∧
      (appContent request = none → hasSiteContent request = true →
        extractContentType request = "article") ∧
      (appContent request = none → hasSiteContent request = false →
        extractContentType request = "unknown") ∧
      (hasSeriesInfo request = true ↔
        ∃ content, appContent request = some content ∧
          (mapGet content "series").isSome = true) := by
  refine ⟨?_, ?_, ?_, ?_, ?_⟩
  · intro content hc hlive
    unfold appContent at hc
    unfold extractContentType
    rw [hc]
    dsimp only
    rw [hlive]
    simp
  · intro content hc hlive
    unfold appContent at hc
    unfold extractContentType
    rw [hc]
    dsimp only
    cases hl : (mapGet content "livestream").bind Value.asFloat with
    | none => rfl
    | some x =>
      have hx : x ≠ 1 := by
        intro h1
        rw [hl, h1] at hlive
        exact hlive rfl
      simp [hx]
  · intro hc hsite
    unfold appContent at hc
    unfold hasSiteContent at hsite
    unfold extractContentType
    rw [hc]
    dsimp only
    cases hs : getObject request "site" with
    | none => rw [hs] at hsite; cases hsite
    | some site =>
      rw [hs] at hsite
      dsimp only at hsite ⊢
      rw [hsite]
      rfl
  · intro hc hsite
    unfold appContent at hc
    unfold hasSiteContent at hsite
    unfold extractContentType
    rw [hc]
    dsimp only
    cases hs : getObject request "site" with
    | none => rfl
    | some site =>
      rw [hs] at hsite
      dsimp only at hsite ⊢
      rw [hsite]
      rfl
  · unfold hasSeriesInfo appContent
    cases hc : (getObject request "app").bind (fun app => getObject app "content") with
    | none => simp
    | some content => simp

/-- C36: `extractPrimaryDimensions` returns 2 to 4 entries, `request_type`
and `hour` among them; `extractConditionalDimensions` returns no entry or
exactly two; one observation generates |P| tuples when there is no
conditional entry and 3*|P| + (how many of `device_type`, `request_type` are
keys of P) when there are two; never more than 14. -/
theorem C36_tuple_counts (L : StdLib) (hour : Int) (request : GoMap Value)
    (paramPath : String) :
    (2 ≤ (extractPrimaryDimensions L hour request).length ∧
        (extractPrimaryDimensions L hour request).length ≤ 4) ∧
      ("request_type" ∈ mapKeys (extractPrimaryDimensions L hour request) ∧
        "hour" ∈ mapKeys (extractPrimaryDimensions L hour request)) ∧
      ((extractConditionalDimensions L request paramPath).length = 0 ∨
        (extractConditionalDimensions L request paramPath).length = 2) ∧
      ((extractConditionalDimensions L request paramPath).length = 0 →
        (generateDimensionCombinations (extractPrimaryDimensions L hour request)
          (extractConditionalDimensions L request paramPath)).length
          = (extractPrimaryDimensions L hour request).length) ∧
      ((extractConditionalDimensions L request paramPath).length = 2 →
        (generateDimensionCombinations (extractPrimaryDimensions L hour request)
          (extractConditionalDimensions L request paramPath)).length
          = 3 * (extractPrimaryDimensions L hour request).length
            + anchorCount (extractPrimaryDimensions L hour request)) ∧
      (generateDimensionCombinations (extractPrimaryDimensions L hour request)
        (extractConditionalDimensions L request paramPath)).length ≤ 14 := by
  have hkeys := extractPrimaryDimensions_keys L hour request
  have hlenP : (extractPrimaryDimensions L hour request).length
      = (mapKeys (extractPrimaryDimensions L hour request)).length :=
    length_eq_mapKeys_length _
  have hP : 2 ≤ (extractPrimaryDimensions L hour request).length ∧
      (extractPrimaryDimensions L hour request).length ≤ 4 := by
    rw [hlenP, hkeys]
    split
    · split <;> simp
    · simp
  have hlenC : (extractConditionalDimensions L request paramPath).length
      = (referenceConditionalNames paramPath).length := by
    rw [length_eq_mapKeys_length, extractConditionalDimensions_keys]
  have hC : (extractConditionalDimensions L request paramPath).length = 0 ∨
      (extractConditionalDimensions L request paramPath).length = 2 := by
    rw [hlenC]
    rcases referenceConditionalNames_cases paramPath with h | h | h | h | h <;> rw [h] <;> simp
  have hanchor : anchorCount (extractPrimaryDimensions L hour request) ≤ 2 := by
    unfold anchorCount
    exact le_trans (List.length_filter_le _ _) (by simp)
  have hlen := generateDimensionCombinations_length (extractPrimaryDimensions L hour request)
    (extractConditionalDimensions L request paramPath)
  refine ⟨hP, ?_, hC, ?_, ?_, ?_⟩
  · rw [hkeys]
    simp
  · intro h0
    rw [hlen, h0, if_neg (by decide)]
    omega
  · intro h2
    rw [hlen, h2, if_pos (by decide)]
    omega
  · rw [hlen]
    rcases hC with h0 | h2
    · rw [h0, if_neg (by decide)]
      omega
    · rw [h2, if_pos (by decide)]
      omega

/-- C37: for two configurations that differ only in `PrimaryDimensions` and
`ConditionalDimensions`, after every sequence of calls the metrics map, the
two counters and the snapshot's parameter records are identical. -/
theorem C37_dimension_lists_not_consulted (L : StdLib) (config : AgentConfig)
    (agentID : String) (calls : List Call) (primaryNames : List String)
    (families : GoMap (List String)) :
    (run L (NewEdgeAgent
          { config with PrimaryDimensions := primaryNames, ConditionalDimensions := families }
          agentID) calls).metrics
        = (run L (NewEdgeAgent config agentID) calls).metrics ∧
      (run L (NewEdgeAgent
          { config with PrimaryDimensions := primaryNames, ConditionalDimensions := families }
          agentID) calls).totalReqs
        = (run L (NewEdgeAgent config agentID) calls).totalReqs ∧
      (run L (NewEdgeAgent
          { config with PrimaryDimensions := primaryNames, ConditionalDimensions := families }
          agentID) calls).processedReqs
        = (run L (NewEdgeAgent config agentID) calls).processedReqs ∧
      (createCloudPayload L (run L (NewEdgeAgent
          { config with PrimaryDimensions := primaryNames, ConditionalDimensions := families }
          agentID) calls)).Parameters
        = (createCloudPayload L (run L (NewEdgeAgent config agentID) calls)).Parameters := by
  have hrun := run_withConfig L calls (NewEdgeAgent config agentID)
    { config with PrimaryDimensions := primaryNames, ConditionalDimensions := families }
    ⟨rfl, rfl, rfl⟩
  have hnew : NewEdgeAgent
      { config with PrimaryDimensions := primaryNames, ConditionalDimensions := families }
      agentID = { NewEdgeAgent config agentID with
        config := { config with
          PrimaryDimensions := primaryNames, ConditionalDimensions := families } } := rfl
  rw [hnew, hrun]
  exact ⟨rfl, rfl, rfl, rfl⟩

/-- C33: in every state reached from `NewEdgeAgent` by `ProcessRequest` and
`flush` calls, the presence count of every tuple record is at most the
presence count of the metric that holds it. One observation of a path adds 1
to the presence count of the metric and at most 1 to the count of any tuple
key, because the tuples generated for one document and path have pairwise
distinct canonical keys. -/
theorem C33_tuple_count_within_metric_count (L : StdLib) (config : AgentConfig)
    (agentID : String) (calls : List Call) :
    (∀ e ∈ (run L (NewEdgeAgent config agentID) calls).metrics,
      ∀ st ∈ e.2.DimensionCounts, st.2.PresenceCount ≤ e.2.PresenceCount) ∧
    (∀ (hour : Int) (request : GoMap Value) (paramPath : String) (metric : ParameterMetric),
      (recordObservation L config hour request paramPath metric).PresenceCount
          = metric.PresenceCount + 1 ∧
        ∀ key : String,
          presenceOf (recordObservation L config hour request paramPath metric).DimensionCounts
              key
            ≤ presenceOf metric.DimensionCounts key + 1) ∧
    (∀ (hour : Int) (request : GoMap Value) (paramPath : String),
      ((generateDimensionCombinations (extractPrimaryDimensions L hour request)
        (extractConditionalDimensions L request paramPath)).map
          (dimensionKeyToString L)).Nodup) :=
  ⟨fun e he => (run_presence L agentID config calls e he).2,
    fun hour request paramPath metric =>
      ⟨(recordObservation_fields L config hour request paramPath metric).2.1,
        recordObservation_once L config hour request paramPath metric⟩,
    observation_keys_nodup L⟩

/-- C34: let a decoded document be such that every mapping the walk visits
has keys that are non-empty, contain no "." and do not end in "[]" (and, as
in any mapping, are pairwise distinct), and no sequence the walk visits has a
sequence as its first element. Then `walkNodes` lists the paths of
`extractParameterPaths(document, "")`, each with the node the walker is at
when it emits the path (the value of the key, or the first element of the
sequence), and `getParameterValue(document, p)` returns that node for every
one of them; the result is nil only when the node is null. -/
theorem C34_lookup_resolves_walk_paths (request : GoMap Value)
    (hclean : WalkClean (.obj request)) (hflat : FlatSequences (.obj request)) :
    (walkNodes (.obj request) "").map Prod.fst = extractParameterPaths (.obj request) "" ∧
      ∀ e ∈ walkNodes (.obj request) "", getParameterValue request e.1 = e.2 :=
  ⟨walkNodes_paths _ _, walk_resolves request hclean hflat⟩

/-- Witness of C34: in `{"id":"x","imp":[{"id":"1"}]}` the path `imp[].id`
resolves to "1". -/
theorem C34_lookup_resolves_walk_paths_witness :
    WalkClean (.obj docImp) ∧ FlatSequences (.obj docImp) ∧
      getParameterValue docImp "imp[].id" = .str "1" :=
  have hclean : WalkClean (.obj docImp) := by
    simp only [WalkClean, WalkCleanFields, CleanKey, docImp]
    decide
  have hflat : FlatSequences (.obj docImp) := by
    simp only [FlatSequences, FlatSequencesFields, docImp, Value.asArray]
    decide
  ⟨hclean, hflat,
    (C34_lookup_resolves_walk_paths docImp hclean hflat).2 ("imp[].id", .str "1") (by
      have hwalk : walkNodes (.obj docImp) ""
          = [("id", .str "x"), ("imp", .arr [.obj [("id", .str "1")]]),
              ("imp[]", .obj [("id", .str "1")]), ("imp[].id", .str "1")] := by
        rfl
      rw [hwalk]
      simp)⟩

/-- C35: when every ingested document that decodes has, in every mapping the
walk visits, only keys that are non-empty, contain no "." and do not end in
"[]" (and, as in any mapping, are pairwise distinct), then in every state
reached from `NewEdgeAgent` by `ProcessRequest` and `flush` calls the tracked
paths are closed under parent: if `child` is tracked and `parent` is `child`
without its trailing "[]" or without its last ".key" segment, then `parent`
is tracked and its presence count is at least the presence count of `child`.
No assumption is made on `MaxParameters`, so this holds also when the cap has
dropped paths. -/
theorem C35_tracked_paths_closed_under_parent (L : StdLib) (config : AgentConfig)
    (agentID : String) (calls : List Call) (hclean : CleanCalls L calls)
    (parent child : String) (hpc : ParentPath parent child) (mc : ParameterMetric)
    (hget : mapGet (run L (NewEdgeAgent config agentID) calls).metrics child = some mc) :
    ∃ mp, mapGet (run L (NewEdgeAgent config agentID) calls).metrics parent = some mp ∧
      mc.PresenceCount ≤ mp.PresenceCount :=
  parents_tracked _
    (run_parents L calls (NewEdgeAgent config agentID) hclean
      ⟨fun e he => by simp [NewEdgeAgent] at he, fun p c _ => le_refl _⟩)
    parent child hpc mc hget

set_option maxRecDepth 8000 in
/-- Witness of C35: after ingesting
`{"id":"x","device":{"make":"Roku","model":"Roku TV"}}` the path `device.make`
is tracked, and so is its parent `device`, with at least its presence count. -/
theorem C35_tracked_paths_closed_under_parent_witness :
    CleanCalls exampleLib [Call.process payloadRokuTv 13] ∧
      ParentPath "device" "device.make" ∧
      ∃ mc mp,
        mapGet (run exampleLib (NewEdgeAgent (configWith 1000 50 5) "agent-0")
          [Call.process payloadRokuTv 13]).metrics "device.make" = some mc ∧
        mapGet (run exampleLib (NewEdgeAgent (configWith 1000 50 5) "agent-0")
          [Call.process payloadRokuTv 13]).metrics "device" = some mp ∧
        mc.PresenceCount ≤ mp.PresenceCount := by
  have hclean : CleanCalls exampleLib [Call.process payloadRokuTv 13] := by
    intro requestJSON hour request hmem hdec
    simp only [List.mem_singleton, Call.process.injEq] at hmem
    rw [hmem.1] at hdec
    have hdoc : exampleLib.unmarshal payloadRokuTv = .ok docRokuTv := by rfl
    rw [hdoc] at hdec
    injection hdec with hreq
    rw [← hreq]
    simp only [WalkClean, WalkCleanFields, CleanKey, docRokuTv, deviceRokuTv]
    decide
  have hpc : ParentPath "device" "device.make" :=
    Or.inr ⟨"make", by unfold CleanKey; decide, by decide⟩
  have hsome : (mapGet (run exampleLib (NewEdgeAgent (configWith 1000 50 5) "agent-0")
      [Call.process payloadRokuTv 13]).metrics "device.make").isSome = true := by
    decide
  obtain ⟨mc, hmc⟩ := Option.isSome_iff_exists.1 hsome
  obtain ⟨mp, hmp, hle⟩ := C35_tracked_paths_closed_under_parent exampleLib
    (configWith 1000 50 5) "agent-0" [Call.process payloadRokuTv 13] hclean
    "device" "device.make" hpc mc hmc
  exact ⟨hclean, hpc, mc, mp, hmc, hmp, hle⟩

end EdgeTelemetry
